import Mathlib

/-!
Verification of irssi `src/core/modules.c`: unique-id allocator, cast guard and module
registry.

A shallow embedding of `modules.c`.  The C file keeps its state in globals
(`modules`, `idlookup`, `uniqids`, `stridlookup`, `uniqstrids`, `next_uniq_id`);
here the state is passed explicitly.

Modelling conventions
* A `GHashTable` is an association list.  `g_hash_table_insert` overwrites the
  value of a key that is already present and adds the pair otherwise,
  `g_hash_table_remove` deletes the key, `g_hash_table_foreach` visits every pair.
* The per-module namespace tables are heap objects referenced from `idlookup` /
  `stridlookup`; here they are stored by value, so a mutation of a namespace is
  written back under the module's key.
* `int` values (local tags, global ids, `next_uniq_id`) are integers; the one piece of
  `int` arithmetic in the file, `next_uniq_id++`, wraps around at 32 bits (`wrap_int`).
  `GINT_TO_POINTER` and `GPOINTER_TO_INT` are the identity on them.
* A `const char *` argument that the code guards with `g_return_val_if_fail` is an
  `Option String` (`none` is `NULL`); other strings are non-null `String`s.
* The argument of `module_uniq_destroy` is a pointer (`NamePtr`): the function frees the
  key of `idlookup` and then reads its argument again, so it matters whether the caller
  passed its own string or, as `modules_deinit` does, the key stored in the table.
* GModule, the signal handlers and the entry points of loaded modules are outside
  `modules.c`; they are the fields of `Loader`.  Native code (an initializer, a
  finalizer, the handlers of a signal) is a function on the state, so it can call back
  into the registry.  Loader calls, entry-point calls and signals are recorded in a trace.
-/

namespace Irssi

/-! ## GLib hash tables -/

/-- A GLib hash table with keys `K` and values `V`, as an association list. -/
abbrev GHashTable (K V : Type) := List (K × V)

/-- GLib `g_hash_table_lookup_extended(t, k, &origkey, &value)`: `some value` when the key
is present (the C function returns TRUE and stores the value), `none` otherwise. -/
def g_hash_table_lookup_extended {K V : Type} [DecidableEq K] :
    GHashTable K V → K → Option V
  | [], _ => none
  | (k', v) :: t, k => if k' = k then some v else g_hash_table_lookup_extended t k

/-- GLib `g_hash_table_lookup(t, k)`: the value or `NULL`; used in `modules.c` only on
tables whose values are non-null table pointers, so `NULL` means absent. -/
def g_hash_table_lookup {K V : Type} [DecidableEq K] (t : GHashTable K V) (k : K) :
    Option V :=
  g_hash_table_lookup_extended t k

/-- GLib `g_hash_table_insert(t, k, v)`: replaces the value of an existing key, adds the
pair otherwise. -/
def g_hash_table_insert {K V : Type} [DecidableEq K] :
    GHashTable K V → K → V → GHashTable K V
  | [], k, v => [(k, v)]
  | (k', v') :: t, k, v =>
    if k' = k then (k', v) :: t else (k', v') :: g_hash_table_insert t k v

/-- GLib `g_hash_table_remove(t, k)`. -/
def g_hash_table_remove {K V : Type} [DecidableEq K] (t : GHashTable K V) (k : K) :
    GHashTable K V :=
  t.filter (fun kv => decide (kv.1 ≠ k))

/-- GLib `g_hash_table_foreach(t, func, user_data)` for a callback that updates a piece of
state `S` (the globals the callback touches). -/
def g_hash_table_foreach {K V S : Type} (t : GHashTable K V) (func : K → V → S → S)
    (s : S) : S :=
  t.foldl (fun acc kv => func kv.1 kv.2 acc) s

/-! ## Unique-id allocator state -/

/-- The allocator globals of `modules.c` (lines 27-29). -/
structure Allocator where
  /-- Reverse map of the numeric tag space: global id to local tag. -/
  uniqids : GHashTable Int Int
  /-- Reverse map of the string tag space: global id to local string tag. -/
  uniqstrids : GHashTable Int String
  /-- Numeric namespaces: module name to (local tag to global id). -/
  idlookup : GHashTable String (GHashTable Int Int)
  /-- String namespaces: module name to (local string tag to global id). -/
  stridlookup : GHashTable String (GHashTable String Int)
  /-- The shared counter. -/
  next_uniq_id : Int
  deriving DecidableEq, Repr

/-- The value an `int` holds after a computation with the mathematical result `x`:
32-bit two's complement wrap-around, so `INT_MAX + 1` is `INT_MIN`. -/
def wrap_int (x : Int) : Int :=
  (x + 2147483648) % 4294967296 - 2147483648

/-- The allocator part of `modules_init` (lines 342-351): four empty tables and
`next_uniq_id = 0`. -/
def modules_init_alloc : Allocator :=
  { uniqids := [], uniqstrids := [], idlookup := [], stridlookup := [],
    next_uniq_id := 0 }

/-- C function `module_get_uniq_id(module, id)` (lines 38-65): the returned global id and the
new allocator state.  `ret = next_uniq_id++` increments an `int`. -/
def module_get_uniq_id (a : Allocator) (module : Option String) (id : Int) :
    Int × Allocator :=
  match module with
  | none => (-1, a)
  | some module =>
    let (ids, idlookup) :=
      match g_hash_table_lookup a.idlookup module with
      | none => (([] : GHashTable Int Int), g_hash_table_insert a.idlookup module [])
      | some ids => (ids, a.idlookup)
    match g_hash_table_lookup_extended ids id with
    | none =>
      let ret := a.next_uniq_id
      (ret, { a with
        next_uniq_id := wrap_int (a.next_uniq_id + 1)
        idlookup := g_hash_table_insert idlookup module (g_hash_table_insert ids id ret)
        uniqids := g_hash_table_insert a.uniqids ret id })
    | some uniqid => (uniqid, { a with idlookup := idlookup })

/-- C function `module_get_uniq_id_str(module, id)` (lines 68-97). -/
def module_get_uniq_id_str (a : Allocator) (module : Option String) (id : String) :
    Int × Allocator :=
  match module with
  | none => (-1, a)
  | some module =>
    let (ids, stridlookup) :=
      match g_hash_table_lookup a.stridlookup module with
      | none => (([] : GHashTable String Int), g_hash_table_insert a.stridlookup module [])
      | some ids => (ids, a.stridlookup)
    match g_hash_table_lookup_extended ids id with
    | none =>
      let saveid := id
      let ret := a.next_uniq_id
      (ret, { a with
        next_uniq_id := wrap_int (a.next_uniq_id + 1)
        stridlookup :=
          g_hash_table_insert stridlookup module (g_hash_table_insert ids saveid ret)
        uniqstrids := g_hash_table_insert a.uniqstrids ret saveid })
    | some uniqid => (uniqid, { a with stridlookup := stridlookup })

/-- C function `module_find_id(module, uniqid)` (lines 100-123): the module-specific id, `-1`
when not found. -/
def module_find_id (a : Allocator) (module : Option String) (uniqid : Int) : Int :=
  match module with
  | none => -1
  | some module =>
    match g_hash_table_lookup_extended a.uniqids uniqid with
    | none => -1
    | some id =>
      match g_hash_table_lookup a.idlookup module with
      | none => -1
      | some idlist =>
        let ret := id
        match g_hash_table_lookup_extended idlist id with
        | none => -1
        | some id' => if id' ≠ uniqid then -1 else ret

/-- C function `module_find_id_str(module, uniqid)` (lines 126-149): the module-specific string
id, `none` (NULL) when not found. -/
def module_find_id_str (a : Allocator) (module : Option String) (uniqid : Int) :
    Option String :=
  match module with
  | none => none
  | some module =>
    match g_hash_table_lookup_extended a.uniqstrids uniqid with
    | none => none
    | some id =>
      match g_hash_table_lookup a.stridlookup module with
      | none => none
      | some idlist =>
        let ret := some id
        match g_hash_table_lookup_extended idlist id with
        | none => none
        | some id' => if id' ≠ uniqid then none else ret

/-- C function `uniq_destroy(key, value)` (lines 151-154), acting on the global `uniqids`. -/
def uniq_destroy (_key : Int) (value : Int) (uniqids : GHashTable Int Int) :
    GHashTable Int Int :=
  g_hash_table_remove uniqids value

/-- C function `uniq_destroy_str(key, value)` (lines 156-160), acting on the global
`uniqstrids`; freeing the key has no counterpart in the model. -/
def uniq_destroy_str (_key : String) (value : Int) (uniqstrids : GHashTable Int String) :
    GHashTable Int String :=
  g_hash_table_remove uniqstrids value

/-- The `const char *module` argument of `module_uniq_destroy`, as a pointer.  A string
owned by the caller is not affected by what the function frees.  The key stored in
`idlookup` or `stridlookup` for a module name is freed when its entry is removed from
the table; `freed` is what the bytes of the key read as afterwards. -/
inductive NamePtr where
  | caller (name : String)
  | idlookup_key (name : String) (freed : String)
  | stridlookup_key (name : String) (freed : String)
  deriving DecidableEq, Repr

/-- The module name a pointer was made for. -/
def NamePtr.name : NamePtr → String
  | .caller name => name
  | .idlookup_key name _ => name
  | .stridlookup_key name _ => name

/-- The string read through the pointer in allocator state `a`: a table key reads as
the name while the table still holds it and as the freed bytes once it was removed. -/
def NamePtr.read (a : Allocator) : NamePtr → String
  | .caller name => name
  | .idlookup_key name freed =>
    if (g_hash_table_lookup a.idlookup name).isSome then name else freed
  | .stridlookup_key name freed =>
    if (g_hash_table_lookup a.stridlookup name).isSome then name else freed

/-- C function `module_uniq_destroy(module)` (lines 164-186).  `module` is read at line
169 and, after `g_free(key)` of line 172, again at line 178. -/
def module_uniq_destroy (a : Allocator) (module : NamePtr) : Allocator :=
  let a1 :=
    match g_hash_table_lookup_extended a.idlookup (module.read a) with
    | some idlist =>
      { a with
        idlookup := g_hash_table_remove a.idlookup (module.read a)
        uniqids := g_hash_table_foreach idlist uniq_destroy a.uniqids }
    | none => a
  match g_hash_table_lookup_extended a1.stridlookup (module.read a1) with
  | some idlist =>
    { a1 with
      stridlookup := g_hash_table_remove a1.stridlookup (module.read a1)
      uniqstrids := g_hash_table_foreach idlist uniq_destroy_str a1.uniqstrids }
  | none => a1

/-! ## Cast guard -/

/-- An object in memory, seen through the one operation the cast guard performs on it:
`G_STRUCT_MEMBER(int, object, type_pos)`, the `int` stored at byte offset `type_pos`. -/
structure Object where
  /-- The `int` read at each offset. -/
  member : Int → Int

/-- C function `module_check_cast(object, type_pos, id)` (lines 31-35); `none` is `NULL`. -/
def module_check_cast (a : Allocator) (object : Option Object) (type_pos : Int)
    (id : Option String) : Option Object :=
  match object with
  | none => none
  | some o => if module_find_id a id (o.member type_pos) = -1 then none else some o

/-! ## Strings -/

/-- GLib `g_strcasecmp` on the characters of two strings: both are compared after
lowering upper-case ASCII letters; the result is the difference of the first pair of
characters that differ (a missing character counts as the terminating `0`). -/
def g_strcasecmp_chars : List Char → List Char → Int
  | [], [] => 0
  | [], c2 :: _ => 0 - (c2.toNat : Int)
  | c1 :: _, [] => (c1.toNat : Int) - 0
  | c1 :: s1, c2 :: s2 =>
    if c1.toLower ≠ c2.toLower then (c1.toLower.toNat : Int) - (c2.toLower.toNat : Int)
    else g_strcasecmp_chars s1 s2

/-- GLib `g_strcasecmp(s1, s2)`. -/
def g_strcasecmp (s1 s2 : String) : Int :=
  g_strcasecmp_chars s1.toList s2.toList

/-- GLib `g_path_is_absolute(file_name)` with `G_DIR_SEPARATOR = '/'`. -/
def g_path_is_absolute (file_name : String) : Bool :=
  match file_name.toList with
  | c :: _ => decide (c = '/')
  | [] => false

/-- C `strrchr(s, c)`: the suffix of `s` that starts at the last occurrence of `c`,
`none` (NULL) when `c` does not occur. -/
def strrchr : List Char → Char → Option (List Char)
  | [], _ => none
  | x :: t, c =>
    match strrchr t c with
    | some r => some r
    | none => if x = c then some (x :: t) else none

/-- C `strstr(haystack, needle)`: the offset of the first occurrence of `needle` in
`haystack`, `none` (NULL) when there is none. -/
def strstr : List Char → List Char → Option Nat
  | [], needle => if needle.isEmpty then some 0 else none
  | x :: t, needle =>
    if needle.isPrefixOf (x :: t) then some 0
    else (strstr t needle).map (fun i => i + 1)

/-- C function `module_get_name(path)` (lines 202-224). -/
def module_get_name (path : String) : String :=
  let name : Option (List Char) :=
    if g_path_is_absolute path then
      (strrchr path.toList '/').map (fun name => name.drop 1)
    else none
  let name : List Char :=
    match name with
    | none => path.toList
    | some name => name
  let name : List Char := if name.take 3 = ['l', 'i', 'b'] then name.drop 3 else name
  let module_name := name
  match strstr module_name ['.', 's', 'o'] with
  | some ptr => String.mk (module_name.take ptr)
  | none => String.mk module_name

/-! ## Module registry -/

/-- A `GModule *` handle returned by the platform loader. -/
abbrev GModule := Nat

/-- Modelled from the spec: `MODULE_REC` of `modules.h`, with the fields `modules.c`
uses (name and library handle).  Records are compared by address in C; the model
identifies a record with its contents. -/
structure MODULE_REC where
  name : String
  gmodule : GModule
  deriving DecidableEq, Repr

/-- Modelled from the spec: the error kinds of `modules.h` passed with the
"module error" signal (AlreadyLoaded, LoadError, InvalidModule). -/
inductive ModuleError where
  | MODULE_ERROR_ALREADY_LOADED
  | MODULE_ERROR_LOAD
  | MODULE_ERROR_INVALID
  deriving DecidableEq, Repr

/-- Effects of the registry visible outside `modules.c`: signals emitted, calls to the
platform loader, and calls of resolved module entry points. -/
inductive Event where
  /-- Signal `signal_emit("module error", 3, error, module, text)`. -/
  | module_error (error : ModuleError) (module : String) (text : Option String)
  /-- Signal `signal_emit("module loaded", 1, rec)`. -/
  | module_loaded (rec : MODULE_REC)
  /-- Signal `signal_emit("module unloaded", 1, rec)`. -/
  | module_unloaded (rec : MODULE_REC)
  /-- Call `g_module_open(path, 0)` and whether it gave a handle. -/
  | g_module_open (path : String) (result : Option GModule)
  /-- Call `g_module_symbol(gmodule, symbol, &ptr)` and whether it resolved. -/
  | g_module_symbol (gmodule : GModule) (symbol : String) (found : Bool)
  /-- Call `g_module_close(gmodule)`. -/
  | g_module_close (gmodule : GModule)
  /-- A call of the function resolved for `symbol` in `gmodule`. -/
  | call (gmodule : GModule) (symbol : String)
  deriving DecidableEq, Repr

/-- All globals of `modules.c` and the trace of effects performed so far. -/
structure State where
  /-- The loaded set, `GSList *modules`. -/
  modules : List MODULE_REC
  /-- The unique-id allocator globals. -/
  alloc : Allocator
  /-- Effects in the order they happened. -/
  trace : List Event
  deriving DecidableEq, Repr

/-- What lies outside `modules.c`: GModule, the build-time module directory, the home
directory and the handlers connected to the signals.  A resolved entry point is native
code; it is given by its effect on the state, and so is the handling of a signal. -/
structure Loader where
  /-- Value of `g_module_supported()`. -/
  g_module_supported : Bool
  /-- The result of `g_module_open(path, 0)`; `none` is NULL. -/
  g_module_open : String → Option GModule
  /-- The function `g_module_symbol` resolves, `none` when it returns FALSE. -/
  g_module_symbol : GModule → String → Option (State → State)
  /-- Value of `g_module_error()`. -/
  g_module_error : String
  /-- Value of `g_module_build_path(directory, module_name)`. -/
  g_module_build_path : String → String → String
  /-- The macro `MODULEDIR`. -/
  MODULEDIR : String
  /-- Value of `g_get_home_dir()`. -/
  g_get_home_dir : String
  /-- What the handlers connected to a signal do when it is emitted. -/
  signal_handlers : Event → State → State

/-- Modelled from the spec: `signal_emit(...)` of the notification bus (`signals.c`).
The notification is recorded in the trace and delivered synchronously to the handlers,
which run before `signal_emit` returns and may call back into the registry. -/
def signal_emit (env : Loader) (e : Event) (s : State) : State :=
  env.signal_handlers e { s with trace := s.trace ++ [e] }

/-- A call `g_module_open(path, 0)`, recorded in the trace. -/
def do_g_module_open (env : Loader) (path : String) (s : State) : Option GModule × State :=
  (env.g_module_open path,
    { s with trace := s.trace ++ [Event.g_module_open path (env.g_module_open path)] })

/-- C function `module_find(name)` (lines 188-200) on the loaded set. -/
def module_find : List MODULE_REC → String → Option MODULE_REC
  | [], _ => none
  | rec :: tmp, name =>
    if g_strcasecmp rec.name name = 0 then some rec else module_find tmp name

/-- C function `module_open(name)` (lines 226-249). -/
def module_open (env : Loader) (name : String) (s : State) : Option GModule × State :=
  if g_path_is_absolute name then
    do_g_module_open env name s
  else
    let path := env.g_module_build_path env.MODULEDIR name
    match do_g_module_open env path s with
    | (some module, s1) => (some module, s1)
    | (none, s1) =>
      let str := env.g_get_home_dir ++ "/.irssi/modules"
      let path := env.g_module_build_path str name
      do_g_module_open env path s1

/-- C function `module_load_name(path, name)` (lines 254-291); the Boolean is the C return
value. -/
def module_load_name (env : Loader) (path name : String) (s : State) : Bool × State :=
  match module_find s.modules name with
  | some _ =>
    (false,
      signal_emit env (Event.module_error ModuleError.MODULE_ERROR_ALREADY_LOADED name none) s)
  | none =>
    match module_open env path s with
    | (none, s1) =>
      (false, signal_emit env
        (Event.module_error ModuleError.MODULE_ERROR_LOAD name (some env.g_module_error)) s1)
    | (some gmodule, s1) =>
      let initfunc := name ++ "_init"
      match env.g_module_symbol gmodule initfunc with
      | none =>
        let s2 := { s1 with trace := s1.trace ++ [Event.g_module_symbol gmodule initfunc false] }
        let s3 :=
          signal_emit env (Event.module_error ModuleError.MODULE_ERROR_INVALID name none) s2
        (false, { s3 with trace := s3.trace ++ [Event.g_module_close gmodule] })
      | some module_init =>
        let s2 := { s1 with trace := s1.trace ++ [Event.g_module_symbol gmodule initfunc true] }
        let record : MODULE_REC := { name := name, gmodule := gmodule }
        let s3 := { s2 with modules := s2.modules ++ [record] }
        let s4 := module_init { s3 with trace := s3.trace ++ [Event.call gmodule initfunc] }
        (true, signal_emit env (Event.module_loaded record) s4)

/-- C function `module_load(path)` (lines 293-308). -/
def module_load (env : Loader) (path : Option String) (s : State) : Bool × State :=
  match path with
  | none => (false, s)
  | some path =>
    if !env.g_module_supported then (false, s)
    else
      let name := module_get_name path
      module_load_name env path name s

/-- C function `module_unload(module)` (lines 310-331). -/
def module_unload (env : Loader) (module : Option MODULE_REC) (s : State) : State :=
  match module with
  | none => s
  | some module =>
    let s1 := { s with modules := s.modules.erase module }
    let s2 := signal_emit env (Event.module_unloaded module) s1
    let deinitfunc := module.name ++ "_deinit"
    let s3 :=
      match env.g_module_symbol module.gmodule deinitfunc with
      | some module_deinit =>
        module_deinit { s2 with trace := s2.trace ++
          [Event.g_module_symbol module.gmodule deinitfunc true,
           Event.call module.gmodule deinitfunc] }
      | none =>
        { s2 with trace := s2.trace ++ [Event.g_module_symbol module.gmodule deinitfunc false] }
    { s3 with trace := s3.trace ++ [Event.g_module_close module.gmodule] }

/-- C function `modules_init()` (lines 338-352). -/
def modules_init : State :=
  { modules := [], alloc := modules_init_alloc, trace := [] }

/-! ## Runs of the allocator -/

/-- A call of one of the three allocator operations that change state, made from outside
`modules.c`; `module_uniq_destroy` is then called with a string of the caller. -/
inductive AllocOp where
  | get_uniq_id (module : Option String) (id : Int)
  | get_uniq_id_str (module : Option String) (id : String)
  | uniq_destroy (module : String)
  deriving DecidableEq, Repr

/-- The allocator state after one call. -/
def AllocOp.step (a : Allocator) : AllocOp → Allocator
  | .get_uniq_id module id => (module_get_uniq_id a module id).2
  | .get_uniq_id_str module id => (module_get_uniq_id_str a module id).2
  | .uniq_destroy module => module_uniq_destroy a (.caller module)

/-- The global id a call returns (`module_uniq_destroy` returns nothing). -/
def AllocOp.returned (a : Allocator) : AllocOp → Option Int
  | .get_uniq_id module id => some (module_get_uniq_id a module id).1
  | .get_uniq_id_str module id => some (module_get_uniq_id_str a module id).1
  | .uniq_destroy _ => none

/-- The allocator state after a sequence of calls, started in `a`. -/
def runOps (a : Allocator) : List AllocOp → Allocator
  | [] => a
  | op :: ops => runOps (op.step a) ops

/-- All global ids returned by the calls of a sequence started in `a`, in order. -/
def returnedIds (a : Allocator) : List AllocOp → List Int
  | [] => []
  | op :: ops =>
    match op.returned a with
    | some r => r :: returnedIds (op.step a) ops
    | none => returnedIds (op.step a) ops

/-- An allocator state reachable from `modules_init` by calls of `module_get_uniq_id`,
`module_get_uniq_id_str` and `module_uniq_destroy`. -/
def Reachable (a : Allocator) : Prop :=
  ∃ ops : List AllocOp, runOps modules_init_alloc ops = a

/-! ## One tag space, generically

The numeric and the string tag space run the same algorithm on different tables.
The definitions below restate that algorithm once, for an arbitrary key type; they are
used only to share proofs and are related to the embedded C functions by
`module_get_uniq_id_eq`, `module_find_id_eq` and their companions. -/

/-- The allocation step of `module_get_uniq_id` / `module_get_uniq_id_str` on the
tables of one tag space: returned id, namespaces, reverse map, counter. -/
def uniq_get {K : Type} [DecidableEq K] (lk : GHashTable String (GHashTable K Int))
    (rev : GHashTable Int K) (next : Int) (m : String) (x : K) :
    Int × GHashTable String (GHashTable K Int) × GHashTable Int K × Int :=
  let (ids, lk1) :=
    match g_hash_table_lookup lk m with
    | none => (([] : GHashTable K Int), g_hash_table_insert lk m [])
    | some ids => (ids, lk)
  match g_hash_table_lookup_extended ids x with
  | none =>
    (next, g_hash_table_insert lk1 m (g_hash_table_insert ids x next),
      g_hash_table_insert rev next x, next + 1)
  | some uniqid => (uniqid, lk1, rev, next)

/-- The lookup of `module_find_id` / `module_find_id_str` on one tag space. -/
def uniq_find {K : Type} [DecidableEq K] (lk : GHashTable String (GHashTable K Int))
    (rev : GHashTable Int K) (m : String) (uniqid : Int) : Option K :=
  match g_hash_table_lookup_extended rev uniqid with
  | none => none
  | some id =>
    match g_hash_table_lookup lk m with
    | none => none
    | some idlist =>
      match g_hash_table_lookup_extended idlist id with
      | none => none
      | some id' => if id' ≠ uniqid then none else some id

/-- One of the two halves of `module_uniq_destroy` on one tag space. -/
def uniq_purge {K : Type} [DecidableEq K] (lk : GHashTable String (GHashTable K Int))
    (rev : GHashTable Int K) (m : String) :
    GHashTable String (GHashTable K Int) × GHashTable Int K :=
  match g_hash_table_lookup_extended lk m with
  | some idlist =>
    (g_hash_table_remove lk m,
      g_hash_table_foreach idlist (fun _ value r => g_hash_table_remove r value) rev)
  | none => (lk, rev)

/-- The pair `(m, x)` is registered with global id `g` in a tag space. -/
def Registered {K : Type} [DecidableEq K] (lk : GHashTable String (GHashTable K Int))
    (m : String) (x : K) (g : Int) : Prop :=
  ∃ ids, g_hash_table_lookup lk m = some ids ∧ g_hash_table_lookup_extended ids x = some g

/-- The global ids handed out by the first `n` allocating calls after `modules_init`:
the values the `int` counter takes on its way up from `0`. -/
def Issued (n : Nat) (g : Int) : Prop :=
  ∃ i : Nat, i < n ∧ g = wrap_int i

/-- Consistency of one tag space after `n` allocations: every namespace entry is
mirrored in the reverse map, a global id occurs in the namespace of one module only, and
every key of the reverse map is one of the first `n` ids handed out. -/
structure SpaceInv {K : Type} [DecidableEq K] (lk : GHashTable String (GHashTable K Int))
    (rev : GHashTable Int K) (n : Nat) : Prop where
  fwd : ∀ m ids x g, g_hash_table_lookup lk m = some ids → (x, g) ∈ ids →
    g_hash_table_lookup_extended rev g = some x
  own : ∀ m m' ids ids' x x' g, g_hash_table_lookup lk m = some ids →
    g_hash_table_lookup lk m' = some ids' → (x, g) ∈ ids → (x', g) ∈ ids' → m = m'
  bound : ∀ g x, g_hash_table_lookup_extended rev g = some x → Issued n g

/-- The allocator invariant after `n` allocations: both tag spaces are consistent and
share no global id, and the counter has been incremented `n` times. -/
structure Inv (a : Allocator) (n : Nat) : Prop where
  num : SpaceInv a.idlookup a.uniqids n
  str : SpaceInv a.stridlookup a.uniqstrids n
  disj : ∀ g x, g_hash_table_lookup_extended a.uniqids g = some x →
    g_hash_table_lookup_extended a.uniqstrids g = none
  next_eq : a.next_uniq_id = wrap_int n

/-! ## Teardown -/

/-- C function `uniq_get_modules(key, value, list)` (lines 333-336): `g_slist_append`
of the key.  The key is the pointer stored in the table; `ptr` says which pointer
stands for the key of a given name. -/
def uniq_get_modules {V : Type} (ptr : String → NamePtr) (key : String) (_value : V)
    (list : List NamePtr) : List NamePtr :=
  list ++ [ptr key]

/-- The `while` loop of `modules_deinit` (lines 362-365).  `g_slist_remove(list,
list->data)` unlinks the first node that holds the pointer `list->data`, which is the
head node, so the loop continues with the rest of the list.  The result is the names
whose keys were passed to `module_uniq_destroy`, in order, and the allocator after the
last call. -/
def modules_deinit_loop : List NamePtr → List String × Allocator → List String × Allocator
  | [], acc => acc
  | data :: rest, (calls, a) =>
    modules_deinit_loop rest (calls ++ [data.name], module_uniq_destroy a data)

/-- C function `modules_deinit()` (lines 354-371) up to the point where the four tables
are freed: the names whose keys it passes to `module_uniq_destroy`, in order, and the
allocator state left by the calls.  `freed` gives what a table key reads as after it
was freed. -/
def modules_deinit (freed : String → String) (a : Allocator) : List String × Allocator :=
  let list : List NamePtr := []
  let list := g_hash_table_foreach a.idlookup
    (uniq_get_modules (fun key => NamePtr.idlookup_key key (freed key))) list
  let list := g_hash_table_foreach a.stridlookup
    (uniq_get_modules (fun key => NamePtr.stridlookup_key key (freed key))) list
  modules_deinit_loop list ([], a)

/-! ## Notions used to state the claims -/

/-- Whether a call consumes a value of `next_uniq_id`, that is, allocates a new id. -/
def AllocOp.allocates (a : Allocator) (op : AllocOp) : Bool :=
  decide ((op.step a).next_uniq_id ≠ a.next_uniq_id)

/-- The number of allocating calls in a sequence started in `a`. -/
def allocCount (a : Allocator) : List AllocOp → Nat
  | [] => 0
  | op :: ops => (if op.allocates a then 1 else 0) + allocCount (op.step a) ops

/-- An allocator state reached from `modules_init` by a sequence of calls of which at
most `k` allocated an id.  With `k = 2 ^ 31 - 1` the counter `next_uniq_id` never was
incremented at `INT_MAX`; with `k = 2 ^ 32` it has at most come back to `0`. -/
def ReachableWithin (k : Nat) (a : Allocator) : Prop :=
  ∃ ops : List AllocOp, runOps modules_init_alloc ops = a ∧
    allocCount modules_init_alloc ops ≤ k

/-- Every entry of the reverse map of a tag space comes from a namespace entry. -/
def SpaceBack {K : Type} [DecidableEq K] (lk : GHashTable String (GHashTable K Int))
    (rev : GHashTable Int K) : Prop :=
  ∀ g x, g_hash_table_lookup_extended rev g = some x → ∃ m, Registered lk m x g

/-- The keys of a table, in table order. -/
def keys {K V : Type} (t : GHashTable K V) : List K :=
  t.map Prod.fst

/-- A string that can be a C string: it holds no NUL character. -/
def IsCString (s : String) : Prop :=
  Char.ofNat 0 ∉ s.toList

instance (s : String) : Decidable (IsCString s) := by
  unfold IsCString
  infer_instance

/-- Two names are equal ignoring ASCII letter case. -/
def EqIgnoreAsciiCase (a b : String) : Prop :=
  a.toList.map Char.toLower = b.toList.map Char.toLower

instance (a b : String) : Decidable (EqIgnoreAsciiCase a b) := by
  unfold EqIgnoreAsciiCase
  infer_instance

/-- No two records of the loaded set have names that `g_strcasecmp` reports equal. -/
def NoDupNames (modules : List MODULE_REC) : Prop :=
  modules.Pairwise (fun r1 r2 => g_strcasecmp r1.name r2.name ≠ 0)

instance (modules : List MODULE_REC) : Decidable (NoDupNames modules) := by
  unfold NoDupNames
  infer_instance

/-- Code that runs inside the registry or calls it: module initializers, finalizers and
signal handlers.  Such code may call `module_load` and `module_unload` of a loader
whose own entry points and handlers are again such code, may do anything that leaves
the loaded set alone (`module_find`, the allocator, its own business), and may sequence
and branch. -/
inductive ReentrantCode : (State → State) → Prop where
  | frame (f : State → State) (h : ∀ s, (f s).modules = s.modules) : ReentrantCode f
  | comp (f g : State → State) (hf : ReentrantCode f) (hg : ReentrantCode g) :
      ReentrantCode (fun s => g (f s))
  | branch (c : State → Bool) (f g : State → State) (hf : ReentrantCode f)
      (hg : ReentrantCode g) : ReentrantCode (fun s => if c s then f s else g s)
  | load (env : Loader) (path : State → Option String)
      (hsym : ∀ gm sym f, env.g_module_symbol gm sym = some f → ReentrantCode f)
      (hsig : ∀ e, ReentrantCode (env.signal_handlers e)) :
      ReentrantCode (fun s => (module_load env (path s) s).2)
  | unload (env : Loader) (module : State → Option MODULE_REC)
      (hsym : ∀ gm sym f, env.g_module_symbol gm sym = some f → ReentrantCode f)
      (hsig : ∀ e, ReentrantCode (env.signal_handlers e)) :
      ReentrantCode (fun s => module_unload env (module s) s)

/-- A loader all of whose entry points and signal handlers are `ReentrantCode`. -/
def ReentrantLoader (env : Loader) : Prop :=
  (∀ gm sym f, env.g_module_symbol gm sym = some f → ReentrantCode f) ∧
    ∀ e, ReentrantCode (env.signal_handlers e)

/-- A top-level call of the registry. -/
inductive RegCall where
  | load (path : Option String)
  | unload (module : Option MODULE_REC)

/-- The state after one top-level call. -/
def RegCall.run (env : Loader) (s : State) : RegCall → State
  | .load path => (module_load env path s).2
  | .unload module => module_unload env module s

/-- The state after a sequence of top-level calls. -/
def runCalls (env : Loader) (s : State) : List RegCall → State
  | [] => s
  | c :: cs => runCalls env (c.run env s) cs

/-! ## A concrete loader, used to evaluate the registry on examples -/

/-- The initializer of the example module `foo`: it registers its local tag `5`. -/
def foo_init (s : State) : State :=
  { s with alloc := (module_get_uniq_id s.alloc (some "foo") 5).2 }

/-- A platform with two libraries in the module directory: `libfoo.so` exports
`foo_init` (and no `foo_deinit`), `libbad.so` exports no entry point.  No handler is
connected to any signal. -/
def sampleLoader : Loader where
  g_module_supported := true
  g_module_open := fun path =>
    if path = "/usr/lib/irssi/modules/libfoo.so" then some 1
    else if path = "/usr/lib/irssi/modules/libbad.so" then some 2
    else none
  g_module_symbol := fun gmodule symbol =>
    if gmodule = 1 ∧ symbol = "foo_init" then some foo_init else none
  g_module_error := "cannot open shared object file"
  g_module_build_path := fun directory module_name =>
    directory ++ "/lib" ++ module_name ++ ".so"
  MODULEDIR := "/usr/lib/irssi/modules"
  g_get_home_dir := "/home/user"
  signal_handlers := fun _ s => s

/-- The state after `modules_init()` and a successful `module_load("foo")` on
`sampleLoader`. -/
def fooLoaded : State :=
  (module_load sampleLoader (some "foo") modules_init).2

/-- An object whose type tag (at every offset) is the global id `0`. -/
def objectTagged0 : Object :=
  { member := fun _ => 0 }

/-- The allocator after `modules_init()` and `module_get_uniq_id("foo", -1)`. -/
def fooMinusOne : Allocator :=
  runOps modules_init_alloc [.get_uniq_id (some "foo") (-1)]

/-- The allocator after `modules_init()` and three registrations: numeric tag `5` for
`"foo"` and for `"bar"`, string tag `"5"` for `"foo"`. -/
def threeTags : Allocator :=
  runOps modules_init_alloc
    [.get_uniq_id (some "foo") 5, .get_uniq_id (some "bar") 5,
      .get_uniq_id_str (some "foo") "5"]

/-- The allocator after registering numeric and string tags for `"foo"` and `"bar"`
and then purging `"foo"`. -/
def fooPurged : Allocator :=
  runOps modules_init_alloc
    [.get_uniq_id (some "foo") 5, .get_uniq_id_str (some "foo") "x",
      .get_uniq_id (some "bar") 5, .get_uniq_id_str (some "bar") "x", .uniq_destroy "foo"]

/-- A loaded set with two names that differ from `"foo"` only in letter case. -/
def mixedCase : List MODULE_REC :=
  [{ name := "bar", gmodule := 2 }, { name := "Foo", gmodule := 1 },
    { name := "FOO", gmodule := 3 }]

/-- An initializer of `foo` that registers its tag and then calls `module_load("foo")`
again from inside. -/
def foo_init_reentrant (s : State) : State :=
  (module_load sampleLoader (some "foo") (foo_init s)).2

/-- The platform of `sampleLoader` with the re-entrant initializer of `foo`. -/
def reentrantLoader : Loader :=
  { sampleLoader with
    g_module_symbol := fun gmodule symbol =>
      if gmodule = 1 ∧ symbol = "foo_init" then some foo_init_reentrant else none }

/-- The allocator after `"foo"` registered a numeric and a string tag and `"bar"` a
numeric tag. -/
def fooBothSpaces : Allocator :=
  runOps modules_init_alloc
    [.get_uniq_id (some "foo") 5, .get_uniq_id_str (some "foo") "x",
      .get_uniq_id (some "bar") 5]

/-- A finalizer of the example module `foo`; it does nothing. -/
def foo_deinit (s : State) : State :=
  s

/-- The platform of `sampleLoader` where `libfoo.so` also exports `foo_deinit` and where
a handler of "module unloaded" loads the module `foo` again. -/
def reloadingLoader : Loader :=
  { sampleLoader with
    g_module_symbol := fun gmodule symbol =>
      if gmodule = 1 ∧ symbol = "foo_init" then some foo_init
      else if gmodule = 1 ∧ symbol = "foo_deinit" then some foo_deinit
      else none
    signal_handlers := fun e s =>
      match e with
      | Event.module_unloaded _ => (module_load sampleLoader (some "foo") s).2
      | _ => s }

/-- The platform of `sampleLoader` with a handler of "module loaded" that unloads the
module at once. -/
def unloadingLoader : Loader :=
  { sampleLoader with
    signal_handlers := fun e s =>
      match e with
      | Event.module_loaded r => module_unload sampleLoader (some r) s
      | _ => s }

/-- The allocator in which `"a"` holds the numeric tag `5` under the global id `0` and
the counter stands at `next`. -/
def counterAt (next : Int) : Allocator :=
  { uniqids := [(0, 5)], uniqstrids := [], idlookup := [("a", [(5, 0)])], stridlookup := [],
    next_uniq_id := next }

/-- A module `"t"` registers a tag and is purged: the calls consume one id and leave no
entry behind. -/
def consumeId : List AllocOp :=
  [.get_uniq_id (some "t") 0, .uniq_destroy "t"]

/-- The calls of `consumeId`, `k` times over. -/
def consumeIds : Nat → List AllocOp
  | 0 => []
  | k + 1 => consumeId ++ consumeIds k

/-- Calls after which the counter has overflowed: `"a"` registers tag `5`, then
`2 ^ 31 - 1` more ids are consumed, `2 ^ 31` allocations in all. -/
def overflowOps : List AllocOp :=
  .get_uniq_id (some "a") 5 :: consumeIds 2147483647

/-- The allocator after `overflowOps`: the entry of `("a", 5)` is still there and the
counter stands at `INT_MIN`. -/
def afterOverflow : Allocator :=
  counterAt (-2147483648)

/-- Calls that take the counter once around: `"a"` registers tag `5`, `2 ^ 32 - 1` more
ids are consumed, which brings the counter back to `0`, and `"b"` registers tag `7`;
`2 ^ 32 + 1` allocations in all. -/
def wrapOps : List AllocOp :=
  .get_uniq_id (some "a") 5 :: (consumeIds 4294967295 ++ [.get_uniq_id (some "b") 7])

/-- The allocator after `wrapOps`: `("b", 7)` was given the global id `0`, which
`("a", 5)` still holds, and the entry of `0` in `uniqids` was overwritten. -/
def afterWrap : Allocator :=
  { uniqids := [(0, 7)], uniqstrids := [],
    idlookup := [("a", [(5, 0)]), ("b", [(7, 0)])], stridlookup := [],
    next_uniq_id := 1 }

/-! ## Hash-table lemmas -/

section Tables

variable {K V : Type} [DecidableEq K]

theorem lookup_insert (t : GHashTable K V) (k k' : K) (v : V) :
    g_hash_table_lookup_extended (g_hash_table_insert t k v) k' =
      if k = k' then some v else g_hash_table_lookup_extended t k' := by
  induction t with
  | nil =>
    simp [g_hash_table_insert, g_hash_table_lookup_extended]
  | cons hd tl ih =>
    obtain ⟨k0, v0⟩ := hd
    by_cases h0 : k0 = k
    · subst h0
      by_cases h1 : k0 = k' <;>
        simp [g_hash_table_insert, g_hash_table_lookup_extended, h1]
    · by_cases h1 : k0 = k'
      · subst h1
        have : ¬ k = k0 := fun h => h0 h.symm
        simp [g_hash_table_insert, g_hash_table_lookup_extended, h0, this]
      · simp [g_hash_table_insert, g_hash_table_lookup_extended, h0, h1, ih]

theorem lookup_remove (t : GHashTable K V) (k k' : K) :
    g_hash_table_lookup_extended (g_hash_table_remove t k) k' =
      if k = k' then none else g_hash_table_lookup_extended t k' := by
  induction t with
  | nil => simp [g_hash_table_remove, g_hash_table_lookup_extended]
  | cons hd tl ih =>
    obtain ⟨k0, v0⟩ := hd
    unfold g_hash_table_remove at ih ⊢
    by_cases h0 : k0 = k
    · subst h0
      by_cases h1 : k0 = k'
      · simpa [List.filter_cons, g_hash_table_lookup_extended, h1] using ih
      · simpa [List.filter_cons, g_hash_table_lookup_extended, h1] using ih
    · by_cases h1 : k0 = k'
      · subst h1
        have : ¬ k = k0 := fun h => h0 h.symm
        simp [List.filter_cons, g_hash_table_lookup_extended, h0, this]
      · simpa [List.filter_cons, g_hash_table_lookup_extended, h0, h1] using ih

theorem mem_of_lookup {t : GHashTable K V} {k : K} {v : V}
    (h : g_hash_table_lookup_extended t k = some v) : (k, v) ∈ t := by
  induction t with
  | nil => simp [g_hash_table_lookup_extended] at h
  | cons hd tl ih =>
    obtain ⟨k0, v0⟩ := hd
    by_cases h0 : k0 = k
    · subst h0
      simp [g_hash_table_lookup_extended] at h
      simp [h]
    · simp [g_hash_table_lookup_extended, h0] at h
      exact List.mem_cons_of_mem _ (ih h)

theorem lookup_none_of_not_mem {t : GHashTable K V} {k : K}
    (h : ∀ v, (k, v) ∉ t) : g_hash_table_lookup_extended t k = none := by
  cases hl : g_hash_table_lookup_extended t k with
  | none => rfl
  | some v => exact absurd (mem_of_lookup hl) (h v)

theorem not_mem_of_lookup_none {t : GHashTable K V} {k : K}
    (h : g_hash_table_lookup_extended t k = none) (v : V) : (k, v) ∉ t := by
  induction t with
  | nil => simp
  | cons hd tl ih =>
    obtain ⟨k0, v0⟩ := hd
    by_cases h0 : k0 = k
    · simp [g_hash_table_lookup_extended, h0] at h
    · simp [g_hash_table_lookup_extended, h0] at h
      intro hm
      rcases List.mem_cons.mp hm with heq | hm'
      · exact h0 (by cases heq; rfl)
      · exact ih h hm'

theorem mem_insert {t : GHashTable K V} {k k0 : K} {v v0 : V}
    (h : (k, v) ∈ g_hash_table_insert t k0 v0) : (k, v) ∈ t ∨ (k, v) = (k0, v0) := by
  induction t with
  | nil =>
    simp [g_hash_table_insert] at h
    right; simp [h]
  | cons hd tl ih =>
    obtain ⟨k1, v1⟩ := hd
    by_cases h1 : k1 = k0
    · subst h1
      simp only [g_hash_table_insert, if_true] at h
      rcases List.mem_cons.mp h with heq | hm
      · right; exact heq
      · left; exact List.mem_cons_of_mem _ hm
    · simp only [g_hash_table_insert, h1, if_false] at h
      rcases List.mem_cons.mp h with heq | hm
      · left; rw [heq]; exact List.mem_cons_self _ _
      · rcases ih hm with h2 | h2
        · left; exact List.mem_cons_of_mem _ h2
        · right; exact h2

omit [DecidableEq K] in
theorem lookup_foreach_remove (idlist : GHashTable K Int) (rev : GHashTable Int V)
    (g : Int) :
    g_hash_table_lookup_extended
        (g_hash_table_foreach idlist (fun _ value r => g_hash_table_remove r value) rev) g =
      if g ∈ idlist.map Prod.snd then none else g_hash_table_lookup_extended rev g := by
  unfold g_hash_table_foreach
  induction idlist generalizing rev with
  | nil => simp
  | cons hd tl ih =>
    obtain ⟨x0, g0⟩ := hd
    simp only [List.foldl_cons, List.map_cons, List.mem_cons]
    rw [ih, lookup_remove]
    by_cases h0 : g0 = g
    · subst h0
      simp
    · have h1 : ¬ g = g0 := fun h => h0 h.symm
      simp only [h0, h1, if_false, false_or]

omit [DecidableEq K] in
theorem mem_values_iff (idlist : GHashTable K Int) (g : Int) :
    g ∈ idlist.map Prod.snd ↔ ∃ x, (x, g) ∈ idlist := by
  simp [List.mem_map]

end Tables

/-! ## Lemmas on one tag space -/

section Space

variable {K : Type} [DecidableEq K]

theorem uniq_get_found {lk : GHashTable String (GHashTable K Int)} {rev : GHashTable Int K}
    {next : Int} {m : String} {x : K} {g : Int} (h : Registered lk m x g) :
    uniq_get lk rev next m x = (g, lk, rev, next) := by
  obtain ⟨ids, h1, h2⟩ := h
  simp [uniq_get, h1, h2]

/-- An unregistered pair gets the current counter value; `ids` is the namespace of `m`
before the call (empty when the module had none). -/
theorem uniq_get_alloc {lk : GHashTable String (GHashTable K Int)} (rev : GHashTable Int K)
    (next : Int) {m : String} {x : K} (h : ∀ g, ¬ Registered lk m x g) :
    ∃ lk' ids, (uniq_get lk rev next m x) = (next, lk', g_hash_table_insert rev next x, next + 1)
      ∧ (∀ v, (x, v) ∉ ids)
      ∧ (∀ idl, g_hash_table_lookup lk m = some idl → idl = ids)
      ∧ (g_hash_table_lookup lk m = none → ids = [])
      ∧ ∀ m', g_hash_table_lookup lk' m' =
          if m = m' then some (g_hash_table_insert ids x next) else g_hash_table_lookup lk m' := by
  cases h1 : g_hash_table_lookup lk m with
  | none =>
    refine ⟨g_hash_table_insert (g_hash_table_insert lk m []) m
      (g_hash_table_insert [] x next), [], ?_, by simp, by simp, by simp, ?_⟩
    · simp [uniq_get, h1, g_hash_table_lookup_extended]
    · intro m'
      simp only [g_hash_table_lookup, lookup_insert]
      by_cases hm : m = m' <;> simp [hm]
  | some ids =>
    have h2 : g_hash_table_lookup_extended ids x = none := by
      cases h3 : g_hash_table_lookup_extended ids x with
      | none => rfl
      | some g => exact absurd ⟨ids, h1, h3⟩ (h g)
    refine ⟨g_hash_table_insert lk m (g_hash_table_insert ids x next), ids, ?_,
      not_mem_of_lookup_none h2, ?_, by simp, ?_⟩
    · simp [uniq_get, h1, h2]
    · intro idl hidl
      simpa using hidl.symm
    · intro m'
      simp only [g_hash_table_lookup, lookup_insert]

theorem registered_or_not (lk : GHashTable String (GHashTable K Int)) (m : String) (x : K) :
    (∃ g, Registered lk m x g) ∨ ∀ g, ¬ Registered lk m x g := by
  by_cases h : ∃ g, Registered lk m x g
  · exact Or.inl h
  · exact Or.inr (fun g hg => h ⟨g, hg⟩)

theorem uniq_get_registered (lk : GHashTable String (GHashTable K Int)) (rev : GHashTable Int K)
    (next : Int) (m : String) (x : K) :
    Registered (uniq_get lk rev next m x).2.1 m x (uniq_get lk rev next m x).1 := by
  rcases registered_or_not lk m x with ⟨g, hg⟩ | hn
  · rw [uniq_get_found hg]
    exact hg
  · obtain ⟨lk', ids, heq, _, _, _, hlk⟩ := uniq_get_alloc rev next hn
    rw [heq]
    refine ⟨g_hash_table_insert ids x next, ?_, ?_⟩
    · simpa using hlk m
    · simp [lookup_insert]

theorem Issued.weaken {n n' : Nat} {g : Int} (h : Issued n g) (hle : n ≤ n') : Issued n' g := by
  obtain ⟨i, hi, hg⟩ := h
  exact ⟨i, lt_of_lt_of_le hi hle, hg⟩

/-- The value the counter has after `n < 2 ^ 32` increments has not been handed out. -/
theorem Issued.ne_next {n : Nat} {g : Int} (h : Issued n g) (hn : n < 4294967296) :
    g ≠ wrap_int n := by
  obtain ⟨i, hi, hg⟩ := h
  rw [hg]
  unfold wrap_int
  omega

/-- Before the counter overflows the ids handed out are `0, ..., n - 1`. -/
theorem Issued.lt {n : Nat} {g : Int} (h : Issued n g) (hn : n ≤ 2147483648) :
    0 ≤ g ∧ g < n := by
  obtain ⟨i, hi, hg⟩ := h
  rw [hg]
  unfold wrap_int
  omega

theorem SpaceInv.mono {lk : GHashTable String (GHashTable K Int)} {rev : GHashTable Int K}
    {n n' : Nat} (h : SpaceInv lk rev n) (hle : n ≤ n') :
    SpaceInv lk rev n' :=
  ⟨h.fwd, h.own, fun g x hg => (h.bound g x hg).weaken hle⟩

theorem SpaceInv.uniq_get {lk : GHashTable String (GHashTable K Int)} {rev : GHashTable Int K}
    {n : Nat} (h : SpaceInv lk rev n) (hn : n < 4294967296) (m : String) (x : K) :
    SpaceInv (uniq_get lk rev (wrap_int n) m x).2.1 (uniq_get lk rev (wrap_int n) m x).2.2.1
      (n + 1) := by
  rcases registered_or_not lk m x with ⟨g, hg⟩ | hnr
  · rw [uniq_get_found hg]
    exact h.mono (Nat.le_succ n)
  · obtain ⟨lk', ids, heq, hx, hids, hnone, hlk⟩ := uniq_get_alloc rev (wrap_int n) hnr
    rw [heq]
    simp only
    generalize hnext : wrap_int n = next at *
    -- no old entry has the global id `next`
    have hold : ∀ m1 ids1 x1 g1, g_hash_table_lookup lk m1 = some ids1 → (x1, g1) ∈ ids1 →
        g1 ≠ next := fun m1 ids1 x1 g1 h1 h2 => by
      rw [← hnext]
      exact (h.bound g1 x1 (h.fwd m1 ids1 x1 g1 h1 h2)).ne_next hn
    -- entries of the namespace of `m` before the call
    have hidsmem : ∀ x1 g1, (x1, g1) ∈ ids → ∃ idl, g_hash_table_lookup lk m = some idl ∧
        (x1, g1) ∈ idl := by
      intro x1 g1 hmem
      cases hl : g_hash_table_lookup lk m with
      | none => rw [hnone hl] at hmem; simp at hmem
      | some idl => exact ⟨idl, rfl, by rw [hids idl hl]; exact hmem⟩
    -- an entry of the new tables is an old entry or the new pair
    have hnew : ∀ m1 ids1 x1 g1, g_hash_table_lookup lk' m1 = some ids1 → (x1, g1) ∈ ids1 →
        (∃ idl, g_hash_table_lookup lk m1 = some idl ∧ (x1, g1) ∈ idl) ∨
          (m1 = m ∧ x1 = x ∧ g1 = next) := by
      intro m1 ids1 x1 g1 h1 h2
      rw [hlk m1] at h1
      by_cases hm : m = m1
      · subst hm
        simp only [if_true, Option.some.injEq] at h1
        subst h1
        rcases mem_insert h2 with h3 | h3
        · exact Or.inl (hidsmem x1 g1 h3)
        · right
          simp only [Prod.mk.injEq] at h3
          exact ⟨rfl, h3.1, h3.2⟩
      · simp only [hm, if_false] at h1
        exact Or.inl ⟨ids1, h1, h2⟩
    refine ⟨?_, ?_, ?_⟩
    · intro m1 ids1 x1 g1 h1 h2
      rw [lookup_insert]
      rcases hnew m1 ids1 x1 g1 h1 h2 with ⟨idl, h3, h4⟩ | ⟨_, h3, h4⟩
      · have hlt := hold m1 idl x1 g1 h3 h4
        have : ¬ next = g1 := fun e => hlt e.symm
        simp only [this, if_false]
        exact h.fwd m1 idl x1 g1 h3 h4
      · simp [h3, h4]
    · intro m1 m2 ids1 ids2 x1 x2 g1 h1 h2 h3 h4
      rcases hnew m1 ids1 x1 g1 h1 h3 with ⟨idl1, h5, h6⟩ | ⟨h5, _, h6⟩
      · rcases hnew m2 ids2 x2 g1 h2 h4 with ⟨idl2, h7, h8⟩ | ⟨_, _, h8⟩
        · exact h.own m1 m2 idl1 idl2 x1 x2 g1 h5 h7 h6 h8
        · exact absurd h8 (hold m1 idl1 x1 g1 h5 h6)
      · rcases hnew m2 ids2 x2 g1 h2 h4 with ⟨idl2, h7, h8⟩ | ⟨h7, _, _⟩
        · exact absurd h6 (hold m2 idl2 x2 g1 h7 h8)
        · rw [h5, h7]
    · intro g1 x1 hg
      rw [lookup_insert] at hg
      by_cases he : next = g1
      · exact ⟨n, Nat.lt_succ_self n, by rw [← he, hnext]⟩
      · simp only [he, if_false] at hg
        exact (h.bound g1 x1 hg).weaken (Nat.le_succ n)

/-- Keys of the reverse map after `uniq_get`: old keys, or the old counter value. -/
theorem uniq_get_rev_key {lk : GHashTable String (GHashTable K Int)} {rev : GHashTable Int K}
    {next : Int} {m : String} {x : K} {g : Int} {y : K}
    (h : g_hash_table_lookup_extended (uniq_get lk rev next m x).2.2.1 g = some y) :
    g_hash_table_lookup_extended rev g = some y ∨
      (g = next ∧ (uniq_get lk rev next m x).2.2.2 = next + 1) := by
  rcases registered_or_not lk m x with ⟨g', hg⟩ | hnr
  · rw [uniq_get_found hg] at h
    exact Or.inl h
  · obtain ⟨lk', ids, heq, _⟩ := uniq_get_alloc rev next hnr
    rw [heq] at h ⊢
    simp only [lookup_insert] at h
    by_cases he : next = g
    · exact Or.inr ⟨he.symm, rfl⟩
    · simp only [he, if_false] at h
      exact Or.inl h

theorem uniq_purge_lookup (lk : GHashTable String (GHashTable K Int)) (rev : GHashTable Int K)
    (m m' : String) :
    g_hash_table_lookup (uniq_purge lk rev m).1 m' =
      if m = m' then none else g_hash_table_lookup lk m' := by
  unfold uniq_purge
  cases h : g_hash_table_lookup_extended lk m with
  | none =>
    by_cases hm : m = m'
    · subst hm
      simpa [g_hash_table_lookup] using h
    · simp [hm]
  | some idlist =>
    simp only [g_hash_table_lookup, lookup_remove]

theorem uniq_purge_rev_removed {lk : GHashTable String (GHashTable K Int)}
    {rev : GHashTable Int K} {m : String} {ids : GHashTable K Int} {x : K} {g : Int}
    (h1 : g_hash_table_lookup lk m = some ids) (h2 : (x, g) ∈ ids) :
    g_hash_table_lookup_extended (uniq_purge lk rev m).2 g = none := by
  unfold uniq_purge
  unfold g_hash_table_lookup at h1
  rw [h1]
  simp only [lookup_foreach_remove]
  have : g ∈ ids.map Prod.snd := (mem_values_iff ids g).mpr ⟨x, h2⟩
  simp [this]

theorem uniq_purge_rev_kept {lk : GHashTable String (GHashTable K Int)}
    {rev : GHashTable Int K} {m : String} {g : Int}
    (h : ∀ ids x, g_hash_table_lookup lk m = some ids → (x, g) ∉ ids) :
    g_hash_table_lookup_extended (uniq_purge lk rev m).2 g =
      g_hash_table_lookup_extended rev g := by
  unfold uniq_purge
  cases h1 : g_hash_table_lookup_extended lk m with
  | none => rfl
  | some ids =>
    simp only [lookup_foreach_remove]
    have : ¬ g ∈ ids.map Prod.snd := by
      rw [mem_values_iff]
      rintro ⟨x, hx⟩
      exact h ids x h1 hx
    simp [this]

theorem uniq_purge_rev_sub {lk : GHashTable String (GHashTable K Int)}
    {rev : GHashTable Int K} {m : String} {g : Int} {y : K}
    (h : g_hash_table_lookup_extended (uniq_purge lk rev m).2 g = some y) :
    g_hash_table_lookup_extended rev g = some y := by
  unfold uniq_purge at h
  cases h1 : g_hash_table_lookup_extended lk m with
  | none => rw [h1] at h; exact h
  | some ids =>
    rw [h1] at h
    simp only [lookup_foreach_remove] at h
    by_cases hg : g ∈ ids.map Prod.snd
    · simp [hg] at h
    · simpa [hg] using h

theorem uniq_purge_absent {lk : GHashTable String (GHashTable K Int)} {rev : GHashTable Int K}
    {m : String} (h : g_hash_table_lookup lk m = none) : uniq_purge lk rev m = (lk, rev) := by
  unfold uniq_purge
  unfold g_hash_table_lookup at h
  rw [h]

theorem SpaceInv.uniq_purge {lk : GHashTable String (GHashTable K Int)} {rev : GHashTable Int K}
    {n : Nat} (h : SpaceInv lk rev n) (m : String) :
    SpaceInv (uniq_purge lk rev m).1 (uniq_purge lk rev m).2 n := by
  have hold : ∀ m1 ids1, g_hash_table_lookup (Irssi.uniq_purge lk rev m).1 m1 = some ids1 →
      m ≠ m1 ∧ g_hash_table_lookup lk m1 = some ids1 := by
    intro m1 ids1 h1
    rw [uniq_purge_lookup] at h1
    by_cases hm : m = m1
    · simp [hm] at h1
    · simp only [hm, if_false] at h1
      exact ⟨hm, h1⟩
  refine ⟨?_, ?_, ?_⟩
  · intro m1 ids1 x1 g1 h1 h2
    obtain ⟨hne, h3⟩ := hold m1 ids1 h1
    rw [uniq_purge_rev_kept]
    · exact h.fwd m1 ids1 x1 g1 h3 h2
    · intro ids x hids hmem
      exact hne (h.own m m1 ids ids1 x x1 g1 hids h3 hmem h2)
  · intro m1 m2 ids1 ids2 x1 x2 g1 h1 h2 h3 h4
    exact h.own m1 m2 ids1 ids2 x1 x2 g1 (hold m1 ids1 h1).2 (hold m2 ids2 h2).2 h3 h4
  · intro g1 x1 hg
    exact h.bound g1 x1 (uniq_purge_rev_sub hg)

theorem uniq_find_eq_some_iff (lk : GHashTable String (GHashTable K Int)) (rev : GHashTable Int K)
    (m : String) (g : Int) (x : K) :
    uniq_find lk rev m g = some x ↔
      g_hash_table_lookup_extended rev g = some x ∧ Registered lk m x g := by
  unfold uniq_find Registered
  cases h1 : g_hash_table_lookup_extended rev g with
  | none => simp
  | some id =>
    cases h2 : g_hash_table_lookup lk m with
    | none => simp
    | some idlist =>
      simp only [Option.some.injEq, exists_eq_left']
      cases h3 : g_hash_table_lookup_extended idlist id with
      | none =>
        constructor
        · intro hx; cases hx
        · rintro ⟨he, hx⟩
          subst he
          rw [h3] at hx
          cases hx
      | some id' =>
        by_cases he : id' = g
        · subst he
          simp only [ne_eq, not_true_eq_false, if_false, Option.some.injEq]
          constructor
          · intro hx; subst hx; exact ⟨rfl, h3⟩
          · intro hx; exact hx.1
        · simp only [ne_eq, he, not_false_eq_true, if_true]
          constructor
          · intro hx; cases hx
          · rintro ⟨hx, hy⟩
            subst hx
            rw [h3] at hy
            exact absurd (Option.some.inj hy) he

theorem uniq_find_of_rev_none {lk : GHashTable String (GHashTable K Int)}
    {rev : GHashTable Int K} {g : Int} (h : g_hash_table_lookup_extended rev g = none)
    (m : String) : uniq_find lk rev m g = none := by
  unfold uniq_find
  rw [h]

theorem SpaceInv.find_registered {lk : GHashTable String (GHashTable K Int)}
    {rev : GHashTable Int K} {n : Nat} (h : SpaceInv lk rev n) {m : String} {x : K}
    {g : Int} (hr : Registered lk m x g) : uniq_find lk rev m g = some x := by
  rw [uniq_find_eq_some_iff]
  obtain ⟨ids, h1, h2⟩ := hr
  exact ⟨h.fwd m ids x g h1 (mem_of_lookup h2), ids, h1, h2⟩

theorem SpaceInv.find_other {lk : GHashTable String (GHashTable K Int)}
    {rev : GHashTable Int K} {n : Nat} (h : SpaceInv lk rev n) {m other : String} {x : K}
    {g : Int} (hr : Registered lk m x g) (hne : other ≠ m) : uniq_find lk rev other g = none := by
  cases hf : uniq_find lk rev other g with
  | none => rfl
  | some y =>
    exfalso
    obtain ⟨_, ids', h3, h4⟩ := (uniq_find_eq_some_iff lk rev other g y).mp hf
    obtain ⟨ids, h1, h2⟩ := hr
    exact hne (h.own other m ids' ids y x g h3 h1 (mem_of_lookup h4) (mem_of_lookup h2))

theorem SpaceInv.registered_inj {lk : GHashTable String (GHashTable K Int)}
    {rev : GHashTable Int K} {n : Nat} (h : SpaceInv lk rev n) {m m' : String} {x x' : K}
    {g : Int} (hr : Registered lk m x g) (hr' : Registered lk m' x' g) : m = m' ∧ x = x' := by
  obtain ⟨ids, h1, h2⟩ := hr
  obtain ⟨ids', h3, h4⟩ := hr'
  refine ⟨h.own m m' ids ids' x x' g h1 h3 (mem_of_lookup h2) (mem_of_lookup h4), ?_⟩
  have e1 := h.fwd m ids x g h1 (mem_of_lookup h2)
  have e2 := h.fwd m' ids' x' g h3 (mem_of_lookup h4)
  rw [e1] at e2
  exact Option.some.inj e2

theorem SpaceInv.registered_issued {lk : GHashTable String (GHashTable K Int)}
    {rev : GHashTable Int K} {n : Nat} (h : SpaceInv lk rev n) {m : String} {x : K}
    {g : Int} (hr : Registered lk m x g) : Issued n g := by
  obtain ⟨ids, h1, h2⟩ := hr
  exact h.bound g x (h.fwd m ids x g h1 (mem_of_lookup h2))

end Space

/-! ## The `int` counter -/

theorem wrap_int_of_range {x : Int} (h0 : -2147483648 ≤ x) (h1 : x < 2147483648) :
    wrap_int x = x := by
  unfold wrap_int
  omega

theorem wrap_int_succ_ne (n : Int) : wrap_int (n + 1) ≠ n := by
  unfold wrap_int
  omega

theorem wrap_int_wrap_succ (n : Int) : wrap_int (wrap_int n + 1) = wrap_int (n + 1) := by
  unfold wrap_int
  omega

/-! ## The C functions in terms of the generic tag space -/

theorem module_get_uniq_id_eq (a : Allocator) (m : String) (x : Int) :
    module_get_uniq_id a (some m) x =
      ((uniq_get a.idlookup a.uniqids a.next_uniq_id m x).1,
        { a with
          idlookup := (uniq_get a.idlookup a.uniqids a.next_uniq_id m x).2.1
          uniqids := (uniq_get a.idlookup a.uniqids a.next_uniq_id m x).2.2.1
          next_uniq_id :=
            if (uniq_get a.idlookup a.uniqids a.next_uniq_id m x).2.2.2 = a.next_uniq_id
            then a.next_uniq_id else wrap_int (a.next_uniq_id + 1) }) := by
  cases h1 : g_hash_table_lookup a.idlookup m with
  | none => simp [module_get_uniq_id, uniq_get, h1, g_hash_table_lookup_extended]
  | some ids =>
    cases h2 : g_hash_table_lookup_extended ids x <;>
      simp [module_get_uniq_id, uniq_get, h1, h2]

theorem module_get_uniq_id_str_eq (a : Allocator) (m : String) (x : String) :
    module_get_uniq_id_str a (some m) x =
      ((uniq_get a.stridlookup a.uniqstrids a.next_uniq_id m x).1,
        { a with
          stridlookup := (uniq_get a.stridlookup a.uniqstrids a.next_uniq_id m x).2.1
          uniqstrids := (uniq_get a.stridlookup a.uniqstrids a.next_uniq_id m x).2.2.1
          next_uniq_id :=
            if (uniq_get a.stridlookup a.uniqstrids a.next_uniq_id m x).2.2.2 = a.next_uniq_id
            then a.next_uniq_id else wrap_int (a.next_uniq_id + 1) }) := by
  cases h1 : g_hash_table_lookup a.stridlookup m with
  | none => simp [module_get_uniq_id_str, uniq_get, h1, g_hash_table_lookup_extended]
  | some ids =>
    cases h2 : g_hash_table_lookup_extended ids x <;>
      simp [module_get_uniq_id_str, uniq_get, h1, h2]

theorem module_find_id_eq (a : Allocator) (m : String) (g : Int) :
    module_find_id a (some m) g = (uniq_find a.idlookup a.uniqids m g).getD (-1) := by
  unfold module_find_id uniq_find
  cases h1 : g_hash_table_lookup_extended a.uniqids g with
  | none => simp
  | some id =>
    cases h2 : g_hash_table_lookup a.idlookup m with
    | none => simp [h2]
    | some idlist =>
      cases h3 : g_hash_table_lookup_extended idlist id with
      | none => simp [h2, h3]
      | some id' => by_cases he : id' = g <;> simp [h2, h3, he]

theorem module_find_id_str_eq (a : Allocator) (m : String) (g : Int) :
    module_find_id_str a (some m) g = uniq_find a.stridlookup a.uniqstrids m g := by
  unfold module_find_id_str uniq_find
  cases h1 : g_hash_table_lookup_extended a.uniqstrids g with
  | none => simp
  | some id =>
    cases h2 : g_hash_table_lookup a.stridlookup m with
    | none => simp [h2]
    | some idlist =>
      cases h3 : g_hash_table_lookup_extended idlist id with
      | none => simp [h2, h3]
      | some id' => by_cases he : id' = g <;> simp [h2, h3, he]

/-- A purge called with a string of the caller: both halves look up the same name. -/
theorem module_uniq_destroy_eq (a : Allocator) (m : String) :
    module_uniq_destroy a (.caller m) =
      { a with
        idlookup := (uniq_purge a.idlookup a.uniqids m).1
        uniqids := (uniq_purge a.idlookup a.uniqids m).2
        stridlookup := (uniq_purge a.stridlookup a.uniqstrids m).1
        uniqstrids := (uniq_purge a.stridlookup a.uniqstrids m).2 } := by
  unfold module_uniq_destroy uniq_purge uniq_destroy uniq_destroy_str
  simp only [NamePtr.read]
  cases h1 : g_hash_table_lookup_extended a.idlookup m <;>
    cases h2 : g_hash_table_lookup_extended a.stridlookup m <;> simp [h2]

/-! ## Registered pairs and the allocation functions -/

theorem registered_of_get_uniq_id {a : Allocator} {m : String} {x g : Int}
    (h : module_get_uniq_id a (some m) x = (g, a)) : Registered a.idlookup m x g := by
  rw [module_get_uniq_id_eq] at h
  rcases registered_or_not a.idlookup m x with ⟨g', hg⟩ | hn
  · rw [uniq_get_found hg] at h
    simp only [Prod.mk.injEq] at h
    rw [← h.1]
    exact hg
  · obtain ⟨lk', ids, heq, _⟩ := uniq_get_alloc a.uniqids a.next_uniq_id hn
    rw [heq] at h
    simp only [Prod.mk.injEq] at h
    have := congrArg Allocator.next_uniq_id h.2
    simp only [add_right_eq_self, one_ne_zero, if_false] at this
    exact absurd this (wrap_int_succ_ne _)

theorem registered_of_get_uniq_id_str {a : Allocator} {m : String} {x : String} {g : Int}
    (h : module_get_uniq_id_str a (some m) x = (g, a)) : Registered a.stridlookup m x g := by
  rw [module_get_uniq_id_str_eq] at h
  rcases registered_or_not a.stridlookup m x with ⟨g', hg⟩ | hn
  · rw [uniq_get_found hg] at h
    simp only [Prod.mk.injEq] at h
    rw [← h.1]
    exact hg
  · obtain ⟨lk', ids, heq, _⟩ := uniq_get_alloc a.uniqstrids a.next_uniq_id hn
    rw [heq] at h
    simp only [Prod.mk.injEq] at h
    have := congrArg Allocator.next_uniq_id h.2
    simp only [add_right_eq_self, one_ne_zero, if_false] at this
    exact absurd this (wrap_int_succ_ne _)

theorem get_uniq_id_of_registered {a : Allocator} {m : String} {x g : Int}
    (h : Registered a.idlookup m x g) : module_get_uniq_id a (some m) x = (g, a) := by
  rw [module_get_uniq_id_eq, uniq_get_found h]
  simp

theorem get_uniq_id_str_of_registered {a : Allocator} {m : String} {x : String} {g : Int}
    (h : Registered a.stridlookup m x g) : module_get_uniq_id_str a (some m) x = (g, a) := by
  rw [module_get_uniq_id_str_eq, uniq_get_found h]
  simp

theorem get_uniq_id_registered (a : Allocator) (m : String) (x : Int) :
    Registered (module_get_uniq_id a (some m) x).2.idlookup m x
      (module_get_uniq_id a (some m) x).1 := by
  rw [module_get_uniq_id_eq]
  exact uniq_get_registered a.idlookup a.uniqids a.next_uniq_id m x

theorem get_uniq_id_str_registered (a : Allocator) (m : String) (x : String) :
    Registered (module_get_uniq_id_str a (some m) x).2.stridlookup m x
      (module_get_uniq_id_str a (some m) x).1 := by
  rw [module_get_uniq_id_str_eq]
  exact uniq_get_registered a.stridlookup a.uniqstrids a.next_uniq_id m x

/-- An allocating call returns the counter and moves it on by one `int` increment. -/
theorem get_uniq_id_alloc {a : Allocator} {m : String} {x : Int}
    (h : ∀ g, ¬ Registered a.idlookup m x g) :
    (module_get_uniq_id a (some m) x).1 = a.next_uniq_id ∧
      (module_get_uniq_id a (some m) x).2.next_uniq_id = wrap_int (a.next_uniq_id + 1) := by
  rw [module_get_uniq_id_eq]
  obtain ⟨lk', ids, heq, _⟩ := uniq_get_alloc a.uniqids a.next_uniq_id h
  rw [heq]
  simp

theorem get_uniq_id_str_alloc {a : Allocator} {m : String} {x : String}
    (h : ∀ g, ¬ Registered a.stridlookup m x g) :
    (module_get_uniq_id_str a (some m) x).1 = a.next_uniq_id ∧
      (module_get_uniq_id_str a (some m) x).2.next_uniq_id = wrap_int (a.next_uniq_id + 1) := by
  rw [module_get_uniq_id_str_eq]
  obtain ⟨lk', ids, heq, _⟩ := uniq_get_alloc a.uniqstrids a.next_uniq_id h
  rw [heq]
  simp

/-! ## The invariant holds until the counter comes back to a value it had -/

theorem Inv.init : Inv modules_init_alloc 0 := by
  refine ⟨⟨?_, ?_, ?_⟩, ⟨?_, ?_, ?_⟩, ?_, ?_⟩ <;>
    simp [modules_init_alloc, g_hash_table_lookup, g_hash_table_lookup_extended, wrap_int]

theorem Inv.after_alloc {a : Allocator} {n : Nat} (h : Inv a n) (hn : n < 4294967296)
    {m : String} {x : Int} (hnr : ∀ g, ¬ Registered a.idlookup m x g) :
    Inv (module_get_uniq_id a (some m) x).2 (n + 1) := by
  have hnum := h.num.uniq_get hn m x
  rw [← h.next_eq] at hnum
  refine ⟨?_, ?_, ?_, ?_⟩
  · rw [module_get_uniq_id_eq]
    exact hnum
  · rw [module_get_uniq_id_eq]
    exact h.str.mono (Nat.le_succ n)
  · rw [module_get_uniq_id_eq]
    intro g y hg
    simp only at hg ⊢
    rcases uniq_get_rev_key hg with hold | ⟨hnew, _⟩
    · exact h.disj g y hold
    · cases hs : g_hash_table_lookup_extended a.uniqstrids g with
      | none => rfl
      | some z =>
        exact absurd (by rw [hnew, h.next_eq]) ((h.str.bound g z hs).ne_next hn)
  · rw [(get_uniq_id_alloc hnr).2, h.next_eq, wrap_int_wrap_succ]
    push_cast
    rfl

theorem Inv.after_alloc_str {a : Allocator} {n : Nat} (h : Inv a n)
    (hn : n < 4294967296) {m : String} {x : String}
    (hnr : ∀ g, ¬ Registered a.stridlookup m x g) :
    Inv (module_get_uniq_id_str a (some m) x).2 (n + 1) := by
  have hstr := h.str.uniq_get hn m x
  rw [← h.next_eq] at hstr
  refine ⟨?_, ?_, ?_, ?_⟩
  · rw [module_get_uniq_id_str_eq]
    exact h.num.mono (Nat.le_succ n)
  · rw [module_get_uniq_id_str_eq]
    exact hstr
  · rw [module_get_uniq_id_str_eq]
    intro g y hg
    simp only at hg ⊢
    cases hs : g_hash_table_lookup_extended
        (uniq_get a.stridlookup a.uniqstrids a.next_uniq_id m x).2.2.1 g with
    | none => rfl
    | some z =>
      exfalso
      rcases uniq_get_rev_key hs with hold | ⟨hnew, _⟩
      · have := h.disj g y hg
        rw [hold] at this
        cases this
      · exact absurd (by rw [hnew, h.next_eq]) ((h.num.bound g y hg).ne_next hn)
  · rw [(get_uniq_id_str_alloc hnr).2, h.next_eq, wrap_int_wrap_succ]
    push_cast
    rfl

theorem Inv.uniq_destroy {a : Allocator} {n : Nat} (h : Inv a n) (module : String) :
    Inv (module_uniq_destroy a (.caller module)) n := by
  rw [module_uniq_destroy_eq]
  refine ⟨h.num.uniq_purge module, h.str.uniq_purge module, ?_, h.next_eq⟩
  intro g x hg
  simp only at hg ⊢
  cases hs : g_hash_table_lookup_extended (uniq_purge a.stridlookup a.uniqstrids module).2 g with
  | none => rfl
  | some y =>
    have h1 := h.disj g x (uniq_purge_rev_sub hg)
    rw [uniq_purge_rev_sub hs] at h1
    cases h1

/-- A call allocates exactly when the pair is not registered. -/
theorem get_uniq_id_allocates (a : Allocator) (m : String) (x : Int) :
    (AllocOp.get_uniq_id (some m) x).allocates a = true ↔
      ∀ g, ¬ Registered a.idlookup m x g := by
  simp only [AllocOp.allocates, AllocOp.step, decide_eq_true_eq]
  rcases registered_or_not a.idlookup m x with ⟨g, hg⟩ | hnr
  · rw [get_uniq_id_of_registered hg]
    exact ⟨fun h => absurd rfl h, fun h => absurd hg (h g)⟩
  · rw [(get_uniq_id_alloc hnr).2]
    exact ⟨fun _ => hnr, fun _ => wrap_int_succ_ne _⟩

theorem get_uniq_id_str_allocates (a : Allocator) (m : String) (x : String) :
    (AllocOp.get_uniq_id_str (some m) x).allocates a = true ↔
      ∀ g, ¬ Registered a.stridlookup m x g := by
  simp only [AllocOp.allocates, AllocOp.step, decide_eq_true_eq]
  rcases registered_or_not a.stridlookup m x with ⟨g, hg⟩ | hnr
  · rw [get_uniq_id_str_of_registered hg]
    exact ⟨fun h => absurd rfl h, fun h => absurd hg (h g)⟩
  · rw [(get_uniq_id_str_alloc hnr).2]
    exact ⟨fun _ => hnr, fun _ => wrap_int_succ_ne _⟩

theorem get_uniq_id_null_allocates (a : Allocator) (x : Int) :
    (AllocOp.get_uniq_id none x).allocates a = false := by
  simp [AllocOp.allocates, AllocOp.step, module_get_uniq_id]

theorem get_uniq_id_str_null_allocates (a : Allocator) (x : String) :
    (AllocOp.get_uniq_id_str none x).allocates a = false := by
  simp [AllocOp.allocates, AllocOp.step, module_get_uniq_id_str]

theorem uniq_destroy_allocates (a : Allocator) (m : String) :
    (AllocOp.uniq_destroy m).allocates a = false := by
  simp [AllocOp.allocates, AllocOp.step, module_uniq_destroy_eq]

theorem Inv.step {a : Allocator} {n : Nat} (h : Inv a n) (op : AllocOp)
    (hn : op.allocates a = true → n < 4294967296) :
    Inv (op.step a) (n + if op.allocates a then 1 else 0) := by
  cases op with
  | get_uniq_id module id =>
    cases module with
    | none =>
      rw [get_uniq_id_null_allocates]
      exact h
    | some m =>
      by_cases halloc : (AllocOp.get_uniq_id (some m) id).allocates a = true
      · rw [halloc]
        exact h.after_alloc (hn halloc) ((get_uniq_id_allocates a m id).mp halloc)
      · rcases registered_or_not a.idlookup m id with ⟨g, hg⟩ | hnr
        · simp only [halloc, Bool.false_eq_true, if_false, Nat.add_zero, AllocOp.step,
            get_uniq_id_of_registered hg]
          exact h
        · exact absurd ((get_uniq_id_allocates a m id).mpr hnr) halloc
  | get_uniq_id_str module id =>
    cases module with
    | none =>
      rw [get_uniq_id_str_null_allocates]
      exact h
    | some m =>
      by_cases halloc : (AllocOp.get_uniq_id_str (some m) id).allocates a = true
      · rw [halloc]
        exact h.after_alloc_str (hn halloc) ((get_uniq_id_str_allocates a m id).mp halloc)
      · rcases registered_or_not a.stridlookup m id with ⟨g, hg⟩ | hnr
        · simp only [halloc, Bool.false_eq_true, if_false, Nat.add_zero, AllocOp.step,
            get_uniq_id_str_of_registered hg]
          exact h
        · exact absurd ((get_uniq_id_str_allocates a m id).mpr hnr) halloc
  | uniq_destroy module =>
    rw [uniq_destroy_allocates]
    exact h.uniq_destroy module

/-- A run that brings the number of allocations to at most `2 ^ 32` keeps the
invariant. -/
theorem Inv.runOps {a : Allocator} {n : Nat} (h : Inv a n) (ops : List AllocOp)
    (hn : n + allocCount a ops ≤ 4294967296) :
    Inv (runOps a ops) (n + allocCount a ops) := by
  induction ops generalizing a n with
  | nil => exact h
  | cons op ops ih =>
    simp only [allocCount] at hn
    have hstep := h.step op (fun halloc => by
      rw [halloc] at hn
      simp only [if_true] at hn
      omega)
    have := ih hstep (by omega)
    simp only [Irssi.runOps, allocCount]
    rw [← Nat.add_assoc]
    exact this

theorem ReachableWithin.inv {k : Nat} {a : Allocator} (h : ReachableWithin k a)
    (hk : k ≤ 4294967296) : ∃ n, n ≤ k ∧ Inv a n := by
  obtain ⟨ops, rfl, hno⟩ := h
  refine ⟨allocCount modules_init_alloc ops, hno, ?_⟩
  have := Inv.init.runOps ops (by omega)
  rw [Nat.zero_add] at this
  exact this

theorem ReachableWithin.reachable {k : Nat} {a : Allocator} (h : ReachableWithin k a) :
    Reachable a := by
  obtain ⟨ops, rfl, _⟩ := h
  exact ⟨ops, rfl⟩

theorem runOps_append (a : Allocator) (l1 l2 : List AllocOp) :
    runOps a (l1 ++ l2) = runOps (runOps a l1) l2 := by
  induction l1 generalizing a with
  | nil => rfl
  | cons o l ih => exact ih (o.step a)

theorem allocCount_append (a : Allocator) (l1 l2 : List AllocOp) :
    allocCount a (l1 ++ l2) = allocCount a l1 + allocCount (runOps a l1) l2 := by
  induction l1 generalizing a with
  | nil => simp [allocCount, runOps]
  | cons o l ih =>
    have := ih (o.step a)
    simp only [List.cons_append, allocCount, runOps]
    simp only [List.append_eq] at this ⊢
    omega

theorem Reachable.after_step {a : Allocator} (h : Reachable a) (op : AllocOp) :
    Reachable (op.step a) := by
  obtain ⟨ops, rfl⟩ := h
  exact ⟨ops ++ [op], runOps_append _ _ _⟩

/-! ## Runs that take the counter past `INT_MAX` -/

theorem runOps_consumeId (n : Int) (hn : n ≠ 0) :
    runOps (counterAt n) consumeId = counterAt (wrap_int (n + 1)) ∧
      allocCount (counterAt n) consumeId = 1 := by
  have hn' : ¬ (0 : Int) = n := fun e => hn e.symm
  have hstep : AllocOp.step (counterAt n) (.get_uniq_id (some "t") 0) =
      { uniqids := [(0, 5), (n, 0)], uniqstrids := [],
        idlookup := [("a", [(5, 0)]), ("t", [(0, n)])], stridlookup := [],
        next_uniq_id := wrap_int (n + 1) } := by
    simp [AllocOp.step, module_get_uniq_id, counterAt, g_hash_table_lookup,
      g_hash_table_lookup_extended, g_hash_table_insert, hn']
  have hpurge : AllocOp.step
      { uniqids := [(0, 5), (n, 0)], uniqstrids := [],
        idlookup := [("a", [(5, 0)]), ("t", [(0, n)])], stridlookup := [],
        next_uniq_id := wrap_int (n + 1) } (.uniq_destroy "t") =
      counterAt (wrap_int (n + 1)) := by
    simp [AllocOp.step, module_uniq_destroy, NamePtr.read, counterAt, g_hash_table_lookup,
      g_hash_table_lookup_extended, g_hash_table_remove, g_hash_table_foreach, uniq_destroy,
      List.filter, hn, hn']
  constructor
  · simp only [consumeId, runOps, hstep, hpurge]
  · have h1 : (AllocOp.get_uniq_id (some "t") 0).allocates (counterAt n) = true := by
      simp only [AllocOp.allocates, hstep, decide_eq_true_eq]
      exact wrap_int_succ_ne n
    simp only [consumeId, allocCount, h1, hstep, uniq_destroy_allocates]
    rfl

theorem runOps_consumeIds (k : Nat) (n : Int)
    (h : ∀ j : Nat, j < k → wrap_int (n + j) ≠ 0) :
    runOps (counterAt (wrap_int n)) (consumeIds k) = counterAt (wrap_int (n + k)) ∧
      allocCount (counterAt (wrap_int n)) (consumeIds k) = k := by
  induction k generalizing n with
  | zero => simp [consumeIds, runOps, allocCount]
  | succ k ih =>
    have h0 : wrap_int n ≠ 0 := by simpa using h 0 (Nat.succ_pos k)
    obtain ⟨h1, h2⟩ := runOps_consumeId (wrap_int n) h0
    rw [wrap_int_wrap_succ] at h1
    obtain ⟨h3, h4⟩ := ih (n + 1) (fun j hj => by
      have := h (j + 1) (Nat.succ_lt_succ hj)
      push_cast at this
      rw [add_assoc, add_comm (1 : Int) j]
      exact this)
    constructor
    · simp only [consumeIds, runOps_append, h1, h3]
      push_cast
      rw [add_assoc, add_comm (1 : Int) k]
    · simp only [consumeIds, allocCount_append, h1, h2, h4]
      omega

theorem runOps_cons (a : Allocator) (op : AllocOp) (ops : List AllocOp) :
    runOps a (op :: ops) = runOps (op.step a) ops := rfl

theorem allocCount_cons (a : Allocator) (op : AllocOp) (ops : List AllocOp) :
    allocCount a (op :: ops) =
      (if op.allocates a then 1 else 0) + allocCount (op.step a) ops := rfl

theorem runOps_overflowOps :
    runOps modules_init_alloc overflowOps = afterOverflow ∧
      allocCount modules_init_alloc overflowOps = 2147483648 := by
  have hstep : AllocOp.step modules_init_alloc (.get_uniq_id (some "a") 5) =
      counterAt (wrap_int 1) := by decide
  have halloc : (AllocOp.get_uniq_id (some "a") 5).allocates modules_init_alloc = true := by
    decide
  obtain ⟨h1, h2⟩ := runOps_consumeIds 2147483647 1 (fun j hj => by
    unfold wrap_int
    omega)
  have hw : wrap_int (1 + ((2147483647 : Nat) : Int)) = -2147483648 := by
    unfold wrap_int
    norm_num
  rw [hw] at h1
  constructor
  · unfold overflowOps
    rw [runOps_cons, hstep, h1]
    rfl
  · unfold overflowOps
    rw [allocCount_cons, halloc, hstep, h2]
    rfl

theorem runOps_wrapOps :
    runOps modules_init_alloc wrapOps = afterWrap ∧
      allocCount modules_init_alloc wrapOps = 4294967297 := by
  have hstep : AllocOp.step modules_init_alloc (.get_uniq_id (some "a") 5) =
      counterAt (wrap_int 1) := by decide
  have halloc : (AllocOp.get_uniq_id (some "a") 5).allocates modules_init_alloc = true := by
    decide
  obtain ⟨h1, h2⟩ := runOps_consumeIds 4294967295 1 (fun j hj => by
    unfold wrap_int
    omega)
  have hw : wrap_int (1 + ((4294967295 : Nat) : Int)) = 0 := by
    unfold wrap_int
    norm_num
  rw [hw] at h1
  have hb : AllocOp.step (counterAt 0) (.get_uniq_id (some "b") 7) = afterWrap := by decide
  have hballoc : (AllocOp.get_uniq_id (some "b") 7).allocates (counterAt 0) = true := by
    decide
  constructor
  · unfold wrapOps
    rw [runOps_cons, hstep, runOps_append, h1, runOps_cons, hb]
    rfl
  · unfold wrapOps
    rw [allocCount_cons, halloc, hstep, allocCount_append, h1, h2, allocCount_cons, hballoc]
    rfl

theorem reachable_afterOverflow : Reachable afterOverflow :=
  ⟨overflowOps, runOps_overflowOps.1⟩

theorem reachable_afterWrap : Reachable afterWrap :=
  ⟨wrapOps, runOps_wrapOps.1⟩

/-! ## Claims on the unique-id allocator -/

/-- The pair a call has just allocated is found under the id the call returned. -/
theorem uniq_find_uniq_get {K : Type} [DecidableEq K]
    {lk : GHashTable String (GHashTable K Int)} (rev : GHashTable Int K) (next : Int)
    {m : String} {x : K} (hnr : ∀ g, ¬ Registered lk m x g) :
    uniq_find (uniq_get lk rev next m x).2.1 (uniq_get lk rev next m x).2.2.1 m
      (uniq_get lk rev next m x).1 = some x := by
  have hreg := uniq_get_registered lk rev next m x
  rw [uniq_find_eq_some_iff]
  refine ⟨?_, hreg⟩
  obtain ⟨lk', ids, heq, _⟩ := uniq_get_alloc rev next hnr
  rw [heq]
  simp [lookup_insert]

/-- C1, counterexample to the claim as stated.  `wrapOps` allocates `2 ^ 32 + 1` ids:
the counter comes back to `0` while `("a", 5)` still holds the global id `0`, and
`("b", 7)` is given `0` again, which overwrites the entry of `0` in `uniqids`.  In the
state reached, `module_get_uniq_id("a", 5)` returns `0` and `module_find_id("a", 0)`
returns `-1`, not `5`. -/
theorem C1_round_trip_counterexample :
    Reachable afterWrap ∧
    module_get_uniq_id afterWrap (some "a") 5 = (0, afterWrap) ∧
    module_find_id (module_get_uniq_id afterWrap (some "a") 5).2 (some "a")
      (module_get_uniq_id afterWrap (some "a") 5).1 = -1 :=
  ⟨reachable_afterWrap, by decide, by decide⟩

/-- C1 (round trip, amended).  In every allocator state reached from `modules_init` by
calls of which at most `2 ^ 32` allocated an id, for every module name `m`: looking up
the id that `module_get_uniq_id(m, x)` returns with `module_find_id(m, ·)` gives back
`x`, and looking up the id that `module_get_uniq_id_str(m, s)` returns with
`module_find_id_str(m, ·)` gives back a string equal to `s`. -/
theorem C1_round_trip (a : Allocator) (h : ReachableWithin 4294967296 a) (m : String) :
    (∀ x : Int,
      module_find_id (module_get_uniq_id a (some m) x).2 (some m)
        (module_get_uniq_id a (some m) x).1 = x) ∧
    (∀ s : String,
      module_find_id_str (module_get_uniq_id_str a (some m) s).2 (some m)
        (module_get_uniq_id_str a (some m) s).1 = some s) := by
  obtain ⟨n, _, hinv⟩ := h.inv (le_refl _)
  constructor
  · intro x
    rcases registered_or_not a.idlookup m x with ⟨g, hg⟩ | hnr
    · rw [get_uniq_id_of_registered hg, module_find_id_eq, hinv.num.find_registered hg]
      rfl
    · rw [module_find_id_eq, module_get_uniq_id_eq]
      simp only
      rw [uniq_find_uniq_get a.uniqids a.next_uniq_id hnr]
      rfl
  · intro s
    rcases registered_or_not a.stridlookup m s with ⟨g, hg⟩ | hnr
    · rw [get_uniq_id_str_of_registered hg, module_find_id_str_eq,
        hinv.str.find_registered hg]
    · rw [module_find_id_str_eq, module_get_uniq_id_str_eq]
      simp only
      rw [uniq_find_uniq_get a.uniqstrids a.next_uniq_id hnr]

/-- Witness of C1 in the state `fooPurged`: `"foo"` registers the tags `7` and `"y"`
anew, `"bar"` looks up the tags it registered before. -/
theorem C1_round_trip_witness :
    ReachableWithin 4294967296 fooPurged ∧
    module_find_id (module_get_uniq_id fooPurged (some "foo") 7).2 (some "foo")
      (module_get_uniq_id fooPurged (some "foo") 7).1 = 7 ∧
    module_find_id_str (module_get_uniq_id_str fooPurged (some "bar") "x").2 (some "bar")
      (module_get_uniq_id_str fooPurged (some "bar") "x").1 = some "x" :=
  ⟨⟨_, rfl, by decide⟩, (C1_round_trip fooPurged ⟨_, rfl, by decide⟩ "foo").1 7,
    (C1_round_trip fooPurged ⟨_, rfl, by decide⟩ "bar").2 "x"⟩

/-- C2, counterexample to the claim as stated.  In the state reached by `wrapOps`
(`2 ^ 32 + 1` allocations) the global id `0` that `module_get_uniq_id("a", 5)` returns
is accepted for the other module `"b"`: `module_find_id("b", 0)` returns `7`, not
`-1`. -/
theorem C2_wrong_owner_counterexample :
    Reachable afterWrap ∧ some "b" ≠ some "a" ∧
    module_find_id (module_get_uniq_id afterWrap (some "a") 5).2 (some "b")
      (module_get_uniq_id afterWrap (some "a") 5).1 = 7 :=
  ⟨reachable_afterWrap, by decide, by decide⟩

/-- C2 (wrong-owner rejection, amended).  After every sequence `ops` of allocator calls
from `modules_init`, for module names `other ≠ m` (exact string comparison; `other` may
also be NULL): if `ops` and the call together allocate at most `2 ^ 32` ids, the id
that `module_get_uniq_id(m, x)` returns is rejected by `module_find_id(other, ·)` with
`-1`, and the id that `module_get_uniq_id_str(m, s)` returns is rejected by
`module_find_id_str(other, ·)` with NULL, whatever `other` has registered itself. -/
theorem C2_wrong_owner (ops : List AllocOp) (m : String) (other : Option String)
    (hne : other ≠ some m) :
    (∀ x : Int,
      allocCount modules_init_alloc (ops ++ [.get_uniq_id (some m) x]) ≤ 4294967296 →
      module_find_id (module_get_uniq_id (runOps modules_init_alloc ops) (some m) x).2 other
        (module_get_uniq_id (runOps modules_init_alloc ops) (some m) x).1 = -1) ∧
    (∀ s : String,
      allocCount modules_init_alloc (ops ++ [.get_uniq_id_str (some m) s]) ≤ 4294967296 →
      module_find_id_str (module_get_uniq_id_str (runOps modules_init_alloc ops) (some m) s).2
        other (module_get_uniq_id_str (runOps modules_init_alloc ops) (some m) s).1 = none) := by
  cases other with
  | none => exact ⟨fun _ _ => rfl, fun _ _ => rfl⟩
  | some o =>
    have hne' : o ≠ m := fun e => hne (by rw [e])
    constructor
    · intro x hx
      have hpost : ReachableWithin 4294967296
          (module_get_uniq_id (runOps modules_init_alloc ops) (some m) x).2 :=
        ⟨ops ++ [.get_uniq_id (some m) x], by rw [runOps_append]; rfl, hx⟩
      obtain ⟨n, _, hinv⟩ := hpost.inv (le_refl _)
      rw [module_find_id_eq, hinv.num.find_other (get_uniq_id_registered _ m x) hne']
      rfl
    · intro s hs
      have hpost : ReachableWithin 4294967296
          (module_get_uniq_id_str (runOps modules_init_alloc ops) (some m) s).2 :=
        ⟨ops ++ [.get_uniq_id_str (some m) s], by rw [runOps_append]; rfl, hs⟩
      obtain ⟨n, _, hinv⟩ := hpost.inv (le_refl _)
      rw [module_find_id_str_eq, hinv.str.find_other (get_uniq_id_str_registered _ m s) hne']

/-- Witness of C2 after the calls that lead to `threeTags`: `"bar"` registered the same
local tag `5` as `"foo"`, and still the id of `("foo", 5)` is rejected for `"bar"`. -/
theorem C2_wrong_owner_witness :
    some "bar" ≠ some "foo" ∧
    module_find_id (module_get_uniq_id threeTags (some "foo") 5).2 (some "bar")
      (module_get_uniq_id threeTags (some "foo") 5).1 = -1 ∧
    module_find_id_str (module_get_uniq_id_str threeTags (some "foo") "5").2 (some "bar")
      (module_get_uniq_id_str threeTags (some "foo") "5").1 = none :=
  ⟨by decide,
    (C2_wrong_owner [.get_uniq_id (some "foo") 5, .get_uniq_id (some "bar") 5,
      .get_uniq_id_str (some "foo") "5"] "foo" (some "bar") (by decide)).1 5 (by decide),
    (C2_wrong_owner [.get_uniq_id (some "foo") 5, .get_uniq_id (some "bar") 5,
      .get_uniq_id_str (some "foo") "5"] "foo" (some "bar") (by decide)).2 "5" (by decide)⟩

/-- C3 (idempotence).  In every allocator state (reachable or not) and for every module
argument, a second call of `module_get_uniq_id` with the same arguments returns the same
global id as the first and leaves the whole allocator state as the first call left it;
the same holds for `module_get_uniq_id_str`. -/
theorem C3_idempotent (a : Allocator) (module : Option String) :
    (∀ x : Int,
      module_get_uniq_id (module_get_uniq_id a module x).2 module x =
        ((module_get_uniq_id a module x).1, (module_get_uniq_id a module x).2)) ∧
    (∀ s : String,
      module_get_uniq_id_str (module_get_uniq_id_str a module s).2 module s =
        ((module_get_uniq_id_str a module s).1, (module_get_uniq_id_str a module s).2)) := by
  cases module with
  | none => exact ⟨fun _ => rfl, fun _ => rfl⟩
  | some m =>
    exact ⟨fun x => get_uniq_id_of_registered (get_uniq_id_registered a m x),
      fun s => get_uniq_id_str_of_registered (get_uniq_id_str_registered a m s)⟩

/-- C4, counterexample to the claim as stated.  In the state reached by `wrapOps`
(`2 ^ 32 + 1` allocations) the pairs `("a", 5)` and `("b", 7)` are both registered, and
both with the global id `0`. -/
theorem C4_distinct_counterexample :
    Reachable afterWrap ∧
    module_get_uniq_id afterWrap (some "a") 5 = (0, afterWrap) ∧
    module_get_uniq_id afterWrap (some "b") 7 = (0, afterWrap) ∧
    ("a" ≠ "b" ∨ (5 : Int) ≠ 7) :=
  ⟨reachable_afterWrap, by decide, by decide, Or.inl (by decide)⟩

/-- C4 (distinctness, amended).  In every allocator state reached from `modules_init` by
calls of which at most `2 ^ 32` allocated an id, take two currently registered pairs,
that is, pairs for which the allocation function returns an id without changing the
state.  If both are numeric pairs, or both string pairs, and they differ in the module
name or in the local tag, their global ids differ; a numeric pair and a string pair
never have the same global id. -/
theorem C4_distinct (a : Allocator) (h : ReachableWithin 4294967296 a) (m m' : String)
    (g g' : Int) :
    (∀ x x' : Int, module_get_uniq_id a (some m) x = (g, a) →
      module_get_uniq_id a (some m') x' = (g', a) → (m ≠ m' ∨ x ≠ x') → g ≠ g') ∧
    (∀ s s' : String, module_get_uniq_id_str a (some m) s = (g, a) →
      module_get_uniq_id_str a (some m') s' = (g', a) → (m ≠ m' ∨ s ≠ s') → g ≠ g') ∧
    (∀ (x : Int) (s' : String), module_get_uniq_id a (some m) x = (g, a) →
      module_get_uniq_id_str a (some m') s' = (g', a) → g ≠ g') := by
  obtain ⟨n, _, hinv⟩ := h.inv (le_refl _)
  refine ⟨?_, ?_, ?_⟩
  · intro x x' h1 h2 hne e
    subst e
    have := hinv.num.registered_inj (registered_of_get_uniq_id h1) (registered_of_get_uniq_id h2)
    rcases hne with hne | hne
    · exact hne this.1
    · exact hne this.2
  · intro s s' h1 h2 hne e
    subst e
    have := hinv.str.registered_inj (registered_of_get_uniq_id_str h1)
      (registered_of_get_uniq_id_str h2)
    rcases hne with hne | hne
    · exact hne this.1
    · exact hne this.2
  · intro x s' h1 h2 e
    subst e
    obtain ⟨ids, h3, h4⟩ := registered_of_get_uniq_id h1
    obtain ⟨ids', h5, h6⟩ := registered_of_get_uniq_id_str h2
    have e1 := hinv.num.fwd m ids x g h3 (mem_of_lookup h4)
    have e2 := hinv.str.fwd m' ids' s' g h5 (mem_of_lookup h6)
    rw [hinv.disj g x e1] at e2
    cases e2

/-- Witness of C4 in the state `threeTags`: the pairs `("foo", 5)`, `("bar", 5)` and
`("foo", "5")` are registered with the ids `0`, `1` and `2`. -/
theorem C4_distinct_witness :
    ReachableWithin 4294967296 threeTags ∧
    module_get_uniq_id threeTags (some "foo") 5 = (0, threeTags) ∧
    module_get_uniq_id threeTags (some "bar") 5 = (1, threeTags) ∧
    module_get_uniq_id_str threeTags (some "foo") "5" = (2, threeTags) ∧
    ("foo" ≠ "bar" ∨ (5 : Int) ≠ 5) ∧ (0 : Int) ≠ 1 ∧ (0 : Int) ≠ 2 :=
  ⟨⟨_, rfl, by decide⟩, by decide, by decide, by decide, Or.inl (by decide),
    (C4_distinct threeTags ⟨_, rfl, by decide⟩ "foo" "bar" 0 1).1 5 5 (by decide) (by decide)
      (Or.inl (by decide)),
    (C4_distinct threeTags ⟨_, rfl, by decide⟩ "foo" "foo" 0 2).2.2 5 "5" (by decide)
      (by decide)⟩

/-- A purge called with a string of the caller removes from the reverse map every id of
the module's namespace, in each tag space: an id that `module_find_id(m, ·)` accepted
is rejected by `module_find_id` for every module argument afterwards, and likewise for
`module_find_id_str`.  This holds in every allocator state. -/
theorem purge_caller_rejects (a : Allocator) (m : String) (g : Int) (other : Option String) :
    (module_find_id a (some m) g ≠ -1 →
      module_find_id (module_uniq_destroy a (.caller m)) other g = -1) ∧
    (module_find_id_str a (some m) g ≠ none →
      module_find_id_str (module_uniq_destroy a (.caller m)) other g = none) := by
  constructor
  · intro hv
    cases other with
    | none => rfl
    | some o =>
      rw [module_find_id_eq] at hv
      cases hf : uniq_find a.idlookup a.uniqids m g with
      | none => rw [hf] at hv; exact absurd rfl hv
      | some x =>
        obtain ⟨hr, ids, h1, h2⟩ := (uniq_find_eq_some_iff _ _ _ _ _).mp hf
        have hrev : g_hash_table_lookup_extended (module_uniq_destroy a (.caller m)).uniqids g =
            none := by
          rw [module_uniq_destroy_eq]
          exact uniq_purge_rev_removed h1 (mem_of_lookup h2)
        rw [module_find_id_eq, uniq_find_of_rev_none hrev]
        rfl
  · intro hv
    cases other with
    | none => rfl
    | some o =>
      rw [module_find_id_str_eq] at hv
      cases hf : uniq_find a.stridlookup a.uniqstrids m g with
      | none => exact absurd hf hv
      | some x =>
        obtain ⟨hr, ids, h1, h2⟩ := (uniq_find_eq_some_iff _ _ _ _ _).mp hf
        have hrev : g_hash_table_lookup_extended
            (module_uniq_destroy a (.caller m)).uniqstrids g = none := by
          rw [module_uniq_destroy_eq]
          exact uniq_purge_rev_removed h1 (mem_of_lookup h2)
        rw [module_find_id_str_eq, uniq_find_of_rev_none hrev]

/-- C5 (post-purge), evaluated on the call `modules_deinit` makes.  In the state
`fooBothSpaces` the module `"foo"` has a namespace in both tag spaces and the global id
`1` is valid for it: `module_find_id_str("foo", 1)` returns `"x"`.  `modules_deinit`
calls `module_uniq_destroy` with the key that `idlookup` stores for `"foo"`.  The
function frees that key after the numeric half and reads it again for the string half;
unless the freed bytes still read `"foo"`, the lookup in `stridlookup` misses and the
string namespace is left in place: `module_find_id_str("foo", 1)` still returns `"x"`
after the call.  The same call with a string of the caller rejects the id. -/
theorem C5_purge_through_table_key (freed : String) (hfreed : freed ≠ "foo") :
    NamePtr.idlookup_key "foo" freed ∈
      g_hash_table_foreach fooBothSpaces.idlookup
        (uniq_get_modules (fun key => NamePtr.idlookup_key key freed)) [] ∧
    module_find_id_str fooBothSpaces (some "foo") 1 = some "x" ∧
    module_find_id_str (module_uniq_destroy fooBothSpaces (.idlookup_key "foo" freed))
      (some "foo") 1 = some "x" ∧
    module_find_id_str (module_uniq_destroy fooBothSpaces (.caller "foo")) (some "foo") 1 =
      none := by
  have hstate : fooBothSpaces =
      { uniqids := [(0, 5), (2, 5)], uniqstrids := [(1, "x")],
        idlookup := [("foo", [(5, 0)]), ("bar", [(5, 2)])],
        stridlookup := [("foo", [("x", 1)])], next_uniq_id := 3 } := by decide
  have hf : ¬ "foo" = freed := fun e => hfreed e.symm
  refine ⟨?_, by decide, ?_, by decide⟩
  · rw [hstate]
    simp [g_hash_table_foreach, uniq_get_modules]
  · rw [hstate]
    simp [module_uniq_destroy, NamePtr.read, module_find_id_str, g_hash_table_lookup,
      g_hash_table_lookup_extended, g_hash_table_remove, g_hash_table_foreach, uniq_destroy,
      List.filter, hf]

/-- Witness of the C5 evaluation: the freed key reads as the empty string. -/
theorem C5_purge_through_table_key_witness :
    "" ≠ "foo" ∧
    module_find_id_str (module_uniq_destroy fooBothSpaces (.idlookup_key "foo" ""))
      (some "foo") 1 = some "x" :=
  ⟨by decide, (C5_purge_through_table_key "" (by decide)).2.2.1⟩

/-! ### No reissue -/

theorem AllocOp.returned_lt {a : Allocator} {n : Nat} (h : Inv a n) (hn : n < 2147483648)
    (op : AllocOp) (r : Int) (hr : op.returned a = some r) :
    r < (n : Int) + (if op.allocates a then 1 else 0 : Nat) ∧
      (op.allocates a = true → r = n) := by
  have hnext : a.next_uniq_id = n := by
    rw [h.next_eq]
    exact wrap_int_of_range (by omega) (by omega)
  cases op with
  | get_uniq_id module id =>
    simp only [AllocOp.returned, Option.some.injEq] at hr
    subst hr
    cases module with
    | none =>
      rw [get_uniq_id_null_allocates]
      refine ⟨?_, fun e => absurd e (by simp)⟩
      show (-1 : Int) < _
      simp only [Bool.false_eq_true, if_false, Nat.cast_zero, add_zero]
      omega
    | some m =>
      rcases registered_or_not a.idlookup m id with ⟨g, hg⟩ | hnr
      · have hna : (AllocOp.get_uniq_id (some m) id).allocates a = false := by
          cases hb : (AllocOp.get_uniq_id (some m) id).allocates a with
          | false => rfl
          | true => exact absurd hg ((get_uniq_id_allocates a m id).mp hb g)
        rw [hna, get_uniq_id_of_registered hg]
        refine ⟨?_, fun e => absurd e (by simp)⟩
        have := ((h.num.registered_issued hg).lt (le_of_lt hn)).2
        simp only [Bool.false_eq_true, if_false, Nat.cast_zero, add_zero]
        exact this
      · rw [(get_uniq_id_allocates a m id).mpr hnr, (get_uniq_id_alloc hnr).1, hnext]
        refine ⟨?_, fun _ => rfl⟩
        simp
  | get_uniq_id_str module id =>
    simp only [AllocOp.returned, Option.some.injEq] at hr
    subst hr
    cases module with
    | none =>
      rw [get_uniq_id_str_null_allocates]
      refine ⟨?_, fun e => absurd e (by simp)⟩
      show (-1 : Int) < _
      simp only [Bool.false_eq_true, if_false, Nat.cast_zero, add_zero]
      omega
    | some m =>
      rcases registered_or_not a.stridlookup m id with ⟨g, hg⟩ | hnr
      · have hna : (AllocOp.get_uniq_id_str (some m) id).allocates a = false := by
          cases hb : (AllocOp.get_uniq_id_str (some m) id).allocates a with
          | false => rfl
          | true => exact absurd hg ((get_uniq_id_str_allocates a m id).mp hb g)
        rw [hna, get_uniq_id_str_of_registered hg]
        refine ⟨?_, fun e => absurd e (by simp)⟩
        have := ((h.str.registered_issued hg).lt (le_of_lt hn)).2
        simp only [Bool.false_eq_true, if_false, Nat.cast_zero, add_zero]
        exact this
      · rw [(get_uniq_id_str_allocates a m id).mpr hnr, (get_uniq_id_str_alloc hnr).1, hnext]
        refine ⟨?_, fun _ => rfl⟩
        simp
  | uniq_destroy module =>
    simp [AllocOp.returned] at hr

theorem returnedIds_lt {a : Allocator} {n : Nat} (h : Inv a n) (ops : List AllocOp)
    (hn : n + allocCount a ops < 2147483648) :
    ∀ r ∈ returnedIds a ops, r < ((n + allocCount a ops : Nat) : Int) := by
  induction ops generalizing a n with
  | nil => intro r hr; simp [returnedIds] at hr
  | cons op ops ih =>
    intro r hr
    simp only [allocCount] at hn ⊢
    have hstep := h.step op (fun _ => by omega)
    have hrest := ih hstep (by omega)
    have hhead := fun r0 hret => (op.returned_lt h (by omega) r0 hret).1
    simp only [returnedIds] at hr
    cases hret : op.returned a with
    | none =>
      rw [hret] at hr
      have := hrest r hr
      push_cast at this ⊢
      omega
    | some r0 =>
      rw [hret] at hr
      rcases List.mem_cons.mp hr with he | hm
      · subst he
        have := hhead r hret
        push_cast at this ⊢
        omega
      · have := hrest r hm
        push_cast at this ⊢
        omega

/-- C6 (no reissue).  Run any sequence `ops` of allocator calls from `modules_init`
(purges included) and then one more call `op` that returns the id `ret` and allocates,
that is, consumes a value of `next_uniq_id`.  Without overflow of the `int` counter,
that is, if `ops` allocated fewer than `2 ^ 31` ids, `ret` is strictly greater than every
id returned by any call of `ops`; so no id handed out before, freed or not, is handed
out again. -/
theorem C6_no_reissue (ops : List AllocOp) (op : AllocOp) (ret : Int)
    (hno : allocCount modules_init_alloc ops < 2147483648)
    (hret : op.returned (runOps modules_init_alloc ops) = some ret)
    (halloc : (op.step (runOps modules_init_alloc ops)).next_uniq_id ≠
      (runOps modules_init_alloc ops).next_uniq_id) :
    ∀ r ∈ returnedIds modules_init_alloc ops, r < ret := by
  intro r hr
  have h1 := returnedIds_lt Inv.init ops (by omega) r hr
  have hinv := Inv.init.runOps ops (by omega)
  have ha : op.allocates (runOps modules_init_alloc ops) = true := by
    simpa [AllocOp.allocates] using halloc
  have h2 := (op.returned_lt hinv (by omega) ret hret).2 ha
  rw [h2]
  exact h1

/-- Witness of C6: tag `5` of `"foo"` gets id `0`, `"foo"` is purged, and registering
the same tag again gives the new id `1`, above the ids returned before. -/
theorem C6_no_reissue_witness :
    allocCount modules_init_alloc
      [.get_uniq_id (some "foo") 5, .uniq_destroy "foo"] < 2147483648 ∧
    AllocOp.returned (runOps modules_init_alloc
      [.get_uniq_id (some "foo") 5, .uniq_destroy "foo"]) (.get_uniq_id (some "foo") 5) = some 1 ∧
    (AllocOp.step (runOps modules_init_alloc
      [.get_uniq_id (some "foo") 5, .uniq_destroy "foo"])
        (.get_uniq_id (some "foo") 5)).next_uniq_id ≠
      (runOps modules_init_alloc
        [.get_uniq_id (some "foo") 5, .uniq_destroy "foo"]).next_uniq_id ∧
    ∀ r ∈ returnedIds modules_init_alloc
      [.get_uniq_id (some "foo") 5, .uniq_destroy "foo"], r < 1 :=
  ⟨by decide, by decide, by decide,
    C6_no_reissue [.get_uniq_id (some "foo") 5, .uniq_destroy "foo"]
      (.get_uniq_id (some "foo") 5) 1 (by decide) (by decide) (by decide)⟩

/-! ## Lemmas on the module registry -/

theorem g_strcasecmp_chars_of_lower_eq (l1 l2 : List Char)
    (h : l1.map Char.toLower = l2.map Char.toLower) : g_strcasecmp_chars l1 l2 = 0 := by
  induction l1 generalizing l2 with
  | nil =>
    cases l2 with
    | nil => rfl
    | cons c2 t2 => simp at h
  | cons c1 t1 ih =>
    cases l2 with
    | nil => simp at h
    | cons c2 t2 =>
      simp only [List.map_cons, List.cons.injEq] at h
      simp only [g_strcasecmp_chars, h.1, ne_eq, not_true_eq_false, if_false]
      exact ih t2 h.2

theorem module_find_eq_none_iff (modules : List MODULE_REC) (name : String) :
    module_find modules name = none ↔ ∀ r ∈ modules, g_strcasecmp r.name name ≠ 0 := by
  induction modules with
  | nil => simp [module_find]
  | cons r tmp ih =>
    by_cases h : g_strcasecmp r.name name = 0
    · simp [module_find, h]
    · simp [module_find, h, ih]

theorem module_find_of_mem {modules : List MODULE_REC} {name : String} {r : MODULE_REC}
    (hmem : r ∈ modules) (h : g_strcasecmp r.name name = 0) :
    ∃ found, module_find modules name = some found := by
  cases hf : module_find modules name with
  | some found => exact ⟨found, rfl⟩
  | none => exact absurd h ((module_find_eq_none_iff modules name).mp hf r hmem)

theorem module_open_spec (env : Loader) (name : String) (s : State) :
    ∃ opens : List Event, (module_open env name s).2 = { s with trace := s.trace ++ opens } ∧
      ∀ e ∈ opens, ∃ p r, e = Event.g_module_open p r := by
  unfold module_open do_g_module_open
  by_cases habs : g_path_is_absolute name = true
  · simp only [habs, if_true]
    exact ⟨[_], rfl, by simp⟩
  · simp only [habs, Bool.false_eq_true, if_false]
    cases h1 : env.g_module_open (env.g_module_build_path env.MODULEDIR name) with
    | some gm => exact ⟨[_], rfl, by simp⟩
    | none =>
      refine ⟨[Event.g_module_open (env.g_module_build_path env.MODULEDIR name) none,
        Event.g_module_open
          (env.g_module_build_path (env.g_get_home_dir ++ "/.irssi/modules") name)
          (env.g_module_open
            (env.g_module_build_path (env.g_get_home_dir ++ "/.irssi/modules") name))], ?_, ?_⟩
      · simp only [List.append_assoc, List.singleton_append]
      · simp

/-- A load of a name that is already loaded (up to ASCII case) does nothing but emit
the `MODULE_ERROR_ALREADY_LOADED` notification. -/
theorem module_load_name_rejects (env : Loader) (s : State) (path name : String)
    (r : MODULE_REC) (hmem : r ∈ s.modules)
    (hname : r.name.toList.map Char.toLower = name.toList.map Char.toLower) :
    module_load_name env path name s =
      (false, env.signal_handlers
        (Event.module_error ModuleError.MODULE_ERROR_ALREADY_LOADED name none)
        { s with trace := s.trace ++
          [Event.module_error ModuleError.MODULE_ERROR_ALREADY_LOADED name none] }) := by
  have hcmp : g_strcasecmp r.name name = 0 := g_strcasecmp_chars_of_lower_eq _ _ hname
  obtain ⟨found, hfound⟩ := module_find_of_mem hmem hcmp
  simp [module_load_name, hfound, signal_emit]

theorem module_load_supported (env : Loader) (s : State) (path : String)
    (hsup : env.g_module_supported = true) :
    module_load env (some path) s = module_load_name env path (module_get_name path) s := by
  simp only [module_load, hsup, Bool.not_true, Bool.false_eq_true, if_false]

/-! ## Claims on the registry and the cast guard -/

/-- C7 (unload does not purge; evaluation at the failing input).  `fooLoaded` is the
state after loading module `foo`, whose initializer registered local tag `5` and got
global id `0`.  Before the unload `module_find("foo")` finds the record and
`module_find_id("foo", 0)` accepts the id.  After `module_unload` of that record
`module_find("foo")` reports absent, but the allocator state is untouched and
`module_find_id("foo", 0)` still returns `5`: the id is not rejected. -/
theorem C7_unload_keeps_ids :
    module_find fooLoaded.modules "foo" = some { name := "foo", gmodule := 1 } ∧
    module_find_id fooLoaded.alloc (some "foo") 0 = 5 ∧
    module_find
      (module_unload sampleLoader (some { name := "foo", gmodule := 1 }) fooLoaded).modules
      "foo" = none ∧
    (module_unload sampleLoader (some { name := "foo", gmodule := 1 }) fooLoaded).alloc =
      fooLoaded.alloc ∧
    module_find_id
      (module_unload sampleLoader (some { name := "foo", gmodule := 1 }) fooLoaded).alloc
      (some "foo") 0 = 5 := by
  decide

/-- C8 (AlreadyLoaded).  For every loader, state and path: if some record of the
loaded set has a name equal, ignoring ASCII letter case, to the name derived from the
path, then `module_load_name(path, name)` returns FALSE and does one thing only: it
emits one "module error" notification of kind `MODULE_ERROR_ALREADY_LOADED`.  The
handlers receive the state of before the call with that notification added to the
trace (same loaded set, same allocator, no loader call), and the call returns the state
the handlers leave; when the handlers leave the state alone, the loaded set and the
allocator are unchanged and the trace has gained just the notification.
`module_load(path)` does the same whenever it reaches `module_load_name`, that is, when
`g_module_supported()` holds. -/
theorem C8_already_loaded (env : Loader) (s : State) (path : String) (r : MODULE_REC)
    (hmem : r ∈ s.modules)
    (hname : r.name.toList.map Char.toLower = (module_get_name path).toList.map Char.toLower) :
    module_load_name env path (module_get_name path) s =
      (false, env.signal_handlers
        (Event.module_error ModuleError.MODULE_ERROR_ALREADY_LOADED (module_get_name path) none)
        { s with trace := s.trace ++
          [Event.module_error ModuleError.MODULE_ERROR_ALREADY_LOADED
            (module_get_name path) none] })
    ∧ (env.g_module_supported = true →
      module_load env (some path) s =
        (false, env.signal_handlers
          (Event.module_error ModuleError.MODULE_ERROR_ALREADY_LOADED
            (module_get_name path) none)
          { s with trace := s.trace ++
            [Event.module_error ModuleError.MODULE_ERROR_ALREADY_LOADED
              (module_get_name path) none] }))
    ∧ (env.g_module_supported = true → (∀ e st, env.signal_handlers e st = st) →
      module_load env (some path) s =
        (false, { s with trace := s.trace ++
          [Event.module_error ModuleError.MODULE_ERROR_ALREADY_LOADED
            (module_get_name path) none] })) := by
  have hA := module_load_name_rejects env s path (module_get_name path) r hmem hname
  have hB := module_load_supported env s path
  refine ⟨hA, fun hsup => (hB hsup).trans hA, ?_⟩
  intro hsup hquiet
  rw [hB hsup, hA, hquiet]

/-- Witness of C8: `foo` is loaded and `module_load("/opt/libFOO.so")` is rejected. -/
theorem C8_already_loaded_witness :
    ({ name := "foo", gmodule := 1 } : MODULE_REC) ∈ fooLoaded.modules ∧
    "foo".toList.map Char.toLower = (module_get_name "/opt/libFOO.so").toList.map Char.toLower ∧
    module_load sampleLoader (some "/opt/libFOO.so") fooLoaded =
      (false, { fooLoaded with trace := fooLoaded.trace ++
        [Event.module_error ModuleError.MODULE_ERROR_ALREADY_LOADED "FOO" none] }) :=
  ⟨by decide, by decide,
    (C8_already_loaded sampleLoader fooLoaded "/opt/libFOO.so" { name := "foo", gmodule := 1 }
      (by decide) (by decide)).2.2 rfl (fun _ _ => rfl)⟩

/-- C9 (InvalidModule).  Let the platform support loading, let no record of the loaded
set have the name derived from `path` (by `g_strcasecmp`), let `module_open(path)` give
the handle `gmodule`, and let `"<name>_init"` not resolve in it.  Then `module_load`
returns FALSE and performs, in order: the `g_module_open` calls of `module_open`, the
failed symbol lookup, one "module error" notification of kind `MODULE_ERROR_INVALID`
(delivered in a state with the loaded set and the allocator of before the call), and
one `g_module_close(gmodule)`.  It calls no entry point, emits no "module loaded" and
changes neither the loaded set nor the allocator itself: when the handlers leave the
state alone, the final state is the old one with exactly these trace entries added. -/
theorem C9_invalid_module (env : Loader) (s : State) (path : String) (gmodule : GModule)
    (hsup : env.g_module_supported = true)
    (hnew : ∀ r ∈ s.modules, g_strcasecmp r.name (module_get_name path) ≠ 0)
    (hopen : (module_open env path s).1 = some gmodule)
    (hsym : env.g_module_symbol gmodule (module_get_name path ++ "_init") = none) :
    ∃ opens : List Event, (∀ e ∈ opens, ∃ p r, e = Event.g_module_open p r) ∧
      module_load env (some path) s =
        (false,
          { env.signal_handlers
              (Event.module_error ModuleError.MODULE_ERROR_INVALID (module_get_name path) none)
              { s with trace := s.trace ++ opens ++
                [Event.g_module_symbol gmodule (module_get_name path ++ "_init") false,
                 Event.module_error ModuleError.MODULE_ERROR_INVALID
                   (module_get_name path) none] } with
            trace :=
              (env.signal_handlers
                (Event.module_error ModuleError.MODULE_ERROR_INVALID
                  (module_get_name path) none)
                { s with trace := s.trace ++ opens ++
                  [Event.g_module_symbol gmodule (module_get_name path ++ "_init") false,
                   Event.module_error ModuleError.MODULE_ERROR_INVALID
                     (module_get_name path) none] }).trace ++
              [Event.g_module_close gmodule] }) ∧
      ((∀ e st, env.signal_handlers e st = st) →
        module_load env (some path) s =
          (false, { s with trace := s.trace ++ opens ++
            [Event.g_module_symbol gmodule (module_get_name path ++ "_init") false,
             Event.module_error ModuleError.MODULE_ERROR_INVALID (module_get_name path) none,
             Event.g_module_close gmodule] })) := by
  obtain ⟨opens, hstate, hopens⟩ := module_open_spec env path s
  refine ⟨opens, hopens, ?_⟩
  have hfind := (module_find_eq_none_iff s.modules (module_get_name path)).mpr hnew
  have hpair : module_open env path s = (some gmodule, { s with trace := s.trace ++ opens }) := by
    rw [← hopen, ← hstate]
  have hA : module_load env (some path) s =
      (false,
        { env.signal_handlers
            (Event.module_error ModuleError.MODULE_ERROR_INVALID (module_get_name path) none)
            { s with trace := s.trace ++ opens ++
              [Event.g_module_symbol gmodule (module_get_name path ++ "_init") false,
               Event.module_error ModuleError.MODULE_ERROR_INVALID
                 (module_get_name path) none] } with
          trace :=
            (env.signal_handlers
              (Event.module_error ModuleError.MODULE_ERROR_INVALID
                (module_get_name path) none)
              { s with trace := s.trace ++ opens ++
                [Event.g_module_symbol gmodule (module_get_name path ++ "_init") false,
                 Event.module_error ModuleError.MODULE_ERROR_INVALID
                   (module_get_name path) none] }).trace ++
            [Event.g_module_close gmodule] }) := by
    simp only [module_load, hsup, Bool.not_true, Bool.false_eq_true, if_false, module_load_name,
      hfind, hpair, hsym, signal_emit, List.append_assoc, List.singleton_append,
      List.cons_append, List.nil_append]
  refine ⟨hA, ?_⟩
  intro hquiet
  rw [hA, hquiet]
  simp only [List.append_assoc, List.singleton_append, List.cons_append, List.nil_append]

/-- Witness of C9: `libbad.so` opens but has no `bad_init`. -/
theorem C9_invalid_module_witness :
    sampleLoader.g_module_supported = true ∧
    (∀ r ∈ fooLoaded.modules, g_strcasecmp r.name (module_get_name "bad") ≠ 0) ∧
    (module_open sampleLoader "bad" fooLoaded).1 = some 2 ∧
    sampleLoader.g_module_symbol 2 (module_get_name "bad" ++ "_init") = none ∧
    ∃ opens : List Event, (∀ e ∈ opens, ∃ p r, e = Event.g_module_open p r) ∧
      module_load sampleLoader (some "bad") fooLoaded =
        (false, { fooLoaded with trace := fooLoaded.trace ++ opens ++
          [Event.g_module_symbol 2 (module_get_name "bad" ++ "_init") false,
           Event.module_error ModuleError.MODULE_ERROR_INVALID (module_get_name "bad") none,
           Event.g_module_close 2] }) :=
  ⟨rfl, by decide, by decide, rfl,
    (C9_invalid_module sampleLoader fooLoaded "bad" 2 rfl (by decide) (by decide) rfl).elim
      (fun opens h => ⟨opens, h.1, h.2.2 (fun _ _ => rfl)⟩)⟩

/-- C10, counterexample to the claim as stated, in two states.  In the state in which
`"foo"` registered the local tag `-1` and got the global id `0`, an object tagged `0` is
non-null and its tag is registered in the numeric namespace of `"foo"`
(`module_get_uniq_id("foo", -1)` returns `0` without allocating), yet
`module_check_cast` returns NULL: `module_find_id` returns the local tag `-1`, which is
also its not-found value.  In the state reached by `wrapOps` (`2 ^ 32 + 1` allocations)
the tag `0` is registered in the numeric namespace of `"a"` for the local tag `5`, yet
`module_check_cast` returns NULL, because the entry of `0` in `uniqids` was
overwritten. -/
theorem C10_cast_guard_counterexample :
    (Reachable fooMinusOne ∧
      module_get_uniq_id fooMinusOne (some "foo") (-1) =
        (objectTagged0.member 0, fooMinusOne) ∧
      module_check_cast fooMinusOne (some objectTagged0) 0 (some "foo") = none) ∧
    (Reachable afterWrap ∧ (5 : Int) ≠ -1 ∧
      module_get_uniq_id afterWrap (some "a") 5 = (objectTagged0.member 0, afterWrap) ∧
      module_check_cast afterWrap (some objectTagged0) 0 (some "a") = none) :=
  ⟨⟨⟨_, rfl⟩, by decide, rfl⟩, reachable_afterWrap, by decide, by decide, rfl⟩

/-- C10 (cast guard, amended).  In every allocator state reached from `modules_init` by
calls of which at most `2 ^ 32` allocated an id, `module_check_cast(object, type_pos, id)`
returns the object unchanged exactly when the object is non-null, `id` is non-null and
the tag read from the object is the global id of a local tag `x ≠ -1` currently
registered in the numeric namespace of `id` (that is, `module_get_uniq_id(id, x)` returns
the tag without allocating); in every other case it returns NULL. -/
theorem C10_cast_guard (a : Allocator) (h : ReachableWithin 4294967296 a)
    (object : Option Object) (type_pos : Int) (id : Option String) :
    ((∃ o m x, object = some o ∧ id = some m ∧ x ≠ -1 ∧
        module_get_uniq_id a (some m) x = (o.member type_pos, a)) →
      module_check_cast a object type_pos id = object) ∧
    ((¬ ∃ o m x, object = some o ∧ id = some m ∧ x ≠ -1 ∧
        module_get_uniq_id a (some m) x = (o.member type_pos, a)) →
      module_check_cast a object type_pos id = none) := by
  constructor
  · rintro ⟨o, m, x, rfl, rfl, hx, hget⟩
    obtain ⟨n, _, hinv⟩ := h.inv (le_refl _)
    have hfind := hinv.num.find_registered (registered_of_get_uniq_id hget)
    have : module_find_id a (some m) (o.member type_pos) = x := by
      rw [module_find_id_eq, hfind]
      rfl
    simp [module_check_cast, this, hx]
  · intro hno
    cases object with
    | none => rfl
    | some o =>
      cases id with
      | none => rfl
      | some m =>
        by_cases hf : module_find_id a (some m) (o.member type_pos) = -1
        · simp [module_check_cast, hf]
        · exfalso
          rw [module_find_id_eq] at hf
          cases hu : uniq_find a.idlookup a.uniqids m (o.member type_pos) with
          | none => rw [hu] at hf; exact hf rfl
          | some x =>
            rw [hu] at hf
            obtain ⟨_, hreg⟩ := (uniq_find_eq_some_iff _ _ _ _ _).mp hu
            exact hno ⟨o, m, x, rfl, rfl, hf, get_uniq_id_of_registered hreg⟩

/-- Witness of C10: after `"foo"` registered tag `5` as global id `0`, an object tagged
`0` passes the guard for `"foo"` and is refused for `"bar"`. -/
theorem C10_cast_guard_witness :
    ReachableWithin 4294967296 (runOps modules_init_alloc [.get_uniq_id (some "foo") 5]) ∧
    module_check_cast (runOps modules_init_alloc [.get_uniq_id (some "foo") 5])
      (some objectTagged0) 0 (some "foo") = some objectTagged0 ∧
    module_check_cast (runOps modules_init_alloc [.get_uniq_id (some "foo") 5])
      (some objectTagged0) 0 (some "bar") = none :=
  ⟨⟨_, rfl, by decide⟩,
    (C10_cast_guard (runOps modules_init_alloc [.get_uniq_id (some "foo") 5])
      ⟨_, rfl, by decide⟩ (some objectTagged0) 0 (some "foo")).1
      ⟨objectTagged0, "foo", 5, rfl, rfl, by decide, by decide⟩,
    (C10_cast_guard (runOps modules_init_alloc [.get_uniq_id (some "foo") 5])
      ⟨_, rfl, by decide⟩ (some objectTagged0) 0 (some "bar")).2
      (fun ⟨_, m, x, _, hm, _, hget⟩ => by
        obtain ⟨ids, h1, _⟩ := registered_of_get_uniq_id hget
        have hbar : m = "bar" := (Option.some.inj hm).symm
        have hnone : g_hash_table_lookup
            (runOps modules_init_alloc [.get_uniq_id (some "foo") 5]).idlookup "bar" = none := by
          decide
        rw [hbar, hnone] at h1
        cases h1)⟩

/-! ## Lemmas on name derivation -/

theorem strrchr_none {l : List Char} {c : Char} (h : c ∉ l) : strrchr l c = none := by
  induction l with
  | nil => rfl
  | cons x t ih =>
    have hx : ¬ x = c := fun e => h (by simp [e])
    have ht : c ∉ t := fun e => h (List.mem_cons_of_mem _ e)
    simp [strrchr, ih ht, hx]

theorem strrchr_append (dir rest : List Char) {c : Char} (h : c ∉ rest) :
    strrchr (dir ++ c :: rest) c = some (c :: rest) := by
  induction dir with
  | nil => simp [strrchr, strrchr_none h]
  | cons x t ih => simp [strrchr, ih]

theorem strstr_none {l : List Char} (h : ¬ ['.', 's', 'o'] <:+: l) :
    strstr l ['.', 's', 'o'] = none := by
  induction l with
  | nil => simp [strstr]
  | cons x t ih =>
    have h1 : ¬ ['.', 's', 'o'] <+: x :: t := fun e => h e.isInfix
    have h2 : ¬ ['.', 's', 'o'] <:+: t := fun e => h (List.infix_cons e)
    have h3 : (['.', 's', 'o'] : List Char).isPrefixOf (x :: t) = false := by
      rw [Bool.eq_false_iff]
      intro e
      exact h1 (List.isPrefixOf_iff_prefix.mp e)
    simp only [strstr, h3, Bool.false_eq_true, if_false, ih h2, Option.map_none']

theorem strstr_first (pre post : List Char) (h : ¬ ['.', 's', 'o'] <:+: pre) :
    strstr (pre ++ ['.', 's', 'o'] ++ post) ['.', 's', 'o'] = some pre.length := by
  induction pre with
  | nil =>
    cases post <;> simp [strstr, List.isPrefixOf]
  | cons x t ih =>
    have h2 : ¬ ['.', 's', 'o'] <:+: t := fun e => h (List.infix_cons e)
    have h3 : (['.', 's', 'o'] : List Char).isPrefixOf (x :: t ++ ['.', 's', 'o'] ++ post)
        = false := by
      rw [Bool.eq_false_iff]
      intro e
      have hp := List.isPrefixOf_iff_prefix.mp e
      match t, h with
      | [], _ =>
        simp only [List.cons_append, List.nil_append, List.cons_prefix_cons] at hp
        exact absurd hp.2.1 (by decide)
      | [y], _ =>
        simp only [List.cons_append, List.nil_append, List.cons_prefix_cons] at hp
        exact absurd hp.2.2.1 (by decide)
      | y :: z :: w, h =>
        simp only [List.cons_append, List.cons_prefix_cons] at hp
        apply h
        apply List.IsPrefix.isInfix
        rw [hp.1, hp.2.1, hp.2.2.1]
        simp
    simp only [List.cons_append, List.append_assoc] at h3 ih ⊢
    simp only [strstr, h3, Bool.false_eq_true, if_false, ih h2, Option.map_some',
      List.length_cons]

theorem g_path_is_absolute_mk (l : List Char) :
    g_path_is_absolute (String.mk ('/' :: l)) = true := by
  simp [g_path_is_absolute]

/-- Name derivation on an absolute path `dir ++ "/" ++ F` whose last component `F` has
no separator: the directories are dropped, then a leading `lib`, then everything from
the first `.so` on. -/
theorem module_get_name_absolute (dir F : List Char) (hdir : dir = [] ∨ ∃ t, dir = '/' :: t)
    (hF : '/' ∉ F) :
    module_get_name (String.mk (dir ++ '/' :: F)) =
      match strstr (if F.take 3 = ['l', 'i', 'b'] then F.drop 3 else F) ['.', 's', 'o'] with
      | some ptr => String.mk ((if F.take 3 = ['l', 'i', 'b'] then F.drop 3 else F).take ptr)
      | none => String.mk (if F.take 3 = ['l', 'i', 'b'] then F.drop 3 else F) := by
  have habs : g_path_is_absolute (String.mk (dir ++ '/' :: F)) = true := by
    rcases hdir with rfl | ⟨t, rfl⟩
    · exact g_path_is_absolute_mk F
    · exact g_path_is_absolute_mk (t ++ '/' :: F)
  have hs : (String.mk (dir ++ '/' :: F)).toList = dir ++ '/' :: F := rfl
  simp only [module_get_name, habs, if_true, hs, strrchr_append dir F hF, Option.map_some',
    List.drop_succ_cons, List.drop_zero]

theorem module_load_name_true {env : Loader} {path name : String} {s s1 : State}
    (h : module_load_name env path name s = (true, s1)) :
    module_find s.modules name = none ∧
    ∃ (gm : GModule) (f : State → State) (opens : List Event),
      (∀ e ∈ opens, ∃ p r, e = Event.g_module_open p r) ∧
      (module_open env path s).1 = some gm ∧
      env.g_module_symbol gm (name ++ "_init") = some f ∧
      s1 = signal_emit env (Event.module_loaded { name := name, gmodule := gm })
        (f { modules := s.modules ++ [{ name := name, gmodule := gm }], alloc := s.alloc,
             trace := s.trace ++ opens ++
               [Event.g_module_symbol gm (name ++ "_init") true,
                Event.call gm (name ++ "_init")] }) := by
  obtain ⟨opens, hstate, hopens⟩ := module_open_spec env path s
  unfold module_load_name at h
  cases hf : module_find s.modules name with
  | some r => simp [hf] at h
  | none =>
    refine ⟨rfl, ?_⟩
    cases ho : (module_open env path s).1 with
    | none =>
      have hpair : module_open env path s = (none, (module_open env path s).2) := by
        rw [← ho]
      rw [hf, hpair] at h
      simp at h
    | some gm =>
      have hpair : module_open env path s = (some gm, { s with trace := s.trace ++ opens }) := by
        rw [← ho, ← hstate]
      rw [hf, hpair] at h
      cases hsym : env.g_module_symbol gm (name ++ "_init") with
      | none => simp [hsym] at h
      | some f =>
        refine ⟨gm, f, opens, hopens, rfl, hsym, ?_⟩
        simp only [hsym, Prod.mk.injEq, true_and] at h
        rw [← h]
        simp only [List.append_assoc, List.singleton_append, List.cons_append, List.nil_append]

theorem module_load_true {env : Loader} {path : String} {s s1 : State}
    (h : module_load env (some path) s = (true, s1)) :
    env.g_module_supported = true ∧
      module_load_name env path (module_get_name path) s = (true, s1) := by
  unfold module_load at h
  cases hsup : env.g_module_supported with
  | false => simp [hsup] at h
  | true =>
    refine ⟨rfl, ?_⟩
    simpa [hsup] using h

/-! ## Claims on name derivation -/

/-- C11, counterexample to the claim as stated.  For the relative path
`"plugins/libfoo.so"` the directory is not stripped (and so neither is `lib`):
`module_get_name` returns `"plugins/libfoo"`, not `"foo"`.  And a successful load need
not leave the name loaded: on `unloadingLoader` a handler of "module loaded" unloads the
module, `module_load("/usr/lib/irssi/modules/libfoo.so")` returns TRUE all the same, and
the `module_load("foo")` that follows is not rejected: it opens the library and returns
TRUE. -/
theorem C11_name_derivation_counterexample :
    module_get_name "plugins/libfoo.so" = "plugins/libfoo" ∧
    module_get_name "plugins/libfoo.so" ≠ "foo" ∧
    (module_load unloadingLoader (some "/usr/lib/irssi/modules/libfoo.so") modules_init).1 =
      true ∧
    module_get_name "/usr/lib/irssi/modules/libfoo.so" = module_get_name "foo" ∧
    (module_load unloadingLoader (some "foo")
      (module_load unloadingLoader (some "/usr/lib/irssi/modules/libfoo.so")
        modules_init).2).1 = true ∧
    Event.g_module_open "/usr/lib/irssi/modules/libfoo.so" (some 1) ∈
      ((module_load unloadingLoader (some "foo")
        (module_load unloadingLoader (some "/usr/lib/irssi/modules/libfoo.so")
          modules_init).2).2.trace.drop
        (module_load unloadingLoader (some "/usr/lib/irssi/modules/libfoo.so")
          modules_init).2.trace.length) := by
  decide

/-- Name derivation on a path without directory separator that is `"lib" ++ n ++ ".so"`. -/
theorem module_get_name_bare (n : List Char) (hso : ¬ ['.', 's', 'o'] <:+: n) :
    module_get_name (String.mk ('l' :: 'i' :: 'b' :: n ++ ['.', 's', 'o'])) = String.mk n := by
  have habs : g_path_is_absolute (String.mk ('l' :: 'i' :: 'b' :: n ++ ['.', 's', 'o'])) =
      false := by
    simp [g_path_is_absolute]
  have hs : (String.mk ('l' :: 'i' :: 'b' :: n ++ ['.', 's', 'o'])).toList =
      'l' :: 'i' :: 'b' :: n ++ ['.', 's', 'o'] := rfl
  have h3 : List.take 3 ('l' :: 'i' :: 'b' :: n ++ ['.', 's', 'o']) = ['l', 'i', 'b'] := by
    simp
  have h4 : List.drop 3 ('l' :: 'i' :: 'b' :: n ++ ['.', 's', 'o']) = n ++ ['.', 's', 'o'] := by
    simp
  have h5 := strstr_first n [] hso
  simp only [List.append_nil] at h5
  simp only [module_get_name, habs, Bool.false_eq_true, if_false, hs, h3, if_true, h4, h5]
  simp

/-- C11 (name derivation, amended).  `module_get_name` strips the directory components
of an absolute path, and a path without directory separator has none: for every path
that starts with `/` and whose last component is `"lib" ++ n ++ ".so"`, with `n`
containing no separator and no `".so"`, it returns `n`, and so it does for the path
`"lib" ++ n ++ ".so"` itself; in particular `module_get_name("/plugins/libfoo.so")`,
`module_get_name("libfoo.so")` and `module_get_name("foo")` are `"foo"`.  Consequently,
after a successful `module_load(path)` whose initializer and "module loaded" handlers
do not remove the new record from the loaded set, a `module_load(path')` with a derived
name equal (ignoring ASCII case) to that of `path` returns FALSE with the single
`MODULE_ERROR_ALREADY_LOADED` notification and no loader call. -/
theorem C11_name_derivation :
    (∀ dir n : List Char, (dir = [] ∨ ∃ t, dir = '/' :: t) → '/' ∉ n →
      ¬ ['.', 's', 'o'] <:+: n →
      module_get_name (String.mk (dir ++ '/' :: ('l' :: 'i' :: 'b' :: n ++ ['.', 's', 'o']))) =
        String.mk n) ∧
    (∀ n : List Char, '/' ∉ n → ¬ ['.', 's', 'o'] <:+: n →
      module_get_name (String.mk ('l' :: 'i' :: 'b' :: n ++ ['.', 's', 'o'])) = String.mk n) ∧
    module_get_name "/plugins/libfoo.so" = "foo" ∧ module_get_name "libfoo.so" = "foo" ∧
    module_get_name "foo" = "foo" ∧
    (∀ (env : Loader) (s s1 : State) (path path' : String),
      module_load env (some path) s = (true, s1) →
      (module_get_name path).toList.map Char.toLower =
        (module_get_name path').toList.map Char.toLower →
      (∀ gm f st, env.g_module_symbol gm (module_get_name path ++ "_init") = some f →
        ({ name := module_get_name path, gmodule := gm } : MODULE_REC) ∈ st.modules →
        ({ name := module_get_name path, gmodule := gm } : MODULE_REC) ∈ (f st).modules) →
      (∀ gm st,
        ({ name := module_get_name path, gmodule := gm } : MODULE_REC) ∈ st.modules →
        ({ name := module_get_name path, gmodule := gm } : MODULE_REC) ∈
          (env.signal_handlers
            (Event.module_loaded { name := module_get_name path, gmodule := gm }) st).modules) →
      module_load env (some path') s1 =
        (false, env.signal_handlers
          (Event.module_error ModuleError.MODULE_ERROR_ALREADY_LOADED
            (module_get_name path') none)
          { s1 with trace := s1.trace ++
            [Event.module_error ModuleError.MODULE_ERROR_ALREADY_LOADED
              (module_get_name path') none] })) := by
  refine ⟨?_, fun n _ hso => module_get_name_bare n hso, by decide, by decide, by decide, ?_⟩
  · intro dir n hdir hn hso
    have hF : '/' ∉ 'l' :: 'i' :: 'b' :: n ++ ['.', 's', 'o'] := by
      simp only [List.cons_append, List.mem_cons, List.mem_append, not_or]
      exact ⟨by decide, by decide, by decide, hn, by decide⟩
    rw [module_get_name_absolute dir _ hdir hF]
    have h3 : List.take 3 ('l' :: 'i' :: 'b' :: n ++ ['.', 's', 'o']) = ['l', 'i', 'b'] := by
      simp
    have h4 : List.drop 3 ('l' :: 'i' :: 'b' :: n ++ ['.', 's', 'o']) = n ++ ['.', 's', 'o'] := by
      simp
    simp only [h3, if_true, h4]
    have := strstr_first n [] hso
    simp only [List.append_nil] at this
    rw [this]
    simp
  · intro env s s1 path path' hload hci hinit hkeep
    obtain ⟨hsup, hname⟩ := module_load_true hload
    obtain ⟨_, gm, f, opens, _, _, hsym, hs1⟩ := module_load_name_true hname
    have hmem : ({ name := module_get_name path, gmodule := gm } : MODULE_REC) ∈ s1.modules := by
      rw [hs1]
      simp only [signal_emit]
      apply hkeep
      apply hinit gm f _ hsym
      simp
    rw [module_load_supported env s1 path' hsup]
    exact module_load_name_rejects env s1 path' _ _ hmem hci

/-- Witness of C11: the absolute path `/usr/lib/libfoo.so` and the bare name `libfoo.so`
give `foo`; and after the successful `module_load("/usr/lib/irssi/modules/libfoo.so")` on
`sampleLoader` the call `module_load("FOO")` is rejected. -/
theorem C11_name_derivation_witness :
    module_get_name (String.mk (['/', 'u', 's', 'r', '/', 'l', 'i', 'b'] ++
      '/' :: ('l' :: 'i' :: 'b' :: ['f', 'o', 'o'] ++ ['.', 's', 'o']))) =
      String.mk ['f', 'o', 'o'] ∧
    module_get_name (String.mk ('l' :: 'i' :: 'b' :: ['f', 'o', 'o'] ++ ['.', 's', 'o'])) =
      String.mk ['f', 'o', 'o'] ∧
    module_load sampleLoader (some "/usr/lib/irssi/modules/libfoo.so") modules_init =
      (true, fooLoaded) ∧
    module_load sampleLoader (some "FOO") fooLoaded =
      (false, { fooLoaded with trace := fooLoaded.trace ++
        [Event.module_error ModuleError.MODULE_ERROR_ALREADY_LOADED "FOO" none] }) :=
  ⟨C11_name_derivation.1 ['/', 'u', 's', 'r', '/', 'l', 'i', 'b'] ['f', 'o', 'o']
      (Or.inr ⟨_, rfl⟩) (by decide) (by decide),
    C11_name_derivation.2.1 ['f', 'o', 'o'] (by decide) (by decide),
    by decide,
    C11_name_derivation.2.2.2.2.2 sampleLoader modules_init fooLoaded
      "/usr/lib/irssi/modules/libfoo.so" "FOO" (by decide) (by decide)
      (fun gm f st h hm => by
        have hf : f = foo_init := by
          simp only [sampleLoader] at h
          split at h
          · exact (Option.some.inj h).symm
          · cases h
        rw [hf]
        exact hm)
      (fun _ _ hm => hm)⟩

/-- C18, counterexample to the claim as stated.  The name is cut at the first `.so`,
wherever it stands: the component `libfoo.so.1` does not end in `.so` and is still
truncated (to `foo`, not `foo.so.1`), and of `my.sound.so` the characters `.sound`
before the trailing `.so` are lost (the result is `my`, not `my.sound`). -/
theorem C18_strip_counterexample :
    module_get_name "/usr/lib/libfoo.so.1" = "foo" ∧
    module_get_name "/usr/lib/libfoo.so.1" ≠ "foo.so.1" ∧
    module_get_name "/usr/lib/my.sound.so" = "my" ∧
    module_get_name "/usr/lib/my.sound.so" ≠ "my.sound" := by
  decide

/-- C18 (prefix and suffix stripping, amended).  For every absolute path whose final
component is `F` (no separator in `F`), let `G` be `F` without a leading `lib` if it has
one.  If `G` contains no `.so`, `module_get_name` returns `G` unchanged; if
`G = pre ++ ".so" ++ post` with no `.so` in `pre` (the first occurrence), it returns
`pre`: everything from the first `.so` on is removed, and nothing else. -/
theorem C18_strip (dir F : List Char) (hdir : dir = [] ∨ ∃ t, dir = '/' :: t)
    (hF : '/' ∉ F) :
    (¬ ['.', 's', 'o'] <:+: (if F.take 3 = ['l', 'i', 'b'] then F.drop 3 else F) →
      module_get_name (String.mk (dir ++ '/' :: F)) =
        String.mk (if F.take 3 = ['l', 'i', 'b'] then F.drop 3 else F)) ∧
    (∀ pre post : List Char,
      (if F.take 3 = ['l', 'i', 'b'] then F.drop 3 else F) = pre ++ ['.', 's', 'o'] ++ post →
      ¬ ['.', 's', 'o'] <:+: pre →
      module_get_name (String.mk (dir ++ '/' :: F)) = String.mk pre) := by
  rw [module_get_name_absolute dir F hdir hF]
  constructor
  · intro h
    rw [strstr_none h]
  · intro pre post hG hpre
    rw [hG, strstr_first pre post hpre]
    simp

/-- Witness of C18: `/usr/lib/libfoo.so.1` has the component `libfoo.so.1`; without
`lib` it is `foo ++ ".so" ++ ".1"`, and the result is `foo`. -/
theorem C18_strip_witness :
    '/' ∉ ['l', 'i', 'b', 'f', 'o', 'o', '.', 's', 'o', '.', '1'] ∧
    ¬ ['.', 's', 'o'] <:+: ['f', 'o', 'o'] ∧
    module_get_name (String.mk (['/', 'u', 's', 'r', '/', 'l', 'i', 'b'] ++
      '/' :: ['l', 'i', 'b', 'f', 'o', 'o', '.', 's', 'o', '.', '1'])) =
      String.mk ['f', 'o', 'o'] :=
  ⟨by decide, by decide,
    (C18_strip ['/', 'u', 's', 'r', '/', 'l', 'i', 'b']
      ['l', 'i', 'b', 'f', 'o', 'o', '.', 's', 'o', '.', '1'] (Or.inr ⟨_, rfl⟩)
      (by decide)).2 ['f', 'o', 'o'] ['.', '1'] (by decide) (by decide)⟩

/-! ## Counting allocations -/

/-- C12, counterexample to the claim as stated.  `overflowOps` makes `2 ^ 31`
allocating calls, which return `0` to `INT_MAX`.  The next allocating call, the
`(2 ^ 31 + 1)`-th, returns `INT_MIN` and not `2 ^ 31`: the counter is an `int`. -/
theorem C12_scenario_counterexample :
    allocCount modules_init_alloc overflowOps = 2147483648 ∧
    AllocOp.allocates (runOps modules_init_alloc overflowOps) (.get_uniq_id (some "b") 7) =
      true ∧
    AllocOp.returned (runOps modules_init_alloc overflowOps) (.get_uniq_id (some "b") 7) =
      some (-2147483648) := by
  refine ⟨runOps_overflowOps.2, ?_, ?_⟩
  · rw [runOps_overflowOps.1]
    decide
  · rw [runOps_overflowOps.1]
    decide

/-- C12 (scenario and numbering, amended).  From a freshly initialised allocator
`module_get_uniq_id("foo", 5)` returns `0`, then `module_get_uniq_id("bar", 5)` returns
`1`, then `module_find_id("foo", 0)` returns `5` and `module_find_id("bar", 0)` returns
`-1`.  In general, after any sequence `ops` of allocator calls from `modules_init` that
allocated fewer than `2 ^ 31` ids, a call that allocates returns the number of
allocating calls made before it: the `k`-th allocating call returns `k - 1`, for every
`k` up to `2 ^ 31`. -/
theorem C12_scenario (ops : List AllocOp) (op : AllocOp) (ret : Int)
    (hno : allocCount modules_init_alloc ops < 2147483648)
    (hret : op.returned (runOps modules_init_alloc ops) = some ret)
    (halloc : op.allocates (runOps modules_init_alloc ops) = true) :
    (module_get_uniq_id modules_init_alloc (some "foo") 5).1 = 0 ∧
    (module_get_uniq_id (module_get_uniq_id modules_init_alloc (some "foo") 5).2
      (some "bar") 5).1 = 1 ∧
    module_find_id (module_get_uniq_id (module_get_uniq_id modules_init_alloc (some "foo") 5).2
      (some "bar") 5).2 (some "foo") 0 = 5 ∧
    module_find_id (module_get_uniq_id (module_get_uniq_id modules_init_alloc (some "foo") 5).2
      (some "bar") 5).2 (some "bar") 0 = -1 ∧
    ret = (allocCount modules_init_alloc ops : Int) := by
  refine ⟨by decide, by decide, by decide, by decide, ?_⟩
  have hinv := Inv.init.runOps ops (by omega)
  have h1 := (op.returned_lt hinv (by omega) ret hret).2 halloc
  rw [h1]
  simp

/-- Witness of C12: after two allocating calls, a repeated call and a purge, the third
allocating call returns `2`. -/
theorem C12_scenario_witness :
    allocCount modules_init_alloc
      [.get_uniq_id (some "foo") 5, .get_uniq_id (some "bar") 5,
        .get_uniq_id (some "foo") 5, .uniq_destroy "foo"] < 2147483648 ∧
    AllocOp.returned (runOps modules_init_alloc
      [.get_uniq_id (some "foo") 5, .get_uniq_id (some "bar") 5,
        .get_uniq_id (some "foo") 5, .uniq_destroy "foo"])
      (.get_uniq_id_str (some "foo") "x") = some 2 ∧
    AllocOp.allocates (runOps modules_init_alloc
      [.get_uniq_id (some "foo") 5, .get_uniq_id (some "bar") 5,
        .get_uniq_id (some "foo") 5, .uniq_destroy "foo"])
      (.get_uniq_id_str (some "foo") "x") = true ∧
    (2 : Int) = (allocCount modules_init_alloc
      [.get_uniq_id (some "foo") 5, .get_uniq_id (some "bar") 5,
        .get_uniq_id (some "foo") 5, .uniq_destroy "foo"] : Int) :=
  ⟨by decide, by decide, by decide,
    (C12_scenario [.get_uniq_id (some "foo") 5, .get_uniq_id (some "bar") 5,
        .get_uniq_id (some "foo") 5, .uniq_destroy "foo"]
      (.get_uniq_id_str (some "foo") "x") 2 (by decide) (by decide) (by decide)).2.2.2.2⟩

/-! ## The reverse maps hold nothing but mirrored namespace entries -/

theorem SpaceBack.after_get {K : Type} [DecidableEq K]
    {lk : GHashTable String (GHashTable K Int)} {rev : GHashTable Int K}
    (h : SpaceBack lk rev) (next : Int) (m : String) (x : K) :
    SpaceBack (uniq_get lk rev next m x).2.1 (uniq_get lk rev next m x).2.2.1 := by
  rcases registered_or_not lk m x with ⟨g, hg⟩ | hnr
  · rw [uniq_get_found hg]
    exact h
  · have hreg := uniq_get_registered lk rev next m x
    obtain ⟨lk', ids, heq, hx, hids, hnone, hlk⟩ := uniq_get_alloc rev next hnr
    rw [heq] at hreg ⊢
    simp only at hreg ⊢
    intro g y hg
    rw [lookup_insert] at hg
    by_cases he : next = g
    · simp only [he, if_true, Option.some.injEq] at hg
      rw [← hg, ← he]
      exact ⟨m, hreg⟩
    · simp only [he, if_false] at hg
      obtain ⟨m1, ids1, h1, h2⟩ := h g y hg
      refine ⟨m1, ?_⟩
      by_cases hm : m = m1
      · subst hm
        refine ⟨g_hash_table_insert ids x next, ?_, ?_⟩
        · simpa using hlk m
        · rw [lookup_insert]
          have hxy : ¬ x = y := by
            intro e
            subst e
            exact hnr g ⟨ids1, h1, h2⟩
          simp only [hxy, if_false]
          rw [← hids ids1 h1]
          exact h2
      · refine ⟨ids1, ?_, h2⟩
        rw [hlk m1]
        simp only [hm, if_false]
        exact h1

theorem SpaceBack.after_purge {K : Type} [DecidableEq K]
    {lk : GHashTable String (GHashTable K Int)} {rev : GHashTable Int K}
    (h : SpaceBack lk rev) (m : String) :
    SpaceBack (uniq_purge lk rev m).1 (uniq_purge lk rev m).2 := by
  intro g y hg
  have hold := uniq_purge_rev_sub hg
  obtain ⟨m1, ids1, h1, h2⟩ := h g y hold
  refine ⟨m1, ids1, ?_, h2⟩
  rw [uniq_purge_lookup]
  by_cases hm : m = m1
  · subst hm
    rw [uniq_purge_rev_removed h1 (mem_of_lookup h2)] at hg
    cases hg
  · simp only [hm, if_false]
    exact h1

theorem back_step {a : Allocator}
    (h : SpaceBack a.idlookup a.uniqids ∧ SpaceBack a.stridlookup a.uniqstrids)
    (op : AllocOp) :
    SpaceBack (op.step a).idlookup (op.step a).uniqids ∧
      SpaceBack (op.step a).stridlookup (op.step a).uniqstrids := by
  cases op with
  | get_uniq_id module id =>
    cases module with
    | none => exact h
    | some m =>
      simp only [AllocOp.step, module_get_uniq_id_eq]
      exact ⟨h.1.after_get _ m id, h.2⟩
  | get_uniq_id_str module id =>
    cases module with
    | none => exact h
    | some m =>
      simp only [AllocOp.step, module_get_uniq_id_str_eq]
      exact ⟨h.1, h.2.after_get _ m id⟩
  | uniq_destroy module =>
    simp only [AllocOp.step, module_uniq_destroy_eq]
    exact ⟨h.1.after_purge module, h.2.after_purge module⟩

theorem back_runOps {a : Allocator}
    (h : SpaceBack a.idlookup a.uniqids ∧ SpaceBack a.stridlookup a.uniqstrids)
    (ops : List AllocOp) :
    SpaceBack (runOps a ops).idlookup (runOps a ops).uniqids ∧
      SpaceBack (runOps a ops).stridlookup (runOps a ops).uniqstrids := by
  induction ops generalizing a with
  | nil => exact h
  | cons op ops ih => exact ih (back_step h op)

theorem Reachable.back {a : Allocator} (h : Reachable a) :
    SpaceBack a.idlookup a.uniqids ∧ SpaceBack a.stridlookup a.uniqstrids := by
  obtain ⟨ops, rfl⟩ := h
  apply back_runOps
  constructor <;> intro g x hg <;>
    simp [modules_init_alloc, g_hash_table_lookup_extended] at hg

theorem SpaceInv.mirror {K : Type} [DecidableEq K]
    {lk : GHashTable String (GHashTable K Int)} {rev : GHashTable Int K} {n : Nat}
    (h : SpaceInv lk rev n) (hb : SpaceBack lk rev) (g : Int) (x : K) :
    g_hash_table_lookup_extended rev g = some x ↔
      ∃ m, Registered lk m x g ∧
        ∀ m' ids' x', g_hash_table_lookup lk m' = some ids' → (x', g) ∈ ids' →
          m' = m ∧ x' = x := by
  constructor
  · intro hg
    obtain ⟨m, ids, h1, h2⟩ := hb g x hg
    refine ⟨m, ⟨ids, h1, h2⟩, ?_⟩
    intro m' ids' x' h3 h4
    refine ⟨h.own m' m ids' ids x' x g h3 h1 h4 (mem_of_lookup h2), ?_⟩
    have := h.fwd m' ids' x' g h3 h4
    rw [hg] at this
    exact (Option.some.inj this).symm
  · rintro ⟨m, ⟨ids, h1, h2⟩, _⟩
    exact h.fwd m ids x g h1 (mem_of_lookup h2)

/-- C13, counterexample to the claim as stated, in two states.  After `overflowOps`
(`2 ^ 31` allocations) `0` is a key of `uniqids` and `next_uniq_id` is `INT_MIN`: the key
is not smaller than the counter.  After `wrapOps` (`2 ^ 32 + 1` allocations) `uniqids`
maps the global id `0` to `7`, the tag of `"b"`, while the numeric namespace of `"a"`
still maps `5` to `0`: the entry of `uniqids` does not stand for exactly one namespace
entry with the value `0`. -/
theorem C13_registry_invariant_counterexample :
    (Reachable afterOverflow ∧
      g_hash_table_lookup_extended afterOverflow.uniqids 0 = some 5 ∧
      ¬ (0 < afterOverflow.next_uniq_id)) ∧
    (Reachable afterWrap ∧
      ¬ (g_hash_table_lookup_extended afterWrap.uniqids 0 = some 7 ↔
        ∃ m, Registered afterWrap.idlookup m 7 0 ∧
          ∀ m' ids' x', g_hash_table_lookup afterWrap.idlookup m' = some ids' →
            (x', 0) ∈ ids' → m' = m ∧ x' = 7)) := by
  refine ⟨⟨reachable_afterOverflow, by decide, by decide⟩, reachable_afterWrap, ?_⟩
  intro h
  obtain ⟨m, _, hall⟩ := h.mp (by decide)
  have h5 := (hall "a" [(5, 0)] 5 (by decide) (by decide)).2
  exact absurd h5 (by decide)

/-- C13 (registry invariant, amended).  In every allocator state reached from
`modules_init` by calls of which at most `2 ^ 32` allocated an id: `uniqids` maps `g` to
`x` if and only if some module's numeric namespace maps `x` to `g` and every numeric
namespace entry with value `g` is that entry of that module; the same holds between
`uniqstrids` and the string namespaces; and no `g` is a key of both reverse maps.  If
fewer than `2 ^ 31` ids were allocated, so that the counter has not overflowed, every
key of a reverse map is smaller than `next_uniq_id`. -/
theorem C13_registry_invariant (a : Allocator) (h : ReachableWithin 4294967296 a) :
    (∀ g x, g_hash_table_lookup_extended a.uniqids g = some x ↔
      ∃ m, Registered a.idlookup m x g ∧
        ∀ m' ids' x', g_hash_table_lookup a.idlookup m' = some ids' → (x', g) ∈ ids' →
          m' = m ∧ x' = x) ∧
    (∀ g x, g_hash_table_lookup_extended a.uniqstrids g = some x ↔
      ∃ m, Registered a.stridlookup m x g ∧
        ∀ m' ids' x', g_hash_table_lookup a.stridlookup m' = some ids' → (x', g) ∈ ids' →
          m' = m ∧ x' = x) ∧
    (∀ g, g_hash_table_lookup_extended a.uniqids g = none ∨
      g_hash_table_lookup_extended a.uniqstrids g = none) ∧
    (ReachableWithin 2147483647 a →
      (∀ g x, g_hash_table_lookup_extended a.uniqids g = some x → g < a.next_uniq_id) ∧
      (∀ g x, g_hash_table_lookup_extended a.uniqstrids g = some x → g < a.next_uniq_id)) := by
  obtain ⟨n, _, hinv⟩ := h.inv (le_refl _)
  have hback := h.reachable.back
  refine ⟨hinv.num.mirror hback.1, hinv.str.mirror hback.2, ?_, ?_⟩
  · intro g
    cases hg : g_hash_table_lookup_extended a.uniqids g with
    | none => exact Or.inl rfl
    | some x => exact Or.inr (hinv.disj g x hg)
  · intro hno
    obtain ⟨k, hk, hinv'⟩ := hno.inv (by omega)
    have hnext : a.next_uniq_id = k := by
      rw [hinv'.next_eq]
      exact wrap_int_of_range (by omega) (by omega)
    rw [hnext]
    exact ⟨fun g x hg => ((hinv'.num.bound g x hg).lt (by omega)).2,
      fun g x hg => ((hinv'.str.bound g x hg).lt (by omega)).2⟩

/-- Witness of C13 in the state `fooPurged`: global id `2` of `("bar", 5)` is mirrored
and below the counter, global id `0` of the purged `("foo", 5)` is in no map. -/
theorem C13_registry_invariant_witness :
    ReachableWithin 4294967296 fooPurged ∧ ReachableWithin 2147483647 fooPurged ∧
    g_hash_table_lookup_extended fooPurged.uniqids 2 = some 5 ∧
    (∃ m, Registered fooPurged.idlookup m 5 2 ∧
      ∀ m' ids' x', g_hash_table_lookup fooPurged.idlookup m' = some ids' → (x', 2) ∈ ids' →
        m' = m ∧ x' = 5) ∧
    (g_hash_table_lookup_extended fooPurged.uniqids 0 = none ∨
      g_hash_table_lookup_extended fooPurged.uniqstrids 0 = none) ∧
    (2 : Int) < fooPurged.next_uniq_id :=
  ⟨⟨_, rfl, by decide⟩, ⟨_, rfl, by decide⟩, by decide,
    ((C13_registry_invariant fooPurged ⟨_, rfl, by decide⟩).1 2 5).mp (by decide),
    (C13_registry_invariant fooPurged ⟨_, rfl, by decide⟩).2.2.1 0,
    ((C13_registry_invariant fooPurged ⟨_, rfl, by decide⟩).2.2.2 ⟨_, rfl, by decide⟩).1 2 5
      (by decide)⟩

/-! ## Case-insensitive lookup in the loaded set -/

theorem char_toNat_inj {a b : Char} (h : (a.toNat : Int) - (b.toNat : Int) = 0) : a = b := by
  have h' : a.toNat = b.toNat := by omega
  rw [← Char.ofNat_toNat a, ← Char.ofNat_toNat b, h']

theorem char_toNat_zero {a : Char} (h : (a.toNat : Int) = 0) : a = Char.ofNat 0 := by
  have h' : a.toNat = 0 := by omega
  rw [← Char.ofNat_toNat a, h']

theorem lower_eq_of_g_strcasecmp_chars (l1 l2 : List Char) (h1 : Char.ofNat 0 ∉ l1)
    (h2 : Char.ofNat 0 ∉ l2) (h : g_strcasecmp_chars l1 l2 = 0) :
    l1.map Char.toLower = l2.map Char.toLower := by
  induction l1 generalizing l2 with
  | nil =>
    cases l2 with
    | nil => rfl
    | cons c2 t2 =>
      exfalso
      simp only [g_strcasecmp_chars] at h
      exact h2 (by rw [← char_toNat_zero (a := c2) (by omega)]; simp)
  | cons c1 t1 ih =>
    cases l2 with
    | nil =>
      exfalso
      simp only [g_strcasecmp_chars] at h
      exact h1 (by rw [← char_toNat_zero (a := c1) (by omega)]; simp)
    | cons c2 t2 =>
      by_cases hc : c1.toLower = c2.toLower
      · simp only [g_strcasecmp_chars, hc, ne_eq, not_true_eq_false, if_false] at h
        simp only [List.map_cons, hc, List.cons.injEq, true_and]
        exact ih t2 (fun e => h1 (List.mem_cons_of_mem _ e))
          (fun e => h2 (List.mem_cons_of_mem _ e)) h
      · exfalso
        simp only [g_strcasecmp_chars, ne_eq, hc, not_false_eq_true, if_true] at h
        exact hc (char_toNat_inj h)

theorem g_strcasecmp_eq_zero_iff (a b : String) (ha : IsCString a) (hb : IsCString b) :
    g_strcasecmp a b = 0 ↔ EqIgnoreAsciiCase a b :=
  ⟨lower_eq_of_g_strcasecmp_chars _ _ ha hb, g_strcasecmp_chars_of_lower_eq _ _⟩

theorem module_find_eq_some_iff (modules : List MODULE_REC) (name : String) (r : MODULE_REC) :
    module_find modules name = some r ↔
      ∃ pre post, modules = pre ++ r :: post ∧ g_strcasecmp r.name name = 0 ∧
        ∀ q ∈ pre, g_strcasecmp q.name name ≠ 0 := by
  induction modules with
  | nil => simp [module_find]
  | cons hd tmp ih =>
    by_cases h : g_strcasecmp hd.name name = 0
    · simp only [module_find, h, if_true, Option.some.injEq]
      constructor
      · intro e
        subst e
        exact ⟨[], tmp, rfl, h, by simp⟩
      · rintro ⟨pre, post, heq, hr, hpre⟩
        cases pre with
        | nil =>
          simp only [List.nil_append, List.cons.injEq] at heq
          exact heq.1
        | cons p pre' =>
          simp only [List.cons_append, List.cons.injEq] at heq
          exact absurd (heq.1 ▸ h) (hpre p (List.mem_cons_self _ _))
    · simp only [module_find, h, if_false, ih]
      constructor
      · rintro ⟨pre, post, heq, hr, hpre⟩
        refine ⟨hd :: pre, post, by simp [heq], hr, ?_⟩
        intro q hq
        rcases List.mem_cons.mp hq with e | e
        · rw [e]; exact h
        · exact hpre q e
      · rintro ⟨pre, post, heq, hr, hpre⟩
        cases pre with
        | nil =>
          simp only [List.nil_append, List.cons.injEq] at heq
          exact absurd (heq.1 ▸ hr) h
        | cons p pre' =>
          simp only [List.cons_append, List.cons.injEq] at heq
          exact ⟨pre', post, heq.2, hr, fun q hq => hpre q (List.mem_cons_of_mem _ hq)⟩

/-- C14 (`module_find` is a case-insensitive scan).  For every loaded set and name
(C strings, that is, without NUL characters): `module_find(name)` returns the record
`r` if and only if `r` is the first record in list order whose name equals `name`
ignoring ASCII letter case, and it returns NULL if and only if no record has such a
name.  `module_find` only reads the loaded set: its result is a function of the list
and the name, and there is no state it could change. -/
theorem C14_module_find (modules : List MODULE_REC) (name : String) (hname : IsCString name)
    (hmods : ∀ q ∈ modules, IsCString q.name) :
    (∀ r, module_find modules name = some r ↔
      ∃ pre post, modules = pre ++ r :: post ∧ EqIgnoreAsciiCase r.name name ∧
        ∀ q ∈ pre, ¬ EqIgnoreAsciiCase q.name name) ∧
    (module_find modules name = none ↔ ∀ q ∈ modules, ¬ EqIgnoreAsciiCase q.name name) ∧
    ((∃ r, module_find modules name = some r) ↔
      ∃ q ∈ modules, EqIgnoreAsciiCase q.name name) := by
  have hiff : ∀ q ∈ modules, (g_strcasecmp q.name name = 0 ↔ EqIgnoreAsciiCase q.name name) :=
    fun q hq => g_strcasecmp_eq_zero_iff q.name name (hmods q hq) hname
  have hnone : module_find modules name = none ↔
      ∀ q ∈ modules, ¬ EqIgnoreAsciiCase q.name name := by
    rw [module_find_eq_none_iff]
    constructor
    · intro h q hq e
      exact h q hq ((hiff q hq).mpr e)
    · intro h q hq e
      exact h q hq ((hiff q hq).mp e)
  refine ⟨?_, hnone, ?_⟩
  · intro r
    rw [module_find_eq_some_iff]
    constructor
    · rintro ⟨pre, post, heq, hr, hpre⟩
      refine ⟨pre, post, heq, (hiff r (by simp [heq])).mp hr, ?_⟩
      intro q hq e
      exact hpre q hq ((hiff q (by simp [heq, hq])).mpr e)
    · rintro ⟨pre, post, heq, hr, hpre⟩
      refine ⟨pre, post, heq, (hiff r (by simp [heq])).mpr hr, ?_⟩
      intro q hq e
      exact hpre q hq ((hiff q (by simp [heq, hq])).mp e)
  · constructor
    · rintro ⟨r, hr⟩
      by_contra hno
      have : module_find modules name = none :=
        hnone.mpr (fun q hq e => hno ⟨q, hq, e⟩)
      rw [this] at hr
      cases hr
    · rintro ⟨q, hq, e⟩
      cases hf : module_find modules name with
      | some r => exact ⟨r, rfl⟩
      | none => exact absurd e (hnone.mp hf q hq)

/-- Witness of C14: in `mixedCase` the lookup of `"foo"` returns `Foo`, the first of
the two records whose names match. -/
theorem C14_module_find_witness :
    IsCString "foo" ∧ (∀ q ∈ mixedCase, IsCString q.name) ∧
    module_find mixedCase "foo" = some { name := "Foo", gmodule := 1 } ∧
    ∃ pre post, mixedCase = pre ++ { name := "Foo", gmodule := 1 } :: post ∧
      EqIgnoreAsciiCase "Foo" "foo" ∧ ∀ q ∈ pre, ¬ EqIgnoreAsciiCase q.name "foo" :=
  ⟨by simp [IsCString], by simp [IsCString, mixedCase], by decide,
    ((C14_module_find mixedCase "foo" (by simp [IsCString])
      (by simp [IsCString, mixedCase])).1 { name := "Foo", gmodule := 1 }).mp (by decide)⟩

/-! ## One load per name -/

theorem g_strcasecmp_chars_neg (l1 l2 : List Char) :
    g_strcasecmp_chars l1 l2 = - g_strcasecmp_chars l2 l1 := by
  induction l1 generalizing l2 with
  | nil =>
    cases l2 with
    | nil => simp [g_strcasecmp_chars]
    | cons c2 t2 => simp [g_strcasecmp_chars]
  | cons c1 t1 ih =>
    cases l2 with
    | nil => simp [g_strcasecmp_chars]
    | cons c2 t2 =>
      by_cases hc : c1.toLower = c2.toLower
      · simp only [g_strcasecmp_chars, hc, ne_eq, not_true_eq_false, if_false]
        exact ih t2
      · have hc' : ¬ c2.toLower = c1.toLower := fun e => hc e.symm
        simp only [g_strcasecmp_chars, ne_eq, hc, hc', not_false_eq_true, if_true]
        ring

theorem g_strcasecmp_symm {a b : String} (h : g_strcasecmp a b ≠ 0) : g_strcasecmp b a ≠ 0 := by
  unfold g_strcasecmp at h ⊢
  rw [g_strcasecmp_chars_neg]
  intro e
  apply h
  omega

theorem NoDupNames.append {modules : List MODULE_REC} (h : NoDupNames modules)
    {name : String} (hfind : module_find modules name = none) (gm : GModule) :
    NoDupNames (modules ++ [{ name := name, gmodule := gm }]) := by
  unfold NoDupNames at h ⊢
  rw [List.pairwise_append]
  refine ⟨h, List.pairwise_singleton _ _, ?_⟩
  intro r hr q hq
  simp only [List.mem_singleton] at hq
  subst hq
  exact (module_find_eq_none_iff modules name).mp hfind r hr

theorem NoDupNames.erase {modules : List MODULE_REC} (h : NoDupNames modules)
    (module : MODULE_REC) : NoDupNames (modules.erase module) :=
  List.Pairwise.sublist (List.erase_sublist module modules) h

theorem NoDupNames.erase_name {modules : List MODULE_REC} (h : NoDupNames modules)
    {module : MODULE_REC} (hmem : module ∈ modules) :
    ∀ q ∈ modules.erase module, g_strcasecmp q.name module.name ≠ 0 := by
  induction modules with
  | nil => simp at hmem
  | cons x t ih =>
    unfold NoDupNames at h ih
    rw [List.pairwise_cons] at h
    by_cases hx : x = module
    · subst hx
      intro q hq
      rw [List.erase_cons_head] at hq
      exact g_strcasecmp_symm (h.1 q hq)
    · have hmt : module ∈ t := by
        rcases List.mem_cons.mp hmem with e | e
        · exact absurd e.symm hx
        · exact e
      intro q hq
      rw [List.erase_cons_tail (by simpa using hx)] at hq
      rcases List.mem_cons.mp hq with e | e
      · rw [e]
        exact h.1 module hmt
      · exact ih h.2 hmt q e

theorem NoDupNames.not_eqIgnoreAsciiCase {modules : List MODULE_REC} (h : NoDupNames modules) :
    modules.Pairwise (fun r1 r2 => ¬ EqIgnoreAsciiCase r1.name r2.name) :=
  List.Pairwise.imp (fun hne e => hne (g_strcasecmp_chars_of_lower_eq _ _ e)) h

/-- If the entry points and handlers of a loader keep the loaded set free of duplicate
names, so does `module_load`. -/
theorem module_load_noDup (env : Loader)
    (hsym : ∀ gm sym f, env.g_module_symbol gm sym = some f →
      ∀ s, NoDupNames s.modules → NoDupNames (f s).modules)
    (hsig : ∀ e s, NoDupNames s.modules → NoDupNames (env.signal_handlers e s).modules)
    (path : Option String) (s : State) (hs : NoDupNames s.modules) :
    NoDupNames (module_load env path s).2.modules := by
  cases path with
  | none => exact hs
  | some path =>
    unfold module_load
    cases hsup : env.g_module_supported with
    | false => simpa using hs
    | true =>
      simp only [Bool.not_true, Bool.false_eq_true, if_false]
      obtain ⟨opens, hstate, _⟩ := module_open_spec env path s
      unfold module_load_name
      cases hf : module_find s.modules (module_get_name path) with
      | some r =>
        simp only [signal_emit]
        exact hsig _ _ hs
      | none =>
        cases ho : (module_open env path s).1 with
        | none =>
          have hpair : module_open env path s = (none, { s with trace := s.trace ++ opens }) := by
            rw [← ho, ← hstate]
          simp only [hpair, signal_emit]
          exact hsig _ _ hs
        | some gm =>
          have hpair : module_open env path s =
              (some gm, { s with trace := s.trace ++ opens }) := by
            rw [← ho, ← hstate]
          simp only [hpair]
          cases hsy : env.g_module_symbol gm (module_get_name path ++ "_init") with
          | none =>
            simp only [signal_emit]
            exact hsig _ _ hs
          | some f =>
            simp only [signal_emit]
            apply hsig
            apply hsym gm _ f hsy
            exact hs.append hf gm

/-- If the entry points and handlers of a loader keep the loaded set free of duplicate
names, so does `module_unload`. -/
theorem module_unload_noDup (env : Loader)
    (hsym : ∀ gm sym f, env.g_module_symbol gm sym = some f →
      ∀ s, NoDupNames s.modules → NoDupNames (f s).modules)
    (hsig : ∀ e s, NoDupNames s.modules → NoDupNames (env.signal_handlers e s).modules)
    (module : Option MODULE_REC) (s : State) (hs : NoDupNames s.modules) :
    NoDupNames (module_unload env module s).modules := by
  cases module with
  | none => exact hs
  | some module =>
    have h2 : NoDupNames (signal_emit env (Event.module_unloaded module)
        { s with modules := s.modules.erase module }).modules := by
      simp only [signal_emit]
      exact hsig _ _ (hs.erase module)
    cases hsy : env.g_module_symbol module.gmodule (module.name ++ "_deinit") with
    | none =>
      simp only [module_unload, hsy]
      exact h2
    | some f =>
      simp only [module_unload, hsy]
      apply hsym _ _ f hsy
      exact h2

theorem ReentrantCode.noDup {f : State → State} (h : ReentrantCode f) :
    ∀ s, NoDupNames s.modules → NoDupNames (f s).modules := by
  induction h with
  | frame f h =>
    intro s hs
    rw [h s]
    exact hs
  | comp f g _ _ ihf ihg =>
    intro s hs
    exact ihg _ (ihf s hs)
  | branch c f g _ _ ihf ihg =>
    intro s hs
    by_cases hc : c s = true
    · simp only [hc, if_true]
      exact ihf s hs
    · simp only [hc, Bool.false_eq_true, if_false]
      exact ihg s hs
  | load env path _ _ ihsym ihsig =>
    intro s hs
    exact module_load_noDup env ihsym ihsig (path s) s hs
  | unload env module _ _ ihsym ihsig =>
    intro s hs
    exact module_unload_noDup env ihsym ihsig (module s) s hs

theorem runCalls_noDup (env : Loader) (henv : ReentrantLoader env) (calls : List RegCall)
    (s : State) (hs : NoDupNames s.modules) : NoDupNames (runCalls env s calls).modules := by
  induction calls generalizing s with
  | nil => exact hs
  | cons c cs ih =>
    apply ih
    cases c with
    | load path =>
      exact module_load_noDup env (fun gm sym f h => (henv.1 gm sym f h).noDup)
        (fun e => (henv.2 e).noDup) path s hs
    | unload module =>
      exact module_unload_noDup env (fun gm sym f h => (henv.1 gm sym f h).noDup)
        (fun e => (henv.2 e).noDup) module s hs

theorem module_load_name_success (env : Loader) (s : State) (path name : String)
    (gm : GModule) (module_init : State → State)
    (hfind : module_find s.modules name = none)
    (hopen : (module_open env path s).1 = some gm)
    (hsym : env.g_module_symbol gm (name ++ "_init") = some module_init) :
    module_load_name env path name s =
      (true, signal_emit env (Event.module_loaded { name := name, gmodule := gm })
        (module_init
          { modules := s.modules ++ [{ name := name, gmodule := gm }],
            alloc := (module_open env path s).2.alloc,
            trace := (module_open env path s).2.trace ++
              [Event.g_module_symbol gm (name ++ "_init") true,
               Event.call gm (name ++ "_init")] })) := by
  obtain ⟨opens, hstate, _⟩ := module_open_spec env path s
  have hpair : module_open env path s = (some gm, (module_open env path s).2) := by
    rw [← hopen]
  unfold module_load_name
  rw [hfind]
  simp only
  rw [hpair]
  simp only [hsym, hstate, List.append_assoc, List.singleton_append, List.cons_append,
    List.nil_append]

theorem sampleLoader_reentrant : ReentrantLoader sampleLoader := by
  constructor
  · intro gm sym f h
    have hf : f = foo_init := by
      simp only [sampleLoader] at h
      split at h
      · exact (Option.some.inj h).symm
      · cases h
    rw [hf]
    exact ReentrantCode.frame _ (fun _ => rfl)
  · intro e
    exact ReentrantCode.frame _ (fun _ => rfl)

theorem reentrantLoader_reentrant : ReentrantLoader reentrantLoader := by
  constructor
  · intro gm sym f h
    have hf : f = foo_init_reentrant := by
      simp only [reentrantLoader] at h
      split at h
      · exact (Option.some.inj h).symm
      · cases h
    rw [hf]
    exact ReentrantCode.comp foo_init (fun s => (module_load sampleLoader (some "foo") s).2)
      (ReentrantCode.frame _ (fun _ => rfl))
      (ReentrantCode.load sampleLoader (fun _ => some "foo") sampleLoader_reentrant.1
        sampleLoader_reentrant.2)
  · intro e
    exact ReentrantCode.frame _ (fun _ => rfl)

/-- C15 (one load per name).  Let the entry points and signal handlers of the loader be
code that may re-enter `module_load`, `module_unload` and `module_find`
(`ReentrantLoader`).  Starting from the empty loaded set of `modules_init`, after any
sequence of `module_load` and `module_unload` calls no two records of the loaded set
have names that are equal ignoring ASCII case.  In particular, on the success path of
`module_load_name` the initializer is called in a state whose loaded set already ends
with the new record, and in that state a load of any name equal to it up to ASCII case
returns FALSE with the `MODULE_ERROR_ALREADY_LOADED` notification as its only
action. -/
theorem C15_one_load_per_name (env : Loader) (henv : ReentrantLoader env)
    (calls : List RegCall) :
    (runCalls env modules_init calls).modules.Pairwise
      (fun r1 r2 => ¬ EqIgnoreAsciiCase r1.name r2.name) ∧
    (∀ (s : State) (path name : String) (gm : GModule) (module_init : State → State),
      module_find s.modules name = none →
      (module_open env path s).1 = some gm →
      env.g_module_symbol gm (name ++ "_init") = some module_init →
      ∃ s_init : State,
        s_init.modules = s.modules ++ [{ name := name, gmodule := gm }] ∧
        module_load_name env path name s =
          (true, signal_emit env (Event.module_loaded { name := name, gmodule := gm })
            (module_init s_init)) ∧
        ∀ (env' : Loader) (path' name' : String), EqIgnoreAsciiCase name name' →
          module_load_name env' path' name' s_init =
            (false, env'.signal_handlers
              (Event.module_error ModuleError.MODULE_ERROR_ALREADY_LOADED name' none)
              { s_init with trace := s_init.trace ++
                [Event.module_error ModuleError.MODULE_ERROR_ALREADY_LOADED name' none] })) := by
  constructor
  · apply NoDupNames.not_eqIgnoreAsciiCase
    apply runCalls_noDup env henv
    exact List.Pairwise.nil
  · intro s path name gm module_init hfind hopen hsym
    refine ⟨_, rfl, module_load_name_success env s path name gm module_init hfind hopen hsym, ?_⟩
    intro env' path' name' hci
    exact module_load_name_rejects env' _ path' name' { name := name, gmodule := gm }
      (by simp) hci

/-- Witness of C15 on `reentrantLoader`, whose `foo_init` calls `module_load("foo")`
from inside: the re-entrant call is answered with `MODULE_ERROR_ALREADY_LOADED`, and
after loading, reloading under another spelling, unloading and loading again the loaded
set has one record. -/
theorem C15_one_load_per_name_witness :
    ReentrantLoader reentrantLoader ∧
    (runCalls reentrantLoader modules_init [.load (some "foo")]).trace =
      [Event.g_module_open "/usr/lib/irssi/modules/libfoo.so" (some 1),
       Event.g_module_symbol 1 "foo_init" true,
       Event.call 1 "foo_init",
       Event.module_error ModuleError.MODULE_ERROR_ALREADY_LOADED "foo" none,
       Event.module_loaded { name := "foo", gmodule := 1 }] ∧
    (runCalls reentrantLoader modules_init
      [.load (some "foo"), .load (some "/opt/libFOO.so"),
        .unload (some { name := "foo", gmodule := 1 }), .load (some "foo")]).modules =
      [{ name := "foo", gmodule := 1 }] ∧
    (runCalls reentrantLoader modules_init
      [.load (some "foo"), .load (some "/opt/libFOO.so"),
        .unload (some { name := "foo", gmodule := 1 }), .load (some "foo")]).modules.Pairwise
      (fun r1 r2 => ¬ EqIgnoreAsciiCase r1.name r2.name) :=
  ⟨reentrantLoader_reentrant, by decide, by decide,
    (C15_one_load_per_name reentrantLoader reentrantLoader_reentrant
      [.load (some "foo"), .load (some "/opt/libFOO.so"),
        .unload (some { name := "foo", gmodule := 1 }), .load (some "foo")]).1⟩

/-! ## Unload ordering -/

/-- C16, counterexample to the claim as stated.  On `reloadingLoader` a handler of
"module unloaded" loads `foo` again.  When `foo` is unloaded from `fooLoaded`, the state
the handlers leave, which is the state in which `foo_deinit` is resolved and called, has
`foo` in the loaded set: `module_find("foo")` reports the record, not absent.  The trace
of the call shows the second load between "module unloaded" and the finalizer. -/
theorem C16_unload_order_counterexample :
    ({ name := "foo", gmodule := 1 } : MODULE_REC) ∈ fooLoaded.modules ∧
    NoDupNames fooLoaded.modules ∧
    (reloadingLoader.g_module_symbol 1 "foo_deinit").isSome = true ∧
    module_find
      (reloadingLoader.signal_handlers (Event.module_unloaded { name := "foo", gmodule := 1 })
        { modules := fooLoaded.modules.erase { name := "foo", gmodule := 1 },
          alloc := fooLoaded.alloc,
          trace := fooLoaded.trace ++
            [Event.module_unloaded { name := "foo", gmodule := 1 }] }).modules "foo" =
      some { name := "foo", gmodule := 1 } ∧
    (module_unload reloadingLoader (some { name := "foo", gmodule := 1 }) fooLoaded).trace =
      fooLoaded.trace ++
        [Event.module_unloaded { name := "foo", gmodule := 1 },
         Event.g_module_open "/usr/lib/irssi/modules/libfoo.so" (some 1),
         Event.g_module_symbol 1 "foo_init" true,
         Event.call 1 "foo_init",
         Event.module_loaded { name := "foo", gmodule := 1 },
         Event.g_module_symbol 1 "foo_deinit" true,
         Event.call 1 "foo_deinit",
         Event.g_module_close 1] := by
  refine ⟨by decide, by decide, rfl, by decide, by decide⟩

/-- C16 (unload ordering, amended).  Let `module` be a record of a loaded set without
duplicate names.  `module_unload(module)` first removes the record and then emits
"module unloaded": the handlers receive the state `s_deliv`, whose loaded set is the
old one without the record and in which `module_find(name)` reports absent.  With
`s_fin` the state the handlers leave: if `"<name>_deinit"` resolves, the finalizer is
called on `s_fin` (after the symbol lookup) and the handle is closed once after it; if
it does not resolve, nothing is called and the handle is closed once.  Unless the
handlers have loaded a module of that name, that is, when every record of the loaded
set they leave was there before or has another name, `module_find(name)` reports absent
when the finalizer runs as well.  With handlers and a finalizer that add nothing to the
trace, the trace gained is "module unloaded", successful symbol lookup, call, close;
with a missing finalizer symbol it is "module unloaded", failed symbol lookup, close. -/
theorem C16_unload_order (env : Loader) (s : State) (module : MODULE_REC)
    (hmem : module ∈ s.modules) (hnodup : NoDupNames s.modules) :
    ∃ s_deliv s_fin : State,
      s_deliv = { modules := s.modules.erase module, alloc := s.alloc,
                  trace := s.trace ++ [Event.module_unloaded module] } ∧
      module_find s_deliv.modules module.name = none ∧
      s_fin = env.signal_handlers (Event.module_unloaded module) s_deliv ∧
      (∀ f, env.g_module_symbol module.gmodule (module.name ++ "_deinit") = some f →
        module_unload env (some module) s =
          { f { s_fin with trace := s_fin.trace ++
                [Event.g_module_symbol module.gmodule (module.name ++ "_deinit") true,
                 Event.call module.gmodule (module.name ++ "_deinit")] } with
            trace := (f { s_fin with trace := s_fin.trace ++
                [Event.g_module_symbol module.gmodule (module.name ++ "_deinit") true,
                 Event.call module.gmodule (module.name ++ "_deinit")] }).trace ++
              [Event.g_module_close module.gmodule] }) ∧
      (env.g_module_symbol module.gmodule (module.name ++ "_deinit") = none →
        module_unload env (some module) s =
          { s_fin with trace := s_fin.trace ++
            [Event.g_module_symbol module.gmodule (module.name ++ "_deinit") false,
             Event.g_module_close module.gmodule] }) ∧
      ((∀ r ∈ s_fin.modules, r ∈ s_deliv.modules ∨ g_strcasecmp r.name module.name ≠ 0) →
        module_find s_fin.modules module.name = none) ∧
      ((∀ e st, env.signal_handlers e st = st) →
        (∀ f, env.g_module_symbol module.gmodule (module.name ++ "_deinit") = some f →
          (∀ st, (f st).trace = st.trace) →
          (module_unload env (some module) s).trace = s.trace ++
            [Event.module_unloaded module,
             Event.g_module_symbol module.gmodule (module.name ++ "_deinit") true,
             Event.call module.gmodule (module.name ++ "_deinit"),
             Event.g_module_close module.gmodule]) ∧
        (env.g_module_symbol module.gmodule (module.name ++ "_deinit") = none →
          (module_unload env (some module) s).trace = s.trace ++
            [Event.module_unloaded module,
             Event.g_module_symbol module.gmodule (module.name ++ "_deinit") false,
             Event.g_module_close module.gmodule])) := by
  have hold : ∀ r ∈ s.modules.erase module, g_strcasecmp r.name module.name ≠ 0 :=
    hnodup.erase_name hmem
  have habsent : module_find (s.modules.erase module) module.name = none :=
    (module_find_eq_none_iff _ _).mpr hold
  refine ⟨_, _, rfl, habsent, rfl, ?_, ?_, ?_, ?_⟩
  · intro f hf
    simp only [module_unload, hf, signal_emit]
  · intro hnone
    simp only [module_unload, hnone, signal_emit, List.append_assoc, List.singleton_append]
  · intro hsub
    rw [module_find_eq_none_iff]
    intro r hr
    rcases hsub r hr with h1 | h1
    · exact hold r h1
    · exact h1
  · intro hquiet
    constructor
    · intro f hf hftrace
      simp only [module_unload, hf, signal_emit, hquiet, hftrace, List.append_assoc,
        List.singleton_append, List.cons_append, List.nil_append]
    · intro hnone
      simp only [module_unload, hnone, signal_emit, hquiet, List.append_assoc,
        List.singleton_append, List.cons_append, List.nil_append]

/-- Witness of C16: unloading `foo` from `fooLoaded` on `sampleLoader`, where
`foo_deinit` does not resolve and no handler is connected. -/
theorem C16_unload_order_witness :
    ({ name := "foo", gmodule := 1 } : MODULE_REC) ∈ fooLoaded.modules ∧
    NoDupNames fooLoaded.modules ∧
    module_find (sampleLoader.signal_handlers
        (Event.module_unloaded { name := "foo", gmodule := 1 })
        { modules := fooLoaded.modules.erase { name := "foo", gmodule := 1 },
          alloc := fooLoaded.alloc,
          trace := fooLoaded.trace ++
            [Event.module_unloaded { name := "foo", gmodule := 1 }] }).modules "foo" = none ∧
    (module_unload sampleLoader (some { name := "foo", gmodule := 1 }) fooLoaded).trace =
      fooLoaded.trace ++
        [Event.module_unloaded { name := "foo", gmodule := 1 },
         Event.g_module_symbol 1 "foo_deinit" false,
         Event.g_module_close 1] := by
  obtain ⟨s_deliv, s_fin, h1, _, h3, _, _, h6, h7⟩ :=
    C16_unload_order sampleLoader fooLoaded { name := "foo", gmodule := 1 } (by decide)
      (by decide)
  refine ⟨by decide, by decide, ?_, (h7 (fun _ _ => rfl)).2 rfl⟩
  have := h6 (fun r hr => Or.inl (by rw [h3] at hr; exact hr))
  rw [h3, h1] at this
  exact this

/-! ## Teardown -/

theorem foreach_uniq_get_modules {V : Type} (ptr : String → NamePtr)
    (t : GHashTable String V) (l : List NamePtr) :
    g_hash_table_foreach t (uniq_get_modules ptr) l = l ++ (keys t).map ptr := by
  unfold g_hash_table_foreach keys
  induction t generalizing l with
  | nil => simp
  | cons hd tl ih =>
    simp only [List.foldl_cons, List.map_cons]
    rw [ih]
    simp [uniq_get_modules]

theorem modules_deinit_loop_calls (l : List NamePtr) (calls : List String) (a : Allocator) :
    (modules_deinit_loop l (calls, a)).1 = calls ++ l.map NamePtr.name := by
  induction l generalizing calls a with
  | nil => simp [modules_deinit_loop]
  | cons data rest ih =>
    simp only [modules_deinit_loop]
    rw [ih]
    simp

theorem modules_deinit_calls (freed : String → String) (a : Allocator) :
    (modules_deinit freed a).1 = keys a.idlookup ++ keys a.stridlookup := by
  unfold modules_deinit
  simp only [foreach_uniq_get_modules, modules_deinit_loop_calls, List.nil_append,
    List.map_append, List.map_map]
  have h1 : (NamePtr.name ∘ fun key => NamePtr.idlookup_key key (freed key)) = id := rfl
  have h2 : (NamePtr.name ∘ fun key => NamePtr.stridlookup_key key (freed key)) = id := rfl
  rw [h1, h2, List.map_id, List.map_id]

theorem keys_insert {K V : Type} [DecidableEq K] (t : GHashTable K V) (k : K) (v : V) :
    keys (g_hash_table_insert t k v) = if k ∈ keys t then keys t else keys t ++ [k] := by
  unfold keys
  induction t with
  | nil => simp [g_hash_table_insert]
  | cons hd tl ih =>
    obtain ⟨k0, v0⟩ := hd
    by_cases h0 : k0 = k
    · subst h0
      simp [g_hash_table_insert]
    · have h1 : ¬ k = k0 := fun e => h0 e.symm
      simp only [g_hash_table_insert, h0, if_false, List.map_cons, ih, List.mem_cons, h1,
        false_or]
      split <;> simp

theorem nodup_keys_insert {K V : Type} [DecidableEq K] {t : GHashTable K V}
    (h : (keys t).Nodup) (k : K) (v : V) : (keys (g_hash_table_insert t k v)).Nodup := by
  rw [keys_insert]
  split
  · exact h
  · rename_i hk
    rw [List.nodup_append]
    refine ⟨h, List.nodup_singleton k, ?_⟩
    intro x hx hx'
    simp only [List.mem_singleton] at hx'
    subst hx'
    exact hk hx

theorem nodup_keys_remove {K V : Type} [DecidableEq K] {t : GHashTable K V}
    (h : (keys t).Nodup) (k : K) : (keys (g_hash_table_remove t k)).Nodup := by
  unfold keys g_hash_table_remove at *
  exact List.Nodup.sublist (List.Sublist.map _ (List.filter_sublist _)) h

theorem nodup_keys_uniq_get {K : Type} [DecidableEq K]
    {lk : GHashTable String (GHashTable K Int)} (h : (keys lk).Nodup)
    (rev : GHashTable Int K) (next : Int) (m : String) (x : K) :
    (keys (uniq_get lk rev next m x).2.1).Nodup := by
  unfold uniq_get
  cases h1 : g_hash_table_lookup lk m with
  | none =>
    simp only [g_hash_table_lookup_extended]
    exact nodup_keys_insert (nodup_keys_insert h m []) m _
  | some ids =>
    cases h2 : g_hash_table_lookup_extended ids x with
    | none =>
      simp only [h2]
      exact nodup_keys_insert h m _
    | some g =>
      simp only [h2]
      exact h

theorem nodup_keys_uniq_purge {K : Type} [DecidableEq K]
    {lk : GHashTable String (GHashTable K Int)} (h : (keys lk).Nodup)
    (rev : GHashTable Int K) (m : String) : (keys (uniq_purge lk rev m).1).Nodup := by
  unfold uniq_purge
  cases h1 : g_hash_table_lookup_extended lk m with
  | none => exact h
  | some ids => exact nodup_keys_remove h m

theorem nodup_keys_step {a : Allocator}
    (h : (keys a.idlookup).Nodup ∧ (keys a.stridlookup).Nodup) (op : AllocOp) :
    (keys (op.step a).idlookup).Nodup ∧ (keys (op.step a).stridlookup).Nodup := by
  cases op with
  | get_uniq_id module id =>
    cases module with
    | none => exact h
    | some m =>
      simp only [AllocOp.step, module_get_uniq_id_eq]
      exact ⟨nodup_keys_uniq_get h.1 _ _ m id, h.2⟩
  | get_uniq_id_str module id =>
    cases module with
    | none => exact h
    | some m =>
      simp only [AllocOp.step, module_get_uniq_id_str_eq]
      exact ⟨h.1, nodup_keys_uniq_get h.2 _ _ m id⟩
  | uniq_destroy module =>
    simp only [AllocOp.step, module_uniq_destroy_eq]
    exact ⟨nodup_keys_uniq_purge h.1 _ module, nodup_keys_uniq_purge h.2 _ module⟩

theorem Reachable.nodup_keys {a : Allocator} (h : Reachable a) :
    (keys a.idlookup).Nodup ∧ (keys a.stridlookup).Nodup := by
  obtain ⟨ops, rfl⟩ := h
  have : ∀ (a0 : Allocator), (keys a0.idlookup).Nodup ∧ (keys a0.stridlookup).Nodup →
      (keys (runOps a0 ops).idlookup).Nodup ∧ (keys (runOps a0 ops).stridlookup).Nodup := by
    induction ops with
    | nil => exact fun a0 h0 => h0
    | cons op ops ih => exact fun a0 h0 => ih _ (nodup_keys_step h0 op)
  apply this
  simp [modules_init_alloc, keys]

theorem mem_keys_iff {K V : Type} [DecidableEq K] (t : GHashTable K V) (k : K) :
    k ∈ keys t ↔ (g_hash_table_lookup t k).isSome = true := by
  unfold keys g_hash_table_lookup
  constructor
  · intro hk
    cases hl : g_hash_table_lookup_extended t k with
    | some v => rfl
    | none =>
      exfalso
      obtain ⟨⟨k', v⟩, hmem, hk'⟩ := List.mem_map.mp hk
      simp only at hk'
      subst hk'
      exact not_mem_of_lookup_none hl v hmem
  · intro hs
    cases hl : g_hash_table_lookup_extended t k with
    | some v => exact List.mem_map.mpr ⟨(k, v), mem_of_lookup hl, rfl⟩
    | none => rw [hl] at hs; cases hs

theorem count_keys {K V : Type} [DecidableEq K] {t : GHashTable K V} (h : (keys t).Nodup)
    (k : K) : (keys t).count k = if (g_hash_table_lookup t k).isSome then 1 else 0 := by
  by_cases hk : k ∈ keys t
  · rw [List.count_eq_one_of_mem h hk, if_pos ((mem_keys_iff t k).mp hk)]
  · rw [List.count_eq_zero.mpr hk, if_neg (fun e => hk ((mem_keys_iff t k).mpr e))]

/-- C17, counterexample to the claim as stated.  In the reachable state in which
`"foo"` has a namespace in both tag spaces, `modules_deinit` enumerates the name twice
(once from each table, the list is not deduplicated) and calls
`module_uniq_destroy("foo")` twice. -/
theorem C17_teardown_counterexample :
    Reachable fooBothSpaces ∧
    (g_hash_table_lookup fooBothSpaces.idlookup "foo").isSome = true ∧
    (g_hash_table_lookup fooBothSpaces.stridlookup "foo").isSome = true ∧
    (modules_deinit (fun _ => "") fooBothSpaces).1 = ["foo", "bar", "foo"] ∧
    (modules_deinit (fun _ => "") fooBothSpaces).1.count "foo" = 2 :=
  ⟨⟨_, rfl⟩, by decide, by decide, by decide, by decide⟩

/-- C17 (teardown, amended).  For every reachable allocator state and every module name
`m`, `modules_deinit` calls `module_uniq_destroy(m)` once for the numeric namespace of
`m` if it has one, plus once for the string namespace of `m` if it has one: exactly once
for a name with a namespace in one tag space, twice for a name with namespaces in both,
and never for other names (whatever the freed keys read as). -/
theorem C17_teardown (a : Allocator) (h : Reachable a) (m : String)
    (freed : String → String) :
    (modules_deinit freed a).1.count m =
      (if (g_hash_table_lookup a.idlookup m).isSome then 1 else 0) +
      (if (g_hash_table_lookup a.stridlookup m).isSome then 1 else 0) := by
  rw [modules_deinit_calls, List.count_append, count_keys h.nodup_keys.1,
    count_keys h.nodup_keys.2]

/-- Witness of C17 in `fooBothSpaces`: `"bar"` has a numeric namespace only and is
purged once. -/
theorem C17_teardown_witness :
    Reachable fooBothSpaces ∧
    (modules_deinit (fun _ => "") fooBothSpaces).1.count "bar" = 1 + 0 :=
  ⟨⟨_, rfl⟩, C17_teardown fooBothSpaces ⟨_, rfl⟩ "bar" (fun _ => "")⟩

/-! ## Soundness of the lookups and the frame of a purge -/

/-- C19 (soundness of the lookups).  In every allocator state (reachable or not), for
every module argument and global id `g`: if `module_find_id(module, g)` returns
`x ≠ -1`, then `module` is non-null and its own numeric namespace maps `x` to `g`, so
that `module_get_uniq_id(module, x)` returns `g` without changing the state; if
`module_find_id_str(module, g)` returns a non-null `s`, the string namespace of `module`
maps `s` to `g` likewise.  Both lookups are functions of the allocator state and have no
state to change. -/
theorem C19_find_sound (a : Allocator) (module : Option String) (g : Int) :
    (∀ x : Int, module_find_id a module g = x → x ≠ -1 →
      ∃ m, module = some m ∧ Registered a.idlookup m x g ∧
        module_get_uniq_id a (some m) x = (g, a)) ∧
    (∀ s : String, module_find_id_str a module g = some s →
      ∃ m, module = some m ∧ Registered a.stridlookup m s g ∧
        module_get_uniq_id_str a (some m) s = (g, a)) := by
  cases module with
  | none =>
    constructor
    · intro x hx hne
      exact absurd hx.symm hne
    · intro s hs
      cases hs
  | some m =>
    constructor
    · intro x hx hne
      rw [module_find_id_eq] at hx
      cases hu : uniq_find a.idlookup a.uniqids m g with
      | none =>
        rw [hu] at hx
        exact absurd hx.symm hne
      | some y =>
        rw [hu] at hx
        have hy : y = x := hx
        subst hy
        obtain ⟨_, hreg⟩ := (uniq_find_eq_some_iff _ _ _ _ _).mp hu
        exact ⟨m, rfl, hreg, get_uniq_id_of_registered hreg⟩
    · intro s hs
      rw [module_find_id_str_eq] at hs
      obtain ⟨_, hreg⟩ := (uniq_find_eq_some_iff _ _ _ _ _).mp hs
      exact ⟨m, rfl, hreg, get_uniq_id_str_of_registered hreg⟩

/-- Witness of C19 in `threeTags`: `module_find_id("bar", 1)` returns `5`, and
`("bar", 5)` is registered with id `1`. -/
theorem C19_find_sound_witness :
    module_find_id threeTags (some "bar") 1 = 5 ∧ (5 : Int) ≠ -1 ∧
    ∃ m, some "bar" = some m ∧ Registered threeTags.idlookup m 5 1 ∧
      module_get_uniq_id threeTags (some m) 5 = (1, threeTags) :=
  ⟨by decide, by decide,
    (C19_find_sound threeTags (some "bar") 1).1 5 (by decide) (by decide)⟩

theorem uniq_find_congr {K : Type} [DecidableEq K]
    {lk lk' : GHashTable String (GHashTable K Int)} {rev rev' : GHashTable Int K}
    {m : String} {g : Int}
    (h1 : g_hash_table_lookup_extended rev' g = g_hash_table_lookup_extended rev g)
    (h2 : g_hash_table_lookup lk' m = g_hash_table_lookup lk m) :
    uniq_find lk' rev' m g = uniq_find lk rev m g := by
  unfold uniq_find
  rw [h1, h2]

theorem SpaceInv.purge_frame {K : Type} [DecidableEq K]
    {lk : GHashTable String (GHashTable K Int)} {rev : GHashTable Int K} {n : Nat}
    (h : SpaceInv lk rev n) {m m' : String} (hne : m' ≠ m) (g : Int) :
    uniq_find (Irssi.uniq_purge lk rev m).1 (Irssi.uniq_purge lk rev m).2 m' g = uniq_find lk rev m' g := by
  have hlk : g_hash_table_lookup (Irssi.uniq_purge lk rev m).1 m' = g_hash_table_lookup lk m' := by
    rw [uniq_purge_lookup]
    have : ¬ m = m' := fun e => hne e.symm
    simp only [this, if_false]
  by_cases hg : ∃ ids x, g_hash_table_lookup lk m = some ids ∧ (x, g) ∈ ids
  · obtain ⟨ids, x, h1, h2⟩ := hg
    rw [uniq_find_of_rev_none (uniq_purge_rev_removed h1 h2)]
    cases hf : uniq_find lk rev m' g with
    | none => rfl
    | some y =>
      exfalso
      obtain ⟨_, ids', h3, h4⟩ := (uniq_find_eq_some_iff _ _ _ _ _).mp hf
      exact hne (h.own m' m ids' ids y x g h3 h1 (mem_of_lookup h4) h2)
  · refine uniq_find_congr (uniq_purge_rev_kept ?_) hlk
    intro ids x h1 h2
    exact hg ⟨ids, x, h1, h2⟩

theorem module_uniq_destroy_absent {a : Allocator} {m : String}
    (h1 : g_hash_table_lookup a.idlookup m = none)
    (h2 : g_hash_table_lookup a.stridlookup m = none) :
    module_uniq_destroy a (.caller m) = a := by
  rw [module_uniq_destroy_eq, uniq_purge_absent h1, uniq_purge_absent h2]

theorem module_uniq_destroy_twice (a : Allocator) (m : String) :
    module_uniq_destroy (module_uniq_destroy a (.caller m)) (.caller m) =
      module_uniq_destroy a (.caller m) := by
  apply module_uniq_destroy_absent
  · rw [module_uniq_destroy_eq]
    simp only [uniq_purge_lookup, if_true]
  · rw [module_uniq_destroy_eq]
    simp only [uniq_purge_lookup, if_true]

/-- C20, counterexample to the claim as stated, in two states.  In the state reached by
`wrapOps` (`2 ^ 32 + 1` allocations) `module_uniq_destroy("a")` changes what
`module_find_id("b", 0)` returns, from `7` to `-1`: the global id `0` is in the
namespaces of both modules.  In the state `fooBothSpaces`, where `"foo"` has a namespace
in both tag spaces, `modules_deinit` purges `"foo"` through the key of `idlookup` and
then through the key of `stridlookup`; the first call frees its argument before the
string half reads it, so it leaves the string namespace to the second call, and the two
calls do not give the state of the first. -/
theorem C20_purge_frame_counterexample :
    (Reachable afterWrap ∧ some "b" ≠ some "a" ∧
      module_find_id afterWrap (some "b") 0 = 7 ∧
      module_find_id (module_uniq_destroy afterWrap (.caller "a")) (some "b") 0 = -1) ∧
    (Reachable fooBothSpaces ∧
      module_uniq_destroy (module_uniq_destroy fooBothSpaces (.idlookup_key "foo" ""))
          (.stridlookup_key "foo" "") ≠
        module_uniq_destroy fooBothSpaces (.idlookup_key "foo" "")) :=
  ⟨⟨reachable_afterWrap, by decide, by decide, by decide⟩, ⟨_, rfl⟩, by decide⟩

/-- C20 (purge frame, amended).  For every allocator state and every module name `m`,
passed to `module_uniq_destroy` as a string of the caller (not as the key a table
stores): if the state is reached from `modules_init` by calls of which at most `2 ^ 32`
allocated an id, the call leaves the results of `module_find_id(m', g)` and
`module_find_id_str(m', g)` unchanged for every module argument `m'` other than `m` and
every `g`; in every state it leaves `next_uniq_id` unchanged, changes nothing at all
when `m` has no namespace in either tag space, and calling it twice gives the same state
as calling it once. -/
theorem C20_purge_frame (a : Allocator) (m : String) :
    (ReachableWithin 4294967296 a → ∀ (m' : Option String) (g : Int), m' ≠ some m →
      module_find_id (module_uniq_destroy a (.caller m)) m' g = module_find_id a m' g ∧
      module_find_id_str (module_uniq_destroy a (.caller m)) m' g =
        module_find_id_str a m' g) ∧
    (module_uniq_destroy a (.caller m)).next_uniq_id = a.next_uniq_id ∧
    (g_hash_table_lookup a.idlookup m = none → g_hash_table_lookup a.stridlookup m = none →
      module_uniq_destroy a (.caller m) = a) ∧
    module_uniq_destroy (module_uniq_destroy a (.caller m)) (.caller m) =
      module_uniq_destroy a (.caller m) := by
  refine ⟨?_, ?_, module_uniq_destroy_absent, module_uniq_destroy_twice a m⟩
  · intro h m' g hne
    obtain ⟨n, _, hinv⟩ := h.inv (le_refl _)
    cases m' with
    | none => exact ⟨rfl, rfl⟩
    | some o =>
      have hne' : o ≠ m := fun e => hne (by rw [e])
      rw [module_find_id_eq, module_find_id_eq, module_find_id_str_eq, module_find_id_str_eq,
        module_uniq_destroy_eq]
      simp only
      rw [hinv.num.purge_frame hne' g, hinv.str.purge_frame hne' g]
      exact ⟨rfl, rfl⟩
  · rw [module_uniq_destroy_eq]

/-- Witness of C20 in `threeTags`: purging `"foo"` keeps the id of `("bar", 5)` valid
and the counter at `3`, and purging the unknown name `"baz"` changes nothing. -/
theorem C20_purge_frame_witness :
    ReachableWithin 4294967296 threeTags ∧
    module_find_id (module_uniq_destroy threeTags (.caller "foo")) (some "bar") 1 =
      module_find_id threeTags (some "bar") 1 ∧
    (module_uniq_destroy threeTags (.caller "foo")).next_uniq_id = threeTags.next_uniq_id ∧
    module_uniq_destroy threeTags (.caller "baz") = threeTags :=
  ⟨⟨_, rfl, by decide⟩,
    ((C20_purge_frame threeTags "foo").1 ⟨_, rfl, by decide⟩ (some "bar") 1 (by decide)).1,
    (C20_purge_frame threeTags "foo").2.1,
    (C20_purge_frame threeTags "baz").2.2.1 (by decide) (by decide)⟩

end Irssi
